import Mathlib

/-!
# Folding of usecode function nodes (tools/fold/FuncNodes.cpp)

A shallow embedding of `DCFuncNode::fold`, its four marker helpers and the
switch-collapse pass, of the renderers of `DCFuncNode`, of `FuncMutatorNode`
(`fold`, `print_bin`) and of `ConvertUsecodeU8::readheader`, followed by the
properties proved about them.

Conventions of the embedding

* A `std::deque<Node *>` is a `List Node` written front to back: the deque's
  `back()` is the last element of the list.
* A failed `assert` is a fatal error: the function returns `none`.  So is the use
  of a null pointer.
* `uint32` fields are natural numbers; where the code computes with them the
  arithmetic is done modulo 2^32.
* A nullable pointer is an `Option`.
* A `static_cast` to a node class that follows a test of the opcode is a match
  on the constructor together with that test; a node of another class fails the
  test.  `dynamic_cast` is a match on the constructor.
* A byte buffer is the list of its bytes; the console is the list of the calls
  made on it.
-/

namespace Fold

/-! ## Data model -/

/-- Value-type tags of `Type` (void, word, dword, invalid). -/
inductive TypeTag where
  | T_VOID
  | T_WORD
  | T_DWORD
  | T_INVALID
deriving DecidableEq, Repr

/-- The `DataType` of a variable push: `dtype()` is the declared kind of the
datum, `value()` the slot (or literal) it names. -/
structure DataType where
  dtype : Nat
  value : Nat
deriving DecidableEq, Repr

/-- Modelled from the spec: `IfNode.h` is not part of the sources.  The kind tag
of a conditional: plain-if, else-if-continuation, else.  The fold only ever
compares it with `I_ELSE`. -/
inductive IfType where
  | I_IF
  | I_ELSE_IF
  | I_ELSE
deriving DecidableEq, Repr

/-- The `mtype` of a `FuncMutatorNode`, as enumerated by its print functions. -/
inductive MutatorType where
  | RET
  | INIT
  | LINE_NUMBER
  | SYMBOL_INFO
  | SUSPEND
  | END
deriving DecidableEq, Repr

/-- Nodes of the tree.  Every node carries the three attributes of the base
class (`opcode()`, `offset()`, `rtype()`); the constructor is the C++ class, its
other fields are the accessors that FuncNodes.cpp calls on that class (the class
declarations themselves are not part of the sources).

* `other`: a node of a class the fold never looks into;
* `pushVar`: `PushVarNode` with its `dtype()`;
* `binOperator`: `BinOperatorNode` with `a_lnode()` and `a_rnode()`;
* `callMutator`: `DCCallMutatorNode` with `a_lnode()` and `a_rnode()`;
* `funcMutator`: `FuncMutatorNode` with `mtype`, `a_initsize()`, `_linenum`,
  `_symboloffset` and `_classname`;
* `ifNode`: `IfNode` with `itype`, the condition `a_node()` and the body
  `nodes()`;
* `caseNode`: `CaseNode` with its match value (absent for the default case) and
  body `nodes()`;
* `switchNode`: `SwitchNode` with its discriminant, its cases and the original
  conditionals it replaced. -/
inductive Node where
  | other (opcode offset : Nat) (rtype : TypeTag)
  | pushVar (opcode offset : Nat) (rtype : TypeTag) (dtype : DataType)
  | binOperator (opcode offset : Nat) (rtype : TypeTag) (lnode rnode : Option Node)
  | callMutator (opcode offset : Nat) (rtype : TypeTag) (lnode rnode : Option Node)
  | funcMutator (opcode offset : Nat) (rtype : TypeTag) (mtype : MutatorType)
      (initsize linenum symboloffset : Nat) (classname : String)
  | ifNode (opcode offset : Nat) (rtype : TypeTag) (itype : IfType)
      (node : Option Node) (nodes : List Node)
  | caseNode (opcode offset : Nat) (rtype : TypeTag) (value : Option Node)
      (nodes : List Node)
  | switchNode (opcode offset : Nat) (rtype : TypeTag) (expr : Node)
      (cases : List Node) (originals : List Node)

namespace Node

/-- `Node::opcode()`. -/
def opcode : Node → Nat
  | other op _ _ => op
  | pushVar op _ _ _ => op
  | binOperator op _ _ _ _ => op
  | callMutator op _ _ _ _ => op
  | funcMutator op _ _ _ _ _ _ _ => op
  | ifNode op _ _ _ _ _ => op
  | caseNode op _ _ _ _ => op
  | switchNode op _ _ _ _ _ => op

/-- `Node::offset()`. -/
def offset : Node → Nat
  | other _ off _ => off
  | pushVar _ off _ _ => off
  | binOperator _ off _ _ _ => off
  | callMutator _ off _ _ _ => off
  | funcMutator _ off _ _ _ _ _ _ => off
  | ifNode _ off _ _ _ _ => off
  | caseNode _ off _ _ _ => off
  | switchNode _ off _ _ _ _ => off

/-- `Node::rtype()`. -/
def rtype : Node → TypeTag
  | other _ _ t => t
  | pushVar _ _ t _ => t
  | binOperator _ _ t _ _ => t
  | callMutator _ _ t _ _ => t
  | funcMutator _ _ t _ _ _ _ _ => t
  | ifNode _ _ t _ _ _ => t
  | caseNode _ _ t _ _ => t
  | switchNode _ _ t _ _ _ => t

end Node

/-- Modelled from the spec: `acceptOp` (GenericNodes.h) is not part of the
sources.  Each marker of the opcode table is one byte, and the fold uses
`acceptOp(op, b)` and `op==b` side by side for the same bytes: the opcode is
accepted when it is the wanted one. -/
def acceptOp (opcode want1 : Nat) : Bool :=
  opcode == want1

/-- `StartupNode`, built by the fold from the function's start offset. -/
structure StartupNode where
  offset : Nat
deriving DecidableEq, Repr

/-- The fields of `DCFuncNode` that the fold reads and writes. -/
structure DCFuncNode where
  funcnodes : List Node
  setinfonode : Option Node
  startupnode : Option StartupNode
  locals_datasize : Nat
  func_start_offset : Nat
  process_type : Nat
  debug_processtype_offset : Nat
  debug_ret_offset : Nat
  debug_end_offset : Nat
  debug_procexclude_offset : Nat
  is_startup : Bool
  has_procexclude : Bool
  debug_thisp : Bool

/-! ## The marker helpers -/

/-- `DCFuncNode::fold_ret`: the back of the deque is the return marker (0x50);
it is popped and its offset recorded. -/
def fold_ret (fn : DCFuncNode) (nodes : List Node) : Option (DCFuncNode × List Node) :=
  match nodes.getLast? with
  | none => none
  | some retnode =>
    if retnode.opcode = 0x50 then
      some ({ fn with debug_ret_offset := retnode.offset }, nodes.dropLast)
    else none

/-- `DCFuncNode::fold_procexclude`: the back of the deque is the process-exclude
marker (0x78); it is popped, the flag set and its offset recorded. -/
def fold_procexclude (fn : DCFuncNode) (nodes : List Node) :
    Option (DCFuncNode × List Node) :=
  match nodes.getLast? with
  | none => none
  | some procexcludenode =>
    if procexcludenode.opcode = 0x78 then
      some ({ fn with has_procexclude := true,
                      debug_procexclude_offset := procexcludenode.offset },
            nodes.dropLast)
    else none

/-- The chain of assertions of `fold_setinfo` on the popped set-info node: the
left operand is a push word (0x0B) whose value is the process type, the right
operand is a push indirect (0x4C) whose own left operand is of type dword and
has value 0x06.  Returns the process type. -/
def setinfoProcessType : Node → Option Nat
  | .callMutator _ _ _ (some (.pushVar lop _ _ ldt))
      (some (.callMutator rop _ _ (some (.pushVar _ _ thisRtype thisDt)) _)) =>
    if lop = 0x0B ∧ rop = 0x4C ∧ thisRtype = TypeTag.T_DWORD ∧ thisDt.value = 0x06 then
      some ldt.value
    else none
  | _ => none

/-- `DCFuncNode::fold_setinfo`: the back of the deque is the set-info marker
(0x77); it is popped and kept as `setinfonode`, its operands are validated, the
process type recorded and the this-pointer confirmed. -/
def fold_setinfo (fn : DCFuncNode) (nodes : List Node) : Option (DCFuncNode × List Node) :=
  match nodes.getLast? with
  | none => none
  | some setinfonode =>
    if setinfonode.opcode = 0x77 then
      match setinfoProcessType setinfonode with
      | none => none
      | some v =>
        some ({ fn with setinfonode := some setinfonode,
                        process_type := v,
                        debug_processtype_offset := v,
                        debug_thisp := true },
              nodes.dropLast)
    else none

/-- `Node.a_initsize` of a `FuncMutatorNode`; `none` for a node of another
class. -/
def a_initsize : Node → Option Nat
  | .funcMutator _ _ _ _ initsize _ _ _ => some initsize
  | _ => none

/-- `DCFuncNode::fold_init`: the back of the deque is the init marker (0x5A); it
is popped, the size of the locals and the start offset recorded. -/
def fold_init (fn : DCFuncNode) (nodes : List Node) : Option (DCFuncNode × List Node) :=
  match nodes.getLast? with
  | none => none
  | some initnode =>
    if initnode.opcode = 0x5A then
      match a_initsize initnode with
      | none => none
      | some sz =>
        some ({ fn with locals_datasize := sz,
                        func_start_offset := initnode.offset },
              nodes.dropLast)
    else none

/-! ## The switch-collapse pass (lines 367-434) -/

/-- The test at the head of a loop iteration (lines 370-381): the node is a
conditional (0x51) whose condition is an equality comparison (0x24) with a
left-hand operand.  Returns that operand, `baseExpr`. -/
def baseExprOf : Node → Option Node
  | .ifNode op _ _ _ (some (.binOperator cop _ _ (some baseExpr) _)) _ =>
    if op = 0x51 ∧ acceptOp cop 0x24 then some baseExpr else none
  | _ => none

/-- The body of the inner `while` (lines 385-399) for one node: it joins the
chain when it is a conditional (0x51) other than an else, its condition is an
equality comparison (0x24), and the left-hand operand of the comparison and
`baseExpr` are both variable pushes with the same `dtype()` kind and value. -/
def chainAccepts (baseExpr : Node) : Node → Bool
  | .ifNode op _ _ itype (some (.binOperator cop _ _ (some (.pushVar _ _ _ lhs)) _)) _ =>
    match baseExpr with
    | .pushVar _ _ _ rhs =>
      op == 0x51 && itype != IfType.I_ELSE && acceptOp cop 0x24 &&
        lhs.dtype == rhs.dtype && lhs.value == rhs.value
    | _ => false
  | _ => false

/-- The inner `while` (lines 385-402): the chain is the longest run of accepted
nodes starting at `it`; `jt` ends up right after it. -/
def scanChain (baseExpr : Node) (fromIt : List Node) : List Node :=
  fromIt.takeWhile (chainAccepts baseExpr)

/-- Lines 410-412: the case built from one conditional of the chain.  Its match
value is the right-hand operand of the conditional's comparison, its body a copy
of the conditional's body.  (Every member of a chain is a conditional with a
comparison; the last arm is never reached from the pass.) -/
def mkCase (caseOpcode : Nat) (caseRtype : TypeTag) : Node → Node
  | .ifNode _ off _ _ (some (.binOperator _ _ _ _ rnode)) body =>
    .caseNode caseOpcode off caseRtype rnode body
  | c => .caseNode caseOpcode c.offset caseRtype none []

/-- Lines 417-428: the node at `jt` is absorbed as the default case when it is a
conditional (0x51) of kind else.  Returns the default case built from it. -/
def mkDefault (caseOpcode : Nat) (caseRtype : TypeTag) : Node → Option Node
  | .ifNode op off _ itype _ body =>
    if op = 0x51 ∧ itype = IfType.I_ELSE then
      some (.caseNode caseOpcode off caseRtype none body)
    else none
  | _ => none

/-- The opcode and result type that the constructors of `SwitchNode` and
`CaseNode` (FuncNodes.h, not part of the sources) give the nodes they build:
synthetic values that the pass itself never reads. -/
structure Synth where
  switchOpcode : Nat
  switchRtype : TypeTag
  caseOpcode : Nat
  caseRtype : TypeTag

/-- Modelled from the spec: `SwitchNode` is not part of the sources.
`new SwitchNode(offset, expr)` is a switch on the discriminant `expr` that
holds no case and no original conditional yet. -/
def newSwitchNode (cfg : Synth) (offset : Nat) (expr : Node) : Node :=
  .switchNode cfg.switchOpcode offset cfg.switchRtype expr [] []

/-- Modelled from the spec: `SwitchNode::addCase` is not part of the sources.
The switch holds "an ordered sequence of Case children": the case is put at the
end. -/
def addCase (sw caseNode : Node) : Node :=
  match sw with
  | .switchNode op off rt expr cases originals =>
    .switchNode op off rt expr (cases ++ [caseNode]) originals
  | n => n

/-- Modelled from the spec: `SwitchNode::addOriginalNode` is not part of the
sources.  The switch retains "the original conditional nodes it replaced": the
conditional is put at the end of the retained nodes. -/
def addOriginalNode (sw original : Node) : Node :=
  match sw with
  | .switchNode op off rt expr cases originals =>
    .switchNode op off rt expr cases (originals ++ [original])
  | n => n

/-- Lines 407-433 for an accepted chain: the switch that replaces the chain
(and the else at `jt`, when there is one), paired with the nodes that follow
the erased range. -/
def buildSwitch (cfg : Synth) (ifnode baseExpr : Node) (chain atJt : List Node) :
    Node × List Node :=
  let sw := chain.foldl
    (fun sw c => addOriginalNode (addCase sw (mkCase cfg.caseOpcode cfg.caseRtype c)) c)
    (newSwitchNode cfg ifnode.offset baseExpr)
  match atJt with
  | [] => (sw, [])
  | elseNode :: rest =>
    match mkDefault cfg.caseOpcode cfg.caseRtype elseNode with
    | some dflt => (addOriginalNode (addCase sw dflt) elseNode, rest)
    | none => (sw, elseNode :: rest)

/-- The `for` loop of lines 368-434 from position `it` on, `fuel` bounding the
number of iterations left.  The nodes before `it` are final; the result lists
the nodes from `it` on as the loop leaves them. -/
def collapseFrom (cfg : Synth) : Nat → List Node → List Node
  | 0, fromIt => fromIt
  | _ + 1, [] => []
  | fuel + 1, ifnode :: rest =>
    match baseExprOf ifnode with
    | none => ifnode :: collapseFrom cfg fuel rest
    | some baseExpr =>
      let chain := scanChain baseExpr (ifnode :: rest)
      if chain.length < 2 then ifnode :: collapseFrom cfg fuel rest
      else
        let built := buildSwitch cfg ifnode baseExpr chain ((ifnode :: rest).drop chain.length)
        built.1 :: collapseFrom cfg fuel built.2

/-- The switch-collapse pass over a body.  Every iteration of the loop moves
`it` past at least one node, so `funcnodes.size()` iterations are enough. -/
def collapseSwitches (cfg : Synth) (funcnodes : List Node) : List Node :=
  collapseFrom cfg funcnodes.length funcnodes

/-! ## `DCFuncNode::fold` -/

/-- The `while` of lines 339-352.  `backToFront` is the deque read from its
back: while the back is not the process-exclude marker (0x78) it is pushed on
the front of `funcnodes` and popped.  Returns the deque that is left (still
back to front) and the body. -/
def gatherBody : List Node → List Node → List Node × List Node
  | [], funcnodes => ([], funcnodes)
  | back :: below, funcnodes =>
    if acceptOp back.opcode 0x78 then (back :: below, funcnodes)
    else gatherBody below (back :: funcnodes)

/-- Steps 1 to 6 of `DCFuncNode::fold` (lines 331-365): everything before the
switch-collapse pass.  Returns the function node and what is left of the
deque. -/
def foldMarkers (fn : DCFuncNode) (nodes : List Node) : Option (DCFuncNode × List Node) :=
  if nodes.length = 0 then none
  else
    match fold_ret fn nodes with
    | none => none
    | some (fn1, nodes1) =>
      let gathered := gatherBody nodes1.reverse fn1.funcnodes
      let fn2 := { fn1 with funcnodes := gathered.2 }
      match fold_procexclude fn2 gathered.1.reverse with
      | none => none
      | some (fn3, nodes3) =>
        match fold_setinfo fn3 nodes3 with
        | none => none
        | some (fn4, nodes4) =>
          match fold_init fn4 nodes4 with
          | none => none
          | some (fn5, nodes5) =>
            let startup := decide (fn5.func_start_offset = 0)
            let fn6 := { fn5 with
              is_startup := startup,
              startupnode :=
                if startup && fn5.startupnode.isNone then
                  some { offset := fn5.func_start_offset }
                else fn5.startupnode }
            some (fn6, nodes5)

/-- `DCFuncNode::fold`: the markers, the switch-collapse pass, then the
assertion that the deque is empty.  Returns the folded function node and the
deque as the fold leaves it. -/
def DCFuncNode.fold (cfg : Synth) (fn : DCFuncNode) (nodes : List Node) :
    Option (DCFuncNode × List Node) :=
  match foldMarkers fn nodes with
  | none => none
  | some (fn6, nodes6) =>
    let fn7 := { fn6 with funcnodes := collapseSwitches cfg fn6.funcnodes }
    if nodes6.length = 0 then some (fn7, nodes6) else none

/-- The function node that steps 1 to 6 leave behind. -/
def markersFolded (fn : DCFuncNode) (init si pe ret : Node) (mid : List Node)
    (sz pt : Nat) : DCFuncNode :=
  { funcnodes := mid ++ fn.funcnodes
    setinfonode := some si
    startupnode :=
      if decide (init.offset = 0) && fn.startupnode.isNone then some { offset := init.offset }
      else fn.startupnode
    locals_datasize := sz
    func_start_offset := init.offset
    process_type := pt
    debug_processtype_offset := pt
    debug_ret_offset := ret.offset
    debug_end_offset := fn.debug_end_offset
    debug_procexclude_offset := pe.offset
    is_startup := decide (init.offset = 0)
    has_procexclude := true
    debug_thisp := true }

/-! ## Sample nodes used in the concrete instances -/

/-- Sample opcodes for the synthesized nodes. -/
def exCfg : Synth := ⟨0x100, .T_VOID, 0x101, .T_VOID⟩

/-- A function node nothing has been folded into yet. -/
def exFunc : DCFuncNode :=
  { funcnodes := [], setinfonode := none, startupnode := none, locals_datasize := 0,
    func_start_offset := 0, process_type := 0, debug_processtype_offset := 0,
    debug_ret_offset := 0, debug_end_offset := 0, debug_procexclude_offset := 0,
    is_startup := false, has_procexclude := false, debug_thisp := false }

/-- Init marker `5A 04` at offset 0x20. -/
def exInit : Node := .funcMutator 0x5A 0x20 .T_INVALID .INIT 4 0 0 ""

/-- Set-info marker with process type 0xF0 and a `this` pointer push. -/
def exSetinfo : Node :=
  .callMutator 0x77 0x22 .T_INVALID
    (some (.pushVar 0x0B 0x22 .T_WORD ⟨0, 0xF0⟩))
    (some (.callMutator 0x4C 0x27 .T_INVALID (some (.pushVar 0x40 0x25 .T_DWORD ⟨1, 0x06⟩)) none))

/-- Process-exclude marker. -/
def exProcExclude : Node := .callMutator 0x78 0x29 .T_INVALID none none

/-- Return marker. -/
def exRet : Node := .funcMutator 0x50 0x40 .T_INVALID .RET 0 0 0 ""

/-- Two body nodes of a class the fold does not look into. -/
def exA : Node := .other 0x0F 0x2A .T_VOID

/-- Second body node. -/
def exB : Node := .other 0x10 0x2C .T_VOID

/-- The sample function after the fold of init, set-info, process-exclude,
`exA`, `exB`, return. -/
def exFolded : DCFuncNode :=
  { funcnodes := [exA, exB], setinfonode := some exSetinfo, startupnode := none,
    locals_datasize := 4, func_start_offset := 0x20, process_type := 0xF0,
    debug_processtype_offset := 0xF0, debug_ret_offset := 0x40, debug_end_offset := 0,
    debug_procexclude_offset := 0x29, is_startup := false, has_procexclude := true,
    debug_thisp := true }

/-! ## Conditionals with an equality comparison, spelled out

The families of bodies the claims on the switch-collapse pass speak of. -/

/-- The parts of a conditional (0x51) whose condition is an equality comparison
(0x24) of a variable push with a right-hand operand: offsets and result types
of the conditional, of the comparison and of the push, the right-hand operand
and the body.  The kind of the conditional and the variable pushed are given
separately. -/
structure EqIf where
  offset : Nat
  rtype : TypeTag
  cmpOffset : Nat
  cmpRtype : TypeTag
  lhsOpcode : Nat
  lhsOffset : Nat
  lhsRtype : TypeTag
  rhs : Node
  body : List Node

/-- The left-hand operand of the comparison: a push of the variable `var`. -/
def EqIf.lhs (var : DataType) (c : EqIf) : Node :=
  .pushVar c.lhsOpcode c.lhsOffset c.lhsRtype var

/-- The conditional of kind `itype` that compares the variable `var` with
`c.rhs`. -/
def EqIf.toNode (itype : IfType) (var : DataType) (c : EqIf) : Node :=
  .ifNode 0x51 c.offset c.rtype itype
    (some (.binOperator 0x24 c.cmpOffset c.cmpRtype (some (c.lhs var)) (some c.rhs))) c.body

/-- The plain-if conditional that compares the variable `var` with `c.rhs`. -/
def EqIf.plainIf (var : DataType) (c : EqIf) : Node :=
  c.toNode .I_IF var

/-- The case with a match value that corresponds to the conditional: same
offset, match value `c.rhs`, same body. -/
def EqIf.toCase (cfg : Synth) (c : EqIf) : Node :=
  .caseNode cfg.caseOpcode c.offset cfg.caseRtype (some c.rhs) c.body

/-- The variable in slot 1 of the samples. -/
def exSlot1 : DataType := ⟨1, 1⟩

/-- The variable in slot 2 of the samples. -/
def exSlot2 : DataType := ⟨1, 2⟩

/-- The literal `v` as a push word. -/
def exLit (v : Nat) : Node := .pushVar 0x0B 0 .T_WORD ⟨0, v⟩

/-- The parts of a sample conditional at offset `off` comparing with the literal
`v`, with a one-node body. -/
def exCond (off v : Nat) : EqIf :=
  { offset := off, rtype := .T_INVALID, cmpOffset := off, cmpRtype := .T_WORD,
    lhsOpcode := 0x3F, lhsOffset := off, lhsRtype := .T_WORD, rhs := exLit v,
    body := [.other 0x0F (off + 1) .T_VOID] }

/-- A sample else conditional. -/
def exElse : Node := .ifNode 0x51 0x60 .T_INVALID .I_ELSE none [exB]

/-- `a_rnode()` of the comparison that is the condition of a conditional: the
operand the pass hands to the case as match value. -/
def condRhs : Node → Option Node
  | .ifNode _ _ _ _ (some (.binOperator _ _ _ _ rnode)) _ => rnode
  | _ => none

/-- The match value of a case (absent for the default case). -/
def caseValue : Node → Option Node
  | .caseNode _ _ _ value _ => value
  | _ => none

/-- The node is a case with a match value. -/
def hasMatchValue (n : Node) : Bool :=
  (caseValue n).isSome

/-- The node is not a conditional whose comparison lacks its right-hand
operand. -/
def cmpHasRhs : Node → Bool
  | .ifNode _ _ _ _ (some (.binOperator _ _ _ _ none)) _ => false
  | _ => true

/-- The kind tag of a conditional; `none` for a node of another class. -/
def ifKind : Node → Option IfType
  | .ifNode _ _ _ itype _ _ => some itype
  | _ => none

/-- An else-if-continuation on slot 1 at offset 0x34, comparing with the
literal 2. -/
def exElseIf : Node := (exCond 0x34 2).toNode .I_ELSE_IF exSlot1

/-- The node `n` is a switch such as the pass builds from nodes of `body`: a
switch at the offset of `first`, the first member of a chain of at least two
conditionals of `body` that the chain test accepts for the discriminant `b`,
with one case for each member of the chain followed by the default cases
`dflt`, and with the chain followed by the absorbed else nodes as retained
originals. -/
def SynthesizedFrom (cfg : Synth) (body : List Node) (n : Node) : Prop :=
  ∃ first b chain dflt absorbed,
    n = .switchNode cfg.switchOpcode first.offset cfg.switchRtype b
      (chain.map (mkCase cfg.caseOpcode cfg.caseRtype) ++ dflt) (chain ++ absorbed) ∧
    chain.head? = some first ∧ 2 ≤ chain.length ∧
    (∀ c ∈ chain, c ∈ body ∧ chainAccepts b c = true) ∧
    (∀ e ∈ absorbed, e ∈ body ∧
      ∃ off rt cond nodes, e = Node.ifNode 0x51 off rt .I_ELSE cond nodes) ∧
    (∀ d ∈ dflt, caseValue d = none) ∧
    dflt.map Node.offset = absorbed.map Node.offset

/-- What the binary re-encoder walks for a node of the body: the retained
original conditionals for a switch, the node itself otherwise. -/
def expandNode : Node → List Node
  | .switchNode _ _ _ _ _ originals => originals
  | n => [n]

/-- The body with every switch replaced by its retained originals, in order. -/
def expandSwitches : List Node → List Node
  | [] => []
  | n :: rest => expandNode n ++ expandSwitches rest

/-- The node is a switch. -/
def isSwitchNode : Node → Bool
  | .switchNode _ _ _ _ _ _ => true
  | _ => false

/-- The variable that the condition of a conditional compares for equality:
the condition is an equality comparison (0x24) and its left-hand operand a
variable push.  It is absent for a conditional with no condition, with a
condition that is no equality comparison, or with a left-hand operand that is
absent or no variable push (and for a node that is no conditional). -/
def comparisonVar : Node → Option DataType
  | .ifNode _ _ _ _ (some (.binOperator cop _ _ (some (.pushVar _ _ _ v)) _)) _ =>
    if cop = 0x24 then some v else none
  | _ => none

/-- Both nodes are conditionals (0x51) of a kind other than else whose
conditions are equality comparisons with the same variable push (same declared
type, same value) as left-hand operand. -/
def SameVarPair (x y : Node) : Prop :=
  x.opcode = 0x51 ∧ y.opcode = 0x51 ∧
  (∃ k, ifKind x = some k ∧ k ≠ IfType.I_ELSE) ∧
  (∃ k, ifKind y = some k ∧ k ≠ IfType.I_ELSE) ∧
  ∃ v w, comparisonVar x = some v ∧ comparisonVar y = some w ∧
    v.dtype = w.dtype ∧ v.value = w.value

/-- A plain-if with no condition. -/
def exNoCond : Node := .ifNode 0x51 0x50 .T_INVALID .I_IF none [exA]

/-- A plain-if whose condition is not an equality comparison (opcode 0x28). -/
def exNotEq : Node :=
  .ifNode 0x51 0x54 .T_INVALID .I_IF
    (some (.binOperator 0x28 0x54 .T_WORD (some (.pushVar 0x3F 0x54 .T_WORD exSlot1))
      (some (exLit 1)))) [exA]

/-! ## The byte buffer and the console -/

/-- Modelled from the spec: `ODequeDataSource` is not part of the sources.
`write1` puts one byte at the end of the buffer. -/
def write1 (o : List Nat) (val : Nat) : List Nat :=
  o ++ [val % 256]

/-- Modelled from the spec: `ODequeDataSource` is not part of the sources.
`write2` puts a 2-byte operand at the end of the buffer: the value modulo 2^16,
low byte first. -/
def write2 (o : List Nat) (val : Nat) : List Nat :=
  o ++ [val % 256, val / 256 % 256]

/-- Modelled from the spec: `ODequeDataSource` is not part of the sources.
`write(b, len, 9)` fills a name field of `pad` bytes: the bytes given, cut or
padded with zero bytes to the width of the field. -/
def writePadded (o : List Nat) (b : List Nat) (pad : Nat) : List Nat :=
  o ++ (b ++ List.replicate pad 0).take pad

/-- Modelled from the spec: `ODequeDataSource` is not part of the sources.
`clear` empties the buffer (the loop of `DCFuncNode::print_bin` prints `o.buf()`
after each node as the bytes of that node). -/
def clear (_o : List Nat) : List Nat :=
  []

/-- The bytes of a `std::string`. -/
def stringBytes (s : String) : List Nat :=
  s.data.map (fun ch => ch.toNat % 256)

/-- `a - b` in `uint32` arithmetic. -/
def u32sub (a b : Nat) : Nat :=
  (a % 2 ^ 32 + 2 ^ 32 - b % 2 ^ 32) % 2 ^ 32

/-- What a renderer sends to the console, call by call (`printfStr` is a `Printf`
whose last argument is a string). -/
inductive ConOut where
  | indent (isize : Nat)
  | print (s : String)
  | printf (fmt : String) (args : List Nat)
  | printfStr (fmt : String) (args : List Nat) (str : String)
  | putchar (c : Char)
  | asmHeader (offset opcode : Nat)
deriving DecidableEq, Repr

/-! ## `FuncMutatorNode` -/

/-- `FuncMutatorNode::print_bin` (lines 88-102) on the buffer `o`.  The result
type of a marker must be invalid; `linenumBytes` are the bytes that
`Node::print_linenum_bin` (not part of the sources) writes for the line number
attached to the node, none when nothing is attached.  `CANT_HAPPEN()` is
fatal.  Nodes of other classes have their own `print_bin`. -/
def FuncMutatorNode.print_bin (linenumBytes : List Nat) (self : Node) (o : List Nat) :
    Option (List Nat) :=
  match self with
  | .funcMutator _ offset rtype mtype _ linenum symboloffset classname =>
    if rtype = TypeTag.T_INVALID then
      let o1 := o ++ linenumBytes
      match mtype with
      | .RET => none
      | .INIT => none
      | .LINE_NUMBER => some (write2 (write1 o1 0x5B) linenum)
      | .SYMBOL_INFO =>
        some (writePadded (write2 (write1 o1 0x5C) (u32sub (u32sub symboloffset offset) 3))
          (stringBytes classname) 9)
      | .SUSPEND => some (write1 o1 0x53)
      | .END => none
    else none
  | _ => none

/-- The two attributes of the unit that `FuncMutatorNode::fold` sets through
`setDebugOffset` and `setClassName` (Folder.h is not part of the sources; the
setters store their argument). -/
structure DCUnit where
  debugOffset : Nat
  className : String
deriving DecidableEq, Repr

/-- `FuncMutatorNode::fold` (lines 104-133).  `fold_linenum` is what
`Node::fold_linenum` (not part of the sources) makes of the deque, `addEnd` what
`DCFuncNode::addEnd` (not part of the sources) makes of the function node at
the back of the deque when it is given the end marker (the line number that
`fold_linenum` may attach to the marker itself is not part of the model).
Returns the value of the fold, the unit and the deque; `none` when the assertion
of line 122 fails.  Nodes of other classes have their own `fold`. -/
def FuncMutatorNode.fold (fold_linenum : List Node → List Node) (addEnd : Node → Node → Node)
    (self : Node) (unit : DCUnit) (nodes : List Node) : Option (Bool × DCUnit × List Node) :=
  match self with
  | .funcMutator _ _ _ mtype _ _ symboloffset classname =>
    let nodes1 := fold_linenum nodes
    if mtype = MutatorType.SYMBOL_INFO then
      some (true, { unit with debugOffset := symboloffset, className := classname }, nodes1)
    else if mtype = MutatorType.END then
      match nodes1.getLast? with
      | none => none
      | some funcnode =>
        if funcnode.opcode = 0xFFFF then
          some (false, unit, nodes1.dropLast ++ [addEnd funcnode self])
        else none
    else some (true, unit, nodes1)
  | _ => none

/-! ## The renderers of `DCFuncNode` -/

/-- The loop of `DCFuncNode::print_bin` (lines 309-318): for each node of the body
the buffer is cleared and the node writes its bytes, `enc n`; a node whose own
`print_bin` is fatal (`enc n = none`) ends the rendering. -/
def printBinBody (enc : Node → Option (List Nat)) : List Node → List Nat → Option (List Nat)
  | [], o => some o
  | n :: rest, o =>
    match enc n with
    | none => none
    | some bytes => printBinBody enc rest (clear o ++ bytes)

/-- `DCFuncNode::print_bin` (lines 291-327) on the buffer `o`.  `enc n` are the
bytes that the `print_bin` of the node `n` puts at the end of the buffer (`none`
when it is fatal).  What goes to the console (`print_mac`, `con.Printf`) does not
touch the buffer and is left out. -/
def DCFuncNode.print_bin (enc : Node → Option (List Nat)) (fn : DCFuncNode) (o : List Nat) :
    Option (List Nat) :=
  let o1 := write1 (write1 o 0x5A) fn.locals_datasize
  match fn.setinfonode with
  | none => none
  | some si =>
    match enc si with
    | none => none
    | some bytes =>
      let o2 := write1 (o1 ++ bytes) 0x78
      match printBinBody enc fn.funcnodes o2 with
      | none => none
      | some o3 => some (write1 (write1 o3 0x50) 0x7A)

/-- The loop over the body of `DCFuncNode::print_unk` (lines 236-241). -/
def printUnkBody (nodeUnk : Node → Nat → Option (List ConOut)) (isize : Nat) :
    List Node → Option (List ConOut)
  | [] => some []
  | n :: rest =>
    match nodeUnk n isize with
    | none => none
    | some out =>
      match printUnkBody nodeUnk isize rest with
      | none => none
      | some outs => some (ConOut.indent isize :: out ++ ConOut.putchar '\n' :: outs)

/-- `DCFuncNode::print_unk` (lines 211-259, `DEBUG_COMMENTS` defined).
`nodeUnk n isize` is what the `print_unk` of the node `n` prints (`none` when it
is fatal).  A failed assertion is fatal: no rendering is returned. -/
def DCFuncNode.print_unk (nodeUnk : Node → Nat → Option (List ConOut)) (fn : DCFuncNode)
    (isize : Nat) : Option (List ConOut) :=
  let prelude : List ConOut :=
    [.indent isize, .print "/*", .indent 1,
     .printf "Function Start Offset:\t0x%04X\n" [fn.func_start_offset],
     .indent (isize + 1), .printf "Locals Datasize:\t0x%02X\n" [fn.locals_datasize],
     .indent (isize + 1), .printf "Process Type:\t\t0x%04X" [fn.process_type]]
  if fn.debug_thisp = true then
    match printUnkBody nodeUnk isize fn.funcnodes with
    | none => none
    | some outs =>
      if fn.debug_ret_offset ≠ 0 then
        if fn.debug_end_offset ≠ 0 then
          some (prelude ++ [.indent 1, .print "*/\n"] ++ outs)
        else none
      else none
  else none

/-- The loop over the body of `DCFuncNode::print_asm` (lines 276-280). -/
def printAsmBody (nodeAsm : Node → Option (List ConOut)) : List Node → Option (List ConOut)
  | [] => some []
  | n :: rest =>
    match nodeAsm n with
    | none => none
    | some out =>
      match printAsmBody nodeAsm rest with
      | none => none
      | some outs => some (out ++ ConOut.putchar '\n' :: outs)

/-- `DCFuncNode::print_asm` (lines 261-289).  `nodeAsm n` is what the `print_asm`
of the node `n` prints (`none` when it is fatal).  The set-info node is used
without a test: a null `setinfonode` is fatal. -/
def DCFuncNode.print_asm (nodeAsm : Node → Option (List ConOut)) (fn : DCFuncNode) :
    Option (List ConOut) :=
  match fn.setinfonode with
  | none => none
  | some si =>
    match nodeAsm si with
    | none => none
    | some siOut =>
      match printAsmBody nodeAsm fn.funcnodes with
      | none => none
      | some outs =>
        some ([.asmHeader fn.func_start_offset 0x5A, .printf "init\t\t%02X\n" [fn.locals_datasize]]
          ++ siOut ++ [.putchar '\n']
          ++ [.asmHeader fn.debug_procexclude_offset 0x78, .printf "process exclude\n" []]
          ++ outs
          ++ [.asmHeader fn.debug_ret_offset 0x50, .printf "ret\n" [],
              .asmHeader fn.debug_end_offset 0x7A, .printf "end\n" []])

/-! ## `ConvertUsecodeU8::readheader` -/

/-- `UsecodeHeader`, as far as `readheader` writes it. -/
structure UsecodeHeader where
  maxOffset : Nat
deriving DecidableEq, Repr

/-- `ConvertUsecodeU8::readheader` (lines 401-416, `DISASM_DEBUG` not defined).
`read4` (Convert.h, not part of the sources) reads one 4-byte field from the
data source and moves the source on; fields are `uint32` values.  Returns the
data source, the header and `curOffset`. -/
def readheader {Src : Type} (read4 : Src → Nat × Src) (ucfile : Src) (uch : UsecodeHeader)
    (_curOffset : Nat) : Src × UsecodeHeader × Nat :=
  let r1 := read4 ucfile
  let r2 := read4 r1.2
  let r3 := read4 r2.2
  (r3.2, { uch with maxOffset := u32sub r2.1 0x0C }, 0)

/-- A data source given by the bytes still to be read: `read4` takes four bytes,
low byte first (absent bytes read as zero). -/
def read4Bytes (src : List Nat) : Nat × List Nat :=
  ((src.getD 0 0) % 256 + (src.getD 1 0) % 256 * 2 ^ 8 + (src.getD 2 0) % 256 * 2 ^ 16
    + (src.getD 3 0) % 256 * 2 ^ 24, src.drop 4)

/-- Sample encodings for the instances: a node is written as its opcode byte. -/
def exEnc (n : Node) : Option (List Nat) :=
  some [n.opcode % 256]

/-- Sample disassembly for the instances: a node is printed as its opcode. -/
def exAsm (n : Node) : Option (List ConOut) :=
  some [.printf "%02X" [n.opcode]]

/-- Sample pseudocode for the instances: a node is printed as its opcode. -/
def exUnk (n : Node) (_isize : Nat) : Option (List ConOut) :=
  some [.printf "op_%02X" [n.opcode]]

/-- A sample function node on the deque (opcode 0xFFFF). -/
def exFuncOnStack : Node := .other 0xFFFF 0x20 .T_VOID

/-- A sample end marker at offset 0x41. -/
def exEnd : Node := .funcMutator 0x7A 0x41 .T_INVALID .END 0 0 0 ""

/-- A sample `addEnd`: the function node keeps its opcode and takes the offset
of the end marker. -/
def exAddEnd (funcnode endMarker : Node) : Node :=
  .other funcnode.opcode endMarker.offset .T_VOID

/-! ## `ConvertUsecodeU8::readevents` -/

/-- `EventMap`, a map from offsets to event indices, by its lookup. -/
abbrev EventMap := Nat → Option Nat

/-- `EventMap[offset] = i`: the entry for `offset` is set, whether there was one
or not. -/
def EventMap.set (m : EventMap) (offset i : Nat) : EventMap :=
  fun key => if key = offset then some i else m key

/-- The `for` loop of `readevents` (lines 64-71) with `count` iterations left and
the loop variable at `i`: an offset is read and entered into the map under
the index `i`. -/
def readeventsLoop {Src : Type} (read4 : Src → Nat × Src) :
    Nat → Nat → Src → EventMap → Src × EventMap
  | 0, _, ucfile, m => (ucfile, m)
  | count + 1, i, ucfile, m =>
    let r := read4 ucfile
    readeventsLoop read4 count (i + 1) r.2 (m.set r.1 i)

/-- `ConvertUsecodeU8::readevents` (lines 60-73, with the fold brought in): the
map is cleared, then 32 offsets are read.  `read4` (Convert.h, not part of the
sources) reads one 4-byte field and moves the source on. -/
def readevents {Src : Type} (read4 : Src → Nat × Src) (ucfile : Src) (_old : EventMap) :
    Src × EventMap :=
  readeventsLoop read4 32 0 ucfile (fun _ => none)

/-- The values of the next `count` fields of the source and the source behind
them. -/
def readFields {Src : Type} (read4 : Src → Nat × Src) : Nat → Src → List Nat × Src
  | 0, ucfile => ([], ucfile)
  | count + 1, ucfile =>
    let r := read4 ucfile
    let rest := readFields read4 count r.2
    (r.1 :: rest.1, rest.2)

/-- A data source given by the 4-byte fields still to be read (an exhausted
source reads as zero). -/
def read4Fields (src : List Nat) : Nat × List Nat :=
  (src.headD 0, src.tail)

/-! ## The loop nodes (tools/fold/LoopScriptNodes.h) -/

/-- Modelled from the spec: `acceptOp` (GenericNodes.h) is not part of the
sources.  The overload with two wanted opcodes, used for "0x75 / 0x76": the
opcode is accepted when it is one of the two. -/
def acceptOp2 (opcode want1 want2 : Nat) : Bool :=
  opcode == want1 || opcode == want2

/-- `LoopScriptNode`: the attributes of the base class and the script token. -/
structure LoopScriptNode where
  opcode : Nat
  offset : Nat
  rtype : TypeTag
  scriptTok : Nat
deriving DecidableEq, Repr

/-- The constructor of `LoopScriptNode` (lines 30-34); `none` when its assertion
fails. -/
def LoopScriptNode.LoopScriptNode (opcode offset newScriptTok : Nat) : Option LoopScriptNode :=
  if acceptOp opcode 0x74 then
    some { opcode := opcode, offset := offset, rtype := .T_INVALID, scriptTok := newScriptTok }
  else none

/-- `LoopNode`: the attributes of the base class, the current object, the size
of the string and the search type. -/
structure LoopNode where
  opcode : Nat
  offset : Nat
  rtype : TypeTag
  currObj : Nat
  strSize : Nat
  searchType : Nat
deriving DecidableEq, Repr

/-- The constructor of `LoopNode` that takes an opcode (lines 54-58); `none` when
its assertion fails. -/
def LoopNode.LoopNode (opcode offset newCurrObj newStrSize newSearchType : Nat) :
    Option LoopNode :=
  if acceptOp opcode 0x70 then
    some { opcode := opcode, offset := offset, rtype := .T_VOID, currObj := newCurrObj,
           strSize := newStrSize, searchType := newSearchType }
  else none

/-- The default constructor `LoopNode()` (line 53, `LoopNode() : ColNode() {}`): it
takes no opcode and makes no assertion, so it always returns a node.  `ColNode`
and its default constructor are not part of the sources: what `ColNode()` leaves
in the attributes of the base class (`colOpcode`, `colOffset`, `colRtype`) are
parameters, and so are the three members, which this constructor does not
set. -/
def LoopNode.LoopNodeDefault (colOpcode colOffset : Nat) (colRtype : TypeTag)
    (currObj strSize searchType : Nat) : Option Fold.LoopNode :=
  some { opcode := colOpcode, offset := colOffset, rtype := colRtype, currObj := currObj,
         strSize := strSize, searchType := searchType }

/-- `LoopNextNode`: the attributes of the base class. -/
structure LoopNextNode where
  opcode : Nat
  offset : Nat
  rtype : TypeTag
deriving DecidableEq, Repr

/-- The constructor of `LoopNextNode` (lines 78-82); `none` when its assertion
fails. -/
def LoopNextNode.LoopNextNode (opcode offset : Nat) : Option LoopNextNode :=
  if acceptOp opcode 0x73 then
    some { opcode := opcode, offset := offset, rtype := .T_INVALID }
  else none

/-- The two variants of a foreach. -/
inductive foreachtype where
  | FOREACH_LIST
  | FOREACH_SLIST
deriving DecidableEq, Repr

/-- `ForeachNode`: the attributes of the base class, the variant, the loop
variable, the size of an element and the jump target. -/
structure ForeachNode where
  opcode : Nat
  offset : Nat
  rtype : TypeTag
  ftype : foreachtype
  loopVar : Nat
  elemSize : Nat
  targetOffset : Nat
deriving DecidableEq, Repr

/-- The constructor of `ForeachNode` (lines 98-110): the assertion on the opcode,
then the `switch` that sets the variant (its `default` is `assert(false)`). -/
def ForeachNode.ForeachNode (opcode offset newLoopVar newElemSize newTargetOffset : Nat) :
    Option ForeachNode :=
  if acceptOp2 opcode 0x75 0x76 then
    if opcode = 0x75 then
      some { opcode := opcode, offset := offset, rtype := .T_VOID, ftype := .FOREACH_LIST,
             loopVar := newLoopVar, elemSize := newElemSize, targetOffset := newTargetOffset }
    else if opcode = 0x76 then
      some { opcode := opcode, offset := offset, rtype := .T_VOID, ftype := .FOREACH_SLIST,
             loopVar := newLoopVar, elemSize := newElemSize, targetOffset := newTargetOffset }
    else none
  else none

/-! ## `FuncMutatorNode::print_unk` and `format_function_name` -/

/-- `FuncMutatorNode::print_unk` (lines 37-67): the calls made on the console.
Without `comment` every marker but `SUSPEND` returns at once (line 42); behind
that the result type must be invalid and `RET`, `INIT` and `END` are
`CANT_HAPPEN()`.  `linenumUnk` is what `Node::print_linenum_unk` (not part of the
sources) prints at the indentation `isize`.  `none` is a failed assertion. -/
def FuncMutatorNode.print_unk (linenumUnk : Nat → List ConOut) (self : Node) (isize : Nat)
    (comment : Bool) : Option (List ConOut) :=
  match self with
  | .funcMutator _ _ rtype mtype _ linenum symboloffset classname =>
    if !comment && mtype != MutatorType.SUSPEND then some []
    else if rtype = TypeTag.T_INVALID then
      match mtype with
      | .RET => none
      | .INIT => none
      | .LINE_NUMBER => some (linenumUnk isize ++ [.printf "/*%d*/" [linenum]])
      | .SYMBOL_INFO =>
        some (linenumUnk isize
          ++ [.printfStr "symbol_info_NOPRINT(0x%04X, \"%s\")" [symboloffset] classname])
      | .SUSPEND => some [.printf "suspend" []]
      | .END => none
    else none
  | _ => none

/-- The conversion `%04X` of the C library on a `uint32`: the digits of the
value to base 16 in upper case, filled with zeros on the left to a width of 4. -/
def fmt04X (val : Nat) : String :=
  let digits := (Nat.toDigits 16 (val % 2 ^ 32)).map Char.toUpper
  String.mk (List.replicate (4 - digits.length) '0' ++ digits)

/-- `snprintf(buf, size, ...)` of the C library, by the text it was to write: the
buffer holds the first `size - 1` characters of the text (and the final zero). -/
def snprintf (size : Nat) (text : String) : String :=
  String.mk (text.data.take (size - 1))

/-- `format_function_name` (lines 176-184), with its buffer of 16 characters. -/
def format_function_name (className : String) (classId offset : Nat) : String :=
  let buf := snprintf 16 (fmt04X offset)
  if className ≠ "" then className ++ "::" ++ buf
  else
    let buf := snprintf 16 ("class_" ++ fmt04X classId ++ "_function_" ++ fmt04X offset)
    buf

/-! ## Auxiliary lemmas on the marker steps -/

open List

theorem gatherBody_eq (rs acc : List Node) :
    gatherBody rs acc =
      (rs.dropWhile (fun n => !acceptOp n.opcode 0x78),
       (rs.takeWhile (fun n => !acceptOp n.opcode 0x78)).reverse ++ acc) := by
  induction rs generalizing acc with
  | nil => simp [gatherBody]
  | cons r rs ih =>
    by_cases h : acceptOp r.opcode 0x78 = true
    · simp [gatherBody, h]
    · simp [gatherBody, h, ih]

theorem fold_ret_concat (fn : DCFuncNode) (l : List Node) (x : Node) :
    fold_ret fn (l ++ [x]) =
      if x.opcode = 0x50 then some ({ fn with debug_ret_offset := x.offset }, l) else none := by
  simp [fold_ret]

theorem fold_procexclude_concat (fn : DCFuncNode) (l : List Node) (x : Node) :
    fold_procexclude fn (l ++ [x]) =
      if x.opcode = 0x78 then
        some ({ fn with has_procexclude := true, debug_procexclude_offset := x.offset }, l)
      else none := by
  simp [fold_procexclude]

theorem fold_setinfo_concat (fn : DCFuncNode) (l : List Node) (x : Node) :
    fold_setinfo fn (l ++ [x]) =
      if x.opcode = 0x77 then
        (setinfoProcessType x).map fun v =>
          ({ fn with setinfonode := some x, process_type := v,
                     debug_processtype_offset := v, debug_thisp := true }, l)
      else none := by
  simp only [fold_setinfo, getLast?_concat, dropLast_concat]
  split_ifs <;> cases setinfoProcessType x <;> rfl

theorem fold_init_concat (fn : DCFuncNode) (l : List Node) (x : Node) :
    fold_init fn (l ++ [x]) =
      if x.opcode = 0x5A then
        (a_initsize x).map fun sz =>
          ({ fn with locals_datasize := sz, func_start_offset := x.offset }, l)
      else none := by
  simp only [fold_init, getLast?_concat, dropLast_concat]
  split_ifs <;> cases a_initsize x <;> rfl

theorem fold_ret_nil (fn : DCFuncNode) : fold_ret fn [] = none := rfl
theorem fold_procexclude_nil (fn : DCFuncNode) : fold_procexclude fn [] = none := rfl
theorem fold_setinfo_nil (fn : DCFuncNode) : fold_setinfo fn [] = none := rfl
theorem fold_init_nil (fn : DCFuncNode) : fold_init fn [] = none := rfl


theorem gatherBody_shape (l mid acc : List Node) (pe : Node)
    (hmid : ∀ m ∈ mid, m.opcode ≠ 0x78) (hpe : pe.opcode = 0x78) :
    gatherBody (l ++ pe :: mid).reverse acc = (pe :: l.reverse, mid ++ acc) := by
  have h1 : ∀ a ∈ mid.reverse, (fun n : Node => !acceptOp n.opcode 0x78) a = true := by
    intro a ha
    simpa [acceptOp] using hmid a (by simpa using ha)
  rw [gatherBody_eq]
  have e : (l ++ pe :: mid).reverse = mid.reverse ++ pe :: l.reverse := by simp
  rw [e, dropWhile_append_of_pos h1, takeWhile_append_of_pos h1]
  simp [takeWhile_cons, dropWhile_cons, acceptOp, hpe]

theorem foldMarkers_shape (fn : DCFuncNode) (rest mid : List Node) (init si pe ret : Node)
    (sz pt : Nat) (hret : ret.opcode = 0x50) (hmid : ∀ m ∈ mid, m.opcode ≠ 0x78)
    (hpe : pe.opcode = 0x78) (hsi : si.opcode = 0x77) (hpt : setinfoProcessType si = some pt)
    (hinit : init.opcode = 0x5A) (hsz : a_initsize init = some sz) :
    foldMarkers fn (rest ++ init :: si :: pe :: (mid ++ [ret])) =
      some (markersFolded fn init si pe ret mid sz pt, rest) := by
  have e1 : rest ++ init :: si :: pe :: (mid ++ [ret]) =
      ((rest ++ [init, si]) ++ pe :: mid) ++ [ret] := by simp
  have e2 : (pe :: (rest ++ [init, si]).reverse).reverse = (rest ++ [init]) ++ [si] ++ [pe] := by
    simp
  rw [e1]
  unfold foldMarkers
  rw [if_neg (by simp), fold_ret_concat, if_pos hret]
  simp only [gatherBody_shape _ _ _ _ hmid hpe]
  rw [e2, fold_procexclude_concat, if_pos hpe]
  simp only [fold_setinfo_concat, if_pos hsi, hpt, Option.map, fold_init_concat, if_pos hinit, hsz]
  rfl

theorem fold_ret_some {fn fn1 : DCFuncNode} {nodes nodes1 : List Node}
    (h : fold_ret fn nodes = some (fn1, nodes1)) :
    ∃ x, nodes = nodes1 ++ [x] ∧ x.opcode = 0x50 := by
  rcases eq_nil_or_concat nodes with rfl | ⟨l, x, rfl⟩ <;> try rw [concat_eq_append] at *
  · simp [fold_ret] at h
  · rw [fold_ret_concat] at h
    split_ifs at h with hx
    simp only [Option.some.injEq, Prod.mk.injEq] at h
    exact ⟨x, by rw [h.2], hx⟩

theorem fold_procexclude_some {fn fn1 : DCFuncNode} {nodes nodes1 : List Node}
    (h : fold_procexclude fn nodes = some (fn1, nodes1)) :
    ∃ x, nodes = nodes1 ++ [x] ∧ x.opcode = 0x78 := by
  rcases eq_nil_or_concat nodes with rfl | ⟨l, x, rfl⟩ <;> try rw [concat_eq_append] at *
  · simp [fold_procexclude] at h
  · rw [fold_procexclude_concat] at h
    split_ifs at h with hx
    simp only [Option.some.injEq, Prod.mk.injEq] at h
    exact ⟨x, by rw [h.2], hx⟩

theorem fold_setinfo_some {fn fn1 : DCFuncNode} {nodes nodes1 : List Node}
    (h : fold_setinfo fn nodes = some (fn1, nodes1)) :
    ∃ x pt, nodes = nodes1 ++ [x] ∧ x.opcode = 0x77 ∧ setinfoProcessType x = some pt := by
  rcases eq_nil_or_concat nodes with rfl | ⟨l, x, rfl⟩ <;> try rw [concat_eq_append] at *
  · simp [fold_setinfo] at h
  · rw [fold_setinfo_concat] at h
    split_ifs at h with hx
    cases hpt : setinfoProcessType x with
    | none => simp [hpt] at h
    | some pt =>
      simp only [hpt, Option.map, Option.some.injEq, Prod.mk.injEq] at h
      exact ⟨x, pt, by rw [h.2], hx, hpt⟩

theorem fold_init_some {fn fn1 : DCFuncNode} {nodes nodes1 : List Node}
    (h : fold_init fn nodes = some (fn1, nodes1)) :
    ∃ x sz, nodes = nodes1 ++ [x] ∧ x.opcode = 0x5A ∧ a_initsize x = some sz := by
  rcases eq_nil_or_concat nodes with rfl | ⟨l, x, rfl⟩ <;> try rw [concat_eq_append] at *
  · simp [fold_init] at h
  · rw [fold_init_concat] at h
    split_ifs at h with hx
    cases hsz : a_initsize x with
    | none => simp [hsz] at h
    | some sz =>
      simp only [hsz, Option.map, Option.some.injEq, Prod.mk.injEq] at h
      exact ⟨x, sz, by rw [h.2], hx, hsz⟩

theorem foldMarkers_some {fn fn6 : DCFuncNode} {nodes rest : List Node}
    (h : foldMarkers fn nodes = some (fn6, rest)) :
    ∃ init si pe ret mid sz pt,
      nodes = rest ++ init :: si :: pe :: (mid ++ [ret]) ∧
      ret.opcode = 0x50 ∧ (∀ m ∈ mid, m.opcode ≠ 0x78) ∧ pe.opcode = 0x78 ∧
      si.opcode = 0x77 ∧ setinfoProcessType si = some pt ∧
      init.opcode = 0x5A ∧ a_initsize init = some sz ∧
      fn6 = markersFolded fn init si pe ret mid sz pt := by
  have h0 := h
  unfold foldMarkers at h
  split at h
  · exact absurd h (by simp)
  split at h
  · exact absurd h (by simp)
  rename_i fn1 nodes1 h1
  simp only at h
  split at h
  · exact absurd h (by simp)
  rename_i fn3 nodes3 h3
  split at h
  · exact absurd h (by simp)
  rename_i fn4 nodes4 h4
  split at h
  · exact absurd h (by simp)
  rename_i fn5 nodes5 h5
  simp only [Option.some.injEq, Prod.mk.injEq] at h
  obtain ⟨ret, rfl, hret⟩ := fold_ret_some h1
  obtain ⟨pe, hpe_eq, hpe⟩ := fold_procexclude_some h3
  obtain ⟨si, pt, rfl, hsi, hpt⟩ := fold_setinfo_some h4
  obtain ⟨init, sz, rfl, hinit, hsz⟩ := fold_init_some h5
  rw [gatherBody_eq] at hpe_eq
  simp only at hpe_eq
  have hd : dropWhile (fun n : Node => !acceptOp n.opcode 0x78) nodes1.reverse =
      pe :: (nodes5 ++ [init] ++ [si]).reverse := by
    have := congrArg reverse hpe_eq
    simpa using this
  have hsplit := takeWhile_append_dropWhile (fun n : Node => !acceptOp n.opcode 0x78)
    nodes1.reverse
  rw [hd] at hsplit
  have hn1 : nodes1 = (nodes5 ++ [init] ++ [si]) ++
      pe :: (takeWhile (fun n : Node => !acceptOp n.opcode 0x78) nodes1.reverse).reverse := by
    have := congrArg reverse hsplit
    simpa using this.symm
  have hmid : ∀ m ∈ (takeWhile (fun n : Node => !acceptOp n.opcode 0x78) nodes1.reverse).reverse,
      m.opcode ≠ 0x78 := by
    intro m hm
    have := mem_takeWhile_imp (mem_reverse.mp hm)
    simpa [acceptOp] using this
  have hnodes : nodes1 ++ [ret] = nodes5 ++ init :: si :: pe ::
      ((takeWhile (fun n : Node => !acceptOp n.opcode 0x78) nodes1.reverse).reverse ++ [ret]) := by
    conv_lhs => rw [hn1]
    simp
  refine ⟨init, si, pe, ret, _, sz, pt, ?_, hret, hmid, hpe, hsi, hpt, hinit, hsz, ?_⟩
  · rw [← h.2]; exact hnodes
  · rw [hnodes, foldMarkers_shape fn _ _ init si pe ret sz pt hret hmid hpe hsi hpt hinit hsz] at h0
    simp only [Option.some.injEq, Prod.mk.injEq] at h0
    exact h0.1.symm

theorem shape_unique {l l' mid mid' : List Node} {pe pe' ret ret' : Node}
    (hpe : pe.opcode = 0x78) (hpe' : pe'.opcode = 0x78)
    (hmid : ∀ m ∈ mid, m.opcode ≠ 0x78) (hmid' : ∀ m ∈ mid', m.opcode ≠ 0x78)
    (h : l ++ pe :: (mid ++ [ret]) = l' ++ pe' :: (mid' ++ [ret'])) :
    l = l' ∧ pe = pe' ∧ mid = mid' ∧ ret = ret' := by
  have h1 : (l ++ pe :: mid) ++ [ret] = (l' ++ pe' :: mid') ++ [ret'] := by simpa using h
  have h2 := append_inj' h1 rfl
  have hret : ret = ret' := by simpa using h2.2
  have h3 : mid.reverse ++ pe :: l.reverse = mid'.reverse ++ pe' :: l'.reverse := by
    have := congrArg reverse h2.1
    simpa using this
  have key : ∀ (m k : List Node) (p : Node), p.opcode = 0x78 → (∀ x ∈ m, x.opcode ≠ 0x78) →
      takeWhile (fun n : Node => !acceptOp n.opcode 0x78) (m.reverse ++ p :: k) = m.reverse := by
    intro m k p hp hm
    have hm' : ∀ a ∈ m.reverse, (fun n : Node => !acceptOp n.opcode 0x78) a = true := by
      intro a ha
      simpa [acceptOp] using hm a (by simpa using ha)
    rw [takeWhile_append_of_pos hm']
    simp [takeWhile_cons, acceptOp, hp]
  have h4 : mid.reverse = mid'.reverse := by
    rw [← key mid l.reverse pe hpe hmid, ← key mid' l'.reverse pe' hpe' hmid', h3]
  have hmm : mid = mid' := reverse_injective h4
  subst hmm
  have h5 := append_cancel_left h3
  simp only [cons.injEq] at h5
  exact ⟨reverse_injective h5.2, h5.1, rfl, hret⟩

theorem fold_some {cfg : Synth} {fn fn' : DCFuncNode} {nodes nodes' : List Node}
    (h : DCFuncNode.fold cfg fn nodes = some (fn', nodes')) :
    nodes' = [] ∧ ∃ init si pe ret mid sz pt,
      nodes = init :: si :: pe :: (mid ++ [ret]) ∧
      ret.opcode = 0x50 ∧ (∀ m ∈ mid, m.opcode ≠ 0x78) ∧ pe.opcode = 0x78 ∧
      si.opcode = 0x77 ∧ setinfoProcessType si = some pt ∧
      init.opcode = 0x5A ∧ a_initsize init = some sz ∧
      fn' = { markersFolded fn init si pe ret mid sz pt with
              funcnodes := collapseSwitches cfg (mid ++ fn.funcnodes) } := by
  unfold DCFuncNode.fold at h
  split at h
  · exact absurd h (by simp)
  rename_i fn6 nodes6 h6
  simp only at h
  split_ifs at h with hlen
  simp only [Option.some.injEq, Prod.mk.injEq] at h
  have hn6 : nodes6 = [] := length_eq_zero.mp hlen
  subst hn6
  obtain ⟨init, si, pe, ret, mid, sz, pt, hn, hret, hmid, hpe, hsi, hpt, hinit, hsz, hfn⟩ :=
    foldMarkers_some h6
  refine ⟨h.2.symm, init, si, pe, ret, mid, sz, pt, by simpa using hn, hret, hmid, hpe, hsi,
    hpt, hinit, hsz, ?_⟩
  rw [← h.1, hfn]
  rfl

theorem fold_shape (cfg : Synth) (fn : DCFuncNode) (mid : List Node) (init si pe ret : Node)
    (sz pt : Nat) (hret : ret.opcode = 0x50) (hmid : ∀ m ∈ mid, m.opcode ≠ 0x78)
    (hpe : pe.opcode = 0x78) (hsi : si.opcode = 0x77) (hpt : setinfoProcessType si = some pt)
    (hinit : init.opcode = 0x5A) (hsz : a_initsize init = some sz) :
    DCFuncNode.fold cfg fn (init :: si :: pe :: (mid ++ [ret])) =
      some ({ markersFolded fn init si pe ret mid sz pt with
              funcnodes := collapseSwitches cfg (mid ++ fn.funcnodes) }, []) := by
  have := foldMarkers_shape fn [] mid init si pe ret sz pt hret hmid hpe hsi hpt hinit hsz
  simp only [nil_append] at this
  unfold DCFuncNode.fold
  rw [this]
  rfl

/-- A successful fold on a deque whose last process-exclude marker is known:
the deque is exactly init, set-info, process-exclude, body, return. -/
theorem fold_some_at {cfg : Synth} {fn fn' : DCFuncNode} {nodes' l mid : List Node}
    {pe ret : Node} (hpe : pe.opcode = 0x78) (hmid : ∀ m ∈ mid, m.opcode ≠ 0x78)
    (h : DCFuncNode.fold cfg fn (l ++ pe :: (mid ++ [ret])) = some (fn', nodes')) :
    ∃ init si sz pt, l = [init, si] ∧ ret.opcode = 0x50 ∧ si.opcode = 0x77 ∧
      setinfoProcessType si = some pt ∧ init.opcode = 0x5A ∧ a_initsize init = some sz ∧
      fn' = { markersFolded fn init si pe ret mid sz pt with
              funcnodes := collapseSwitches cfg (mid ++ fn.funcnodes) } := by
  obtain ⟨-, init, si, pe', ret', mid', sz, pt, hn, hret, hmid', hpe', hsi, hpt, hinit, hsz,
    hfn⟩ := fold_some h
  have hn' : l ++ pe :: (mid ++ [ret]) = [init, si] ++ pe' :: (mid' ++ [ret']) := by
    simpa using hn
  obtain ⟨rfl, rfl, rfl, rfl⟩ := shape_unique hpe hpe' hmid hmid' hn'
  exact ⟨init, si, sz, pt, rfl, hret, hsi, hpt, hinit, hsz, hfn⟩

/-! ## The fold stack: claims C1, C2, C3, C5 and C6 -/

/-- C1: whenever `DCFuncNode::fold` returns, the deque it leaves is empty; and a
deque that holds any node below the init marker (the node two places below the
last process-exclude marker) makes the fold fail fatally. -/
theorem fold_leaves_stack_empty (cfg : Synth) (fn : DCFuncNode) (nodes : List Node) :
    (∀ fn' nodes', DCFuncNode.fold cfg fn nodes = some (fn', nodes') → nodes' = []) ∧
    (∀ below init si pe mid ret, nodes = below ++ init :: si :: pe :: (mid ++ [ret]) →
      pe.opcode = 0x78 → (∀ m ∈ mid, m.opcode ≠ 0x78) → below ≠ [] →
      DCFuncNode.fold cfg fn nodes = none) := by
  refine ⟨fun fn' nodes' h => (fold_some h).1, ?_⟩
  intro below init si pe mid ret hn hpe hmid hbelow
  cases hf : DCFuncNode.fold cfg fn nodes with
  | none => rfl
  | some r =>
    exfalso
    obtain ⟨fn', nodes'⟩ := r
    have hn' : nodes = (below ++ [init, si]) ++ pe :: (mid ++ [ret]) := by simpa using hn
    rw [hn'] at hf
    obtain ⟨i, s, -, -, hl, -⟩ := fold_some_at hpe hmid hf
    have := congrArg length hl
    simp at this
    exact hbelow this

/-- Instance of C1: the fold of init, set-info, process-exclude, two body nodes
and return succeeds with an empty deque; with one more node below the init
marker it fails. -/
theorem fold_leaves_stack_empty_witness :
    (∃ fn', DCFuncNode.fold exCfg exFunc [exInit, exSetinfo, exProcExclude, exA, exB, exRet]
        = some (fn', [])) ∧
    DCFuncNode.fold exCfg exFunc [exA, exInit, exSetinfo, exProcExclude, exA, exB, exRet]
        = none :=
  ⟨⟨_, rfl⟩,
   (fold_leaves_stack_empty exCfg exFunc
      [exA, exInit, exSetinfo, exProcExclude, exA, exB, exRet]).2
      [exA] exInit exSetinfo exProcExclude [exA, exB] exRet rfl rfl (by decide) (by simp)⟩

theorem fold_eq_none_of {cfg : Synth} {fn : DCFuncNode} {nodes : List Node}
    (h : ∀ fn' nodes', DCFuncNode.fold cfg fn nodes = some (fn', nodes') → False) :
    DCFuncNode.fold cfg fn nodes = none := by
  cases hf : DCFuncNode.fold cfg fn nodes with
  | none => rfl
  | some r => exact absurd hf (fun hf' => h r.1 r.2 hf')

/-- C2: `DCFuncNode::fold` fails fatally when the deque is empty or its back is
not the return marker (0x50), when no process-exclude marker (0x78) lies below
the return marker, when the node right below the (last) process-exclude marker
is not the set-info marker (0x77), and when the node right below that one is not
the init marker (0x5A).  Every successful fold has set `has_procexclude`. -/
theorem fold_fails_on_missing_marker (cfg : Synth) (fn : DCFuncNode) (nodes : List Node) :
    (nodes.getLast?.map Node.opcode ≠ some 0x50 → DCFuncNode.fold cfg fn nodes = none) ∧
    (∀ l ret, nodes = l ++ [ret] → (∀ n ∈ l, n.opcode ≠ 0x78) →
      DCFuncNode.fold cfg fn nodes = none) ∧
    (∀ l pe mid ret, nodes = l ++ pe :: (mid ++ [ret]) → pe.opcode = 0x78 →
      (∀ m ∈ mid, m.opcode ≠ 0x78) → l.getLast?.map Node.opcode ≠ some 0x77 →
      DCFuncNode.fold cfg fn nodes = none) ∧
    (∀ l si pe mid ret, nodes = l ++ si :: pe :: (mid ++ [ret]) → pe.opcode = 0x78 →
      (∀ m ∈ mid, m.opcode ≠ 0x78) → l.getLast?.map Node.opcode ≠ some 0x5A →
      DCFuncNode.fold cfg fn nodes = none) ∧
    (∀ fn' nodes', DCFuncNode.fold cfg fn nodes = some (fn', nodes') →
      fn'.has_procexclude = true) := by
  refine ⟨?_, ?_, ?_, ?_, ?_⟩
  · intro hlast
    refine fold_eq_none_of fun fn' nodes' hf => hlast ?_
    obtain ⟨-, init, si, pe, ret, mid, sz, pt, hn, hret, -⟩ := fold_some hf
    have e : nodes = (init :: si :: pe :: mid) ++ [ret] := by simpa using hn
    rw [e, getLast?_concat]
    simp [hret]
  · intro l ret hn hl
    refine fold_eq_none_of fun fn' nodes' hf => ?_
    obtain ⟨-, init, si, pe, ret', mid, sz, pt, hn', -, -, hpe, -⟩ := fold_some hf
    have e : l ++ [ret] = (init :: si :: pe :: mid) ++ [ret'] := by
      rw [← hn, hn']; simp
    have hl' := (append_inj' e rfl).1
    exact hl pe (by rw [hl']; simp) hpe
  · intro l pe mid ret hn hpe hmid hl
    refine fold_eq_none_of fun fn' nodes' hf => hl ?_
    rw [hn] at hf
    obtain ⟨init, si, sz, pt, rfl, -, hsi, -⟩ := fold_some_at hpe hmid hf
    simp [hsi]
  · intro l si pe mid ret hn hpe hmid hl
    refine fold_eq_none_of fun fn' nodes' hf => hl ?_
    have e : nodes = (l ++ [si]) ++ pe :: (mid ++ [ret]) := by simpa using hn
    rw [e] at hf
    obtain ⟨init, si', sz, pt, hl', -, -, -, hinit, -⟩ := fold_some_at hpe hmid hf
    have e2 : l ++ [si] = [init] ++ [si'] := by simpa using hl'
    have hl'' := (append_inj' e2 rfl).1
    rw [hl'']
    simp [hinit]
  · intro fn' nodes' hf
    obtain ⟨-, init, si, pe, ret, mid, sz, pt, -, -, -, -, -, -, -, -, hfn⟩ := fold_some hf
    rw [hfn]
    rfl

/-- Instances of C2: a deque whose back is not a return marker, one without a
process-exclude marker, one with a body node in the place of the set-info
marker and one with a body node in the place of the init marker all make the
fold fail; the fold of a complete deque sets `has_procexclude`. -/
theorem fold_fails_on_missing_marker_witness :
    DCFuncNode.fold exCfg exFunc [exInit, exSetinfo, exProcExclude, exA] = none ∧
    DCFuncNode.fold exCfg exFunc [exInit, exSetinfo, exA, exRet] = none ∧
    DCFuncNode.fold exCfg exFunc [exInit, exA, exProcExclude, exB, exRet] = none ∧
    DCFuncNode.fold exCfg exFunc [exA, exSetinfo, exProcExclude, exB, exRet] = none ∧
    (∃ fn', DCFuncNode.fold exCfg exFunc [exInit, exSetinfo, exProcExclude, exA, exRet]
        = some (fn', []) ∧ fn'.has_procexclude = true) :=
  ⟨(fold_fails_on_missing_marker exCfg exFunc [exInit, exSetinfo, exProcExclude, exA]).1
      (by decide),
   (fold_fails_on_missing_marker exCfg exFunc [exInit, exSetinfo, exA, exRet]).2.1
      [exInit, exSetinfo, exA] exRet rfl (by decide),
   (fold_fails_on_missing_marker exCfg exFunc [exInit, exA, exProcExclude, exB, exRet]).2.2.1
      [exInit, exA] exProcExclude [exB] exRet rfl rfl (by decide) (by decide),
   (fold_fails_on_missing_marker exCfg exFunc [exA, exSetinfo, exProcExclude, exB, exRet]).2.2.2.1
      [exA] exSetinfo exProcExclude [exB] exRet rfl rfl (by decide) (by decide),
   ⟨_, rfl,
    (fold_fails_on_missing_marker exCfg exFunc
      [exInit, exSetinfo, exProcExclude, exA, exRet]).2.2.2.2 _ _ rfl⟩⟩

/-- C3, as stated, fails: with body nodes `exA`, `exB` (in that order, front to
back) between the process-exclude and the return marker, the body after step 2
is `[exA, exB]`, not the reverse. -/
theorem body_order_counterexample :
    (foldMarkers exFunc [exInit, exSetinfo, exProcExclude, exA, exB, exRet]).map
        (fun r => r.1.funcnodes) = some [exA, exB] ∧
    [exA, exB] ≠ [exA, exB].reverse := by
  refine ⟨rfl, ?_⟩
  simp [exA, exB]

/-- C3, amended: the `while` of step 2 moves exactly the nodes that lie between
the last process-exclude marker and the return marker into the body, in their
front-to-back deque order, in front of what the body held before (nothing, for
a function node with an empty body); the body stays that way until the
switch-collapse pass. -/
theorem body_keeps_stack_order (fn : DCFuncNode) (l mid : List Node) (pe ret : Node)
    (hpe : pe.opcode = 0x78) (hmid : ∀ m ∈ mid, m.opcode ≠ 0x78) :
    gatherBody (l ++ pe :: mid).reverse fn.funcnodes = (pe :: l.reverse, mid ++ fn.funcnodes) ∧
    (∀ fn6 rest, foldMarkers fn (l ++ pe :: (mid ++ [ret])) = some (fn6, rest) →
      fn6.funcnodes = mid ++ fn.funcnodes) := by
  refine ⟨gatherBody_shape l mid fn.funcnodes pe hmid hpe, ?_⟩
  intro fn6 rest hf
  obtain ⟨init, si, pe', ret', mid', sz, pt, hn, -, hmid', hpe', -, -, -, -, hfn⟩ :=
    foldMarkers_some hf
  have e : l ++ pe :: (mid ++ [ret]) = (rest ++ [init, si]) ++ pe' :: (mid' ++ [ret']) := by
    simpa using hn
  obtain ⟨-, -, rfl, -⟩ := shape_unique hpe hpe' hmid hmid' e
  rw [hfn]
  rfl

/-- Instance of amended C3: the body of the sample function is `[exA, exB]`. -/
theorem body_keeps_stack_order_witness :
    gatherBody ([exInit, exSetinfo] ++ exProcExclude :: [exA, exB]).reverse exFunc.funcnodes
      = (exProcExclude :: [exInit, exSetinfo].reverse, [exA, exB] ++ exFunc.funcnodes) :=
  (body_keeps_stack_order exFunc [exInit, exSetinfo] [exA, exB] exProcExclude exRet rfl
    (by decide)).1

theorem setinfoProcessType_eq_some {si : Node} {pt : Nat} (h : setinfoProcessType si = some pt) :
    ∃ op off rt loff lrt ldt roff rrt top toff tdt rr,
      si = .callMutator op off rt (some (.pushVar 0x0B loff lrt ldt))
        (some (.callMutator 0x4C roff rrt (some (.pushVar top toff .T_DWORD tdt)) rr)) ∧
      tdt.value = 0x06 ∧ pt = ldt.value := by
  unfold setinfoProcessType at h
  split at h
  · rename_i op off rt lop loff lrt ldt rop roff rrt top toff trt tdt rr
    split_ifs at h with hc
    obtain ⟨rfl, rfl, rfl, hv⟩ := hc
    simp only [Option.some.injEq] at h
    exact ⟨op, off, rt, loff, lrt, ldt, roff, rrt, top, toff, tdt, rr, rfl, hv, h.symm⟩
  · exact absurd h (by simp)

/-- C5: with a set-info node (0x77) at the back of the deque, `fold_setinfo`
succeeds exactly when the node's left operand is a push word (0x0B) and its
right operand a push indirect (0x4C) whose own left operand has type dword and
value 0x06; otherwise it is fatal.  On success the process type is the value of
the push word, the this-pointer is confirmed and the node is popped. -/
theorem fold_setinfo_iff (fn : DCFuncNode) (l : List Node) (off : Nat) (rt : TypeTag)
    (lnode rnode : Option Node) :
    ((∃ r, fold_setinfo fn (l ++ [.callMutator 0x77 off rt lnode rnode]) = some r) ↔
      (∃ loff lrt ldt, lnode = some (.pushVar 0x0B loff lrt ldt)) ∧
      (∃ roff rrt top toff tdt rr,
        rnode = some (.callMutator 0x4C roff rrt (some (.pushVar top toff .T_DWORD tdt)) rr) ∧
        tdt.value = 0x06)) ∧
    ((¬ ∃ r, fold_setinfo fn (l ++ [.callMutator 0x77 off rt lnode rnode]) = some r) →
      fold_setinfo fn (l ++ [.callMutator 0x77 off rt lnode rnode]) = none) ∧
    (∀ fn' nodes', fold_setinfo fn (l ++ [.callMutator 0x77 off rt lnode rnode])
        = some (fn', nodes') →
      (∃ loff lrt ldt, lnode = some (.pushVar 0x0B loff lrt ldt) ∧
        fn'.process_type = ldt.value) ∧
      fn'.debug_thisp = true ∧ nodes' = l) := by
  have hop : (Node.callMutator 0x77 off rt lnode rnode).opcode = 0x77 := rfl
  refine ⟨⟨?_, ?_⟩, ?_, ?_⟩
  · rintro ⟨r, hr⟩
    rw [fold_setinfo_concat, if_pos hop] at hr
    cases hpt : setinfoProcessType (.callMutator 0x77 off rt lnode rnode) with
    | none => simp [hpt] at hr
    | some pt =>
      obtain ⟨op, off', rt', loff, lrt, ldt, roff, rrt, top, toff, tdt, rr, he, hv, -⟩ :=
        setinfoProcessType_eq_some hpt
      simp only [Node.callMutator.injEq] at he
      exact ⟨⟨loff, lrt, ldt, he.2.2.2.1⟩, ⟨roff, rrt, top, toff, tdt, rr, he.2.2.2.2, hv⟩⟩
  · rintro ⟨⟨loff, lrt, ldt, rfl⟩, ⟨roff, rrt, top, toff, tdt, rr, rfl, hv⟩⟩
    rw [fold_setinfo_concat, if_pos hop]
    simp [setinfoProcessType, hv]
  · intro h
    cases hf : fold_setinfo fn (l ++ [.callMutator 0x77 off rt lnode rnode]) with
    | none => rfl
    | some r => exact absurd ⟨r, hf⟩ h
  · intro fn' nodes' hr
    rw [fold_setinfo_concat, if_pos hop] at hr
    cases hpt : setinfoProcessType (.callMutator 0x77 off rt lnode rnode) with
    | none => simp [hpt] at hr
    | some pt =>
      obtain ⟨op, off', rt', loff, lrt, ldt, roff, rrt, top, toff, tdt, rr, he, hv, hpv⟩ :=
        setinfoProcessType_eq_some hpt
      simp only [Node.callMutator.injEq] at he
      simp only [hpt, Option.map, Option.some.injEq, Prod.mk.injEq] at hr
      obtain ⟨hfn, hl⟩ := hr
      refine ⟨⟨loff, lrt, ldt, he.2.2.2.1, ?_⟩, ?_, hl.symm⟩
      · rw [← hfn, hpv]
      · rw [← hfn]

/-- Instances of C5: the sample set-info node is accepted and gives process type
0xF0; a set-info node whose `this` operand has value 0x07 is fatal. -/
theorem fold_setinfo_iff_witness :
    (∃ r, fold_setinfo exFunc ([exInit] ++ [exSetinfo]) = some r ∧
      r.1.process_type = 0xF0 ∧ r.1.debug_thisp = true ∧ r.2 = [exInit]) ∧
    fold_setinfo exFunc ([exInit] ++ [.callMutator 0x77 0x22 .T_INVALID
        (some (.pushVar 0x0B 0x22 .T_WORD ⟨0, 0xF0⟩))
        (some (.callMutator 0x4C 0x27 .T_INVALID
          (some (.pushVar 0x40 0x25 .T_DWORD ⟨1, 0x07⟩)) none))]) = none :=
  ⟨⟨_, rfl, rfl, rfl, rfl⟩,
   (fold_setinfo_iff exFunc [exInit] 0x22 .T_INVALID
      (some (.pushVar 0x0B 0x22 .T_WORD ⟨0, 0xF0⟩))
      (some (.callMutator 0x4C 0x27 .T_INVALID
        (some (.pushVar 0x40 0x25 .T_DWORD ⟨1, 0x07⟩)) none))).2.1
      (fun ⟨_, hr⟩ => Option.noConfusion hr)⟩

/-- C6: after a successful `DCFuncNode::fold` the start offset is the offset of
the init marker (the front of the deque), the size of the locals is the init
marker's size operand, `is_startup` holds exactly when the start offset is 0,
a startup node exists whenever `is_startup` holds, and a startup node that was
there before the fold is kept. -/
theorem fold_records_init (cfg : Synth) (fn fn' : DCFuncNode) (nodes nodes' : List Node)
    (h : DCFuncNode.fold cfg fn nodes = some (fn', nodes')) :
    ∃ init above, nodes = init :: above ∧ init.opcode = 0x5A ∧
      fn'.func_start_offset = init.offset ∧
      a_initsize init = some fn'.locals_datasize ∧
      (fn'.is_startup = true ↔ fn'.func_start_offset = 0) ∧
      (fn'.is_startup = true → ∃ s, fn'.startupnode = some s) ∧
      (∀ s, fn.startupnode = some s → fn'.startupnode = some s) := by
  obtain ⟨-, init, si, pe, ret, mid, sz, pt, hn, -, -, -, -, -, hinit, hsz, hfn⟩ := fold_some h
  refine ⟨init, _, hn, hinit, ?_, ?_, ?_, ?_, ?_⟩
  · rw [hfn]; rfl
  · rw [hfn]; exact hsz
  · rw [hfn]; simp [markersFolded]
  · rw [hfn]
    intro hs
    have hs' : init.offset = 0 := by simpa [markersFolded] using hs
    cases hst : fn.startupnode with
    | none => exact ⟨⟨init.offset⟩, by simp [markersFolded, hs', hst]⟩
    | some s => exact ⟨s, by simp [markersFolded, hst]⟩
  · intro s hs
    rw [hfn]
    simp [markersFolded, hs]

/-- Instance of C6: the sample function starts at offset 0x20 with 4 bytes of
locals and is not a startup function. -/
theorem fold_records_init_witness :
    ∃ init above, [exInit, exSetinfo, exProcExclude, exA, exB, exRet] = init :: above ∧
      init.opcode = 0x5A ∧
      exFolded.func_start_offset = init.offset ∧
      a_initsize init = some exFolded.locals_datasize ∧
      (exFolded.is_startup = true ↔ exFolded.func_start_offset = 0) ∧
      (exFolded.is_startup = true → ∃ s, exFolded.startupnode = some s) ∧
      (∀ s, exFunc.startupnode = some s → exFolded.startupnode = some s) :=
  fold_records_init exCfg exFunc exFolded [exInit, exSetinfo, exProcExclude, exA, exB, exRet] []
    rfl

/-! ## Auxiliary lemmas on the switch-collapse pass -/

theorem foldl_addCase (caseOpcode : Nat) (caseRtype : TypeTag) (op off : Nat) (rt : TypeTag)
    (expr : Node) (chain cases originals : List Node) :
    chain.foldl (fun sw c => addOriginalNode (addCase sw (mkCase caseOpcode caseRtype c)) c)
        (.switchNode op off rt expr cases originals) =
      .switchNode op off rt expr (cases ++ chain.map (mkCase caseOpcode caseRtype))
        (originals ++ chain) := by
  induction chain generalizing cases originals with
  | nil => simp
  | cons c chain ih =>
    rw [foldl_cons]
    have h1 : addOriginalNode (addCase (.switchNode op off rt expr cases originals)
        (mkCase caseOpcode caseRtype c)) c =
        .switchNode op off rt expr (cases ++ [mkCase caseOpcode caseRtype c])
          (originals ++ [c]) := rfl
    rw [h1, ih]
    simp

/-- The switch and the rest of the body in closed form. -/
theorem buildSwitch_eq (cfg : Synth) (ifnode baseExpr : Node) (chain atJt : List Node) :
    buildSwitch cfg ifnode baseExpr chain atJt =
      match atJt with
      | [] =>
        (.switchNode cfg.switchOpcode ifnode.offset cfg.switchRtype baseExpr
          (chain.map (mkCase cfg.caseOpcode cfg.caseRtype)) chain, [])
      | elseNode :: rest =>
        match mkDefault cfg.caseOpcode cfg.caseRtype elseNode with
        | some dflt =>
          (.switchNode cfg.switchOpcode ifnode.offset cfg.switchRtype baseExpr
            (chain.map (mkCase cfg.caseOpcode cfg.caseRtype) ++ [dflt]) (chain ++ [elseNode]),
            rest)
        | none =>
          (.switchNode cfg.switchOpcode ifnode.offset cfg.switchRtype baseExpr
            (chain.map (mkCase cfg.caseOpcode cfg.caseRtype)) chain, elseNode :: rest) := by
  unfold buildSwitch newSwitchNode
  simp only [foldl_addCase, nil_append]
  cases atJt with
  | nil => rfl
  | cons e rest =>
    cases h : mkDefault cfg.caseOpcode cfg.caseRtype e <;> simp [addCase, addOriginalNode]

theorem buildSwitch_snd_length (cfg : Synth) (ifnode baseExpr : Node) (chain atJt : List Node) :
    (buildSwitch cfg ifnode baseExpr chain atJt).2.length ≤ atJt.length := by
  rw [buildSwitch_eq]
  cases atJt with
  | nil => simp
  | cons e rest =>
    cases h : mkDefault cfg.caseOpcode cfg.caseRtype e <;> simp [h]

theorem collapseFrom_nil (cfg : Synth) (fuel : Nat) : collapseFrom cfg fuel [] = [] := by
  cases fuel <;> rfl

theorem collapseFrom_succ_cons (cfg : Synth) (fuel : Nat) (ifnode : Node) (rest : List Node) :
    collapseFrom cfg (fuel + 1) (ifnode :: rest) =
      match baseExprOf ifnode with
      | none => ifnode :: collapseFrom cfg fuel rest
      | some baseExpr =>
        if (scanChain baseExpr (ifnode :: rest)).length < 2 then
          ifnode :: collapseFrom cfg fuel rest
        else
          (buildSwitch cfg ifnode baseExpr (scanChain baseExpr (ifnode :: rest))
            ((ifnode :: rest).drop (scanChain baseExpr (ifnode :: rest)).length)).1 ::
          collapseFrom cfg fuel
            (buildSwitch cfg ifnode baseExpr (scanChain baseExpr (ifnode :: rest))
              ((ifnode :: rest).drop (scanChain baseExpr (ifnode :: rest)).length)).2 := by
  rfl

/-- The result of the loop does not depend on the fuel once there is enough. -/
theorem collapseFrom_fuel (cfg : Synth) :
    ∀ (fuel fuel' : Nat) (body : List Node), body.length ≤ fuel → body.length ≤ fuel' →
      collapseFrom cfg fuel body = collapseFrom cfg fuel' body := by
  intro fuel
  induction fuel with
  | zero =>
    intro fuel' body h _
    have : body = [] := length_eq_zero.mp (Nat.le_zero.mp h)
    subst this
    rw [collapseFrom_nil, collapseFrom_nil]
  | succ f ih =>
    intro fuel' body h h'
    cases body with
    | nil => rw [collapseFrom_nil, collapseFrom_nil]
    | cons n rest =>
      cases fuel' with
      | zero => simp at h'
      | succ g =>
        have hr : rest.length ≤ f := by simpa using h
        have hr' : rest.length ≤ g := by simpa using h'
        rw [collapseFrom_succ_cons, collapseFrom_succ_cons]
        cases hb : baseExprOf n with
        | none => simp only; rw [ih g rest hr hr']
        | some b =>
          simp only
          split_ifs with hlen
          · rw [ih g rest hr hr']
          · have hk : 1 ≤ (scanChain b (n :: rest)).length := by omega
            have hd : ((n :: rest).drop (scanChain b (n :: rest)).length).length ≤ rest.length := by
              rw [length_drop]; simp; omega
            have hs := buildSwitch_snd_length cfg n b (scanChain b (n :: rest))
              ((n :: rest).drop (scanChain b (n :: rest)).length)
            rw [ih g _ (by omega) (by omega)]

theorem collapseSwitches_nil (cfg : Synth) : collapseSwitches cfg [] = [] := rfl

/-- One iteration of the loop, at the head of what is left to scan. -/
theorem collapseSwitches_cons (cfg : Synth) (ifnode : Node) (rest : List Node) :
    collapseSwitches cfg (ifnode :: rest) =
      match baseExprOf ifnode with
      | none => ifnode :: collapseSwitches cfg rest
      | some baseExpr =>
        if (scanChain baseExpr (ifnode :: rest)).length < 2 then
          ifnode :: collapseSwitches cfg rest
        else
          (buildSwitch cfg ifnode baseExpr (scanChain baseExpr (ifnode :: rest))
            ((ifnode :: rest).drop (scanChain baseExpr (ifnode :: rest)).length)).1 ::
          collapseSwitches cfg
            (buildSwitch cfg ifnode baseExpr (scanChain baseExpr (ifnode :: rest))
              ((ifnode :: rest).drop (scanChain baseExpr (ifnode :: rest)).length)).2 := by
  unfold collapseSwitches
  rw [length_cons, collapseFrom_succ_cons]
  cases hb : baseExprOf ifnode with
  | none => rfl
  | some b =>
    simp only
    split_ifs with hlen
    · rfl
    · have hk : 1 ≤ (scanChain b (ifnode :: rest)).length := by omega
      have hd : ((ifnode :: rest).drop (scanChain b (ifnode :: rest)).length).length
          ≤ rest.length := by
        rw [length_drop]; simp; omega
      have hs := buildSwitch_snd_length cfg ifnode b (scanChain b (ifnode :: rest))
        ((ifnode :: rest).drop (scanChain b (ifnode :: rest)).length)
      rw [collapseFrom_fuel cfg rest.length _ _ (by omega) (le_refl _)]

theorem baseExprOf_toNode (itype : IfType) (var : DataType) (c : EqIf) :
    baseExprOf (c.toNode itype var) = some (c.lhs var) := by
  simp [EqIf.toNode, baseExprOf, acceptOp]

theorem chainAccepts_toNode (itype : IfType) (var var' : DataType) (c c' : EqIf) :
    chainAccepts (c.lhs var) (c'.toNode itype var') =
      (itype != IfType.I_ELSE && var'.dtype == var.dtype && var'.value == var.value) := by
  simp [EqIf.toNode, EqIf.lhs, chainAccepts, acceptOp, Bool.and_assoc]

theorem mkCase_toNode (cfg : Synth) (itype : IfType) (var : DataType) (c : EqIf) :
    mkCase cfg.caseOpcode cfg.caseRtype (c.toNode itype var) = c.toCase cfg := by
  simp [EqIf.toNode, mkCase, EqIf.toCase]

theorem scanChain_plainIf (var : DataType) (c : EqIf) (cs : List EqIf) (post : List Node) :
    scanChain (c.lhs var) (cs.map (EqIf.plainIf var) ++ post) =
      cs.map (EqIf.plainIf var) ++ scanChain (c.lhs var) post := by
  unfold scanChain
  apply takeWhile_append_of_pos
  intro a ha
  obtain ⟨c', -, rfl⟩ := mem_map.mp ha
  simp [EqIf.plainIf, chainAccepts_toNode]

/-- A run of two or more plain-if conditionals on one variable, followed by
nodes of which the first does not join the chain: the run is replaced by the
switch built from it, and the scan goes on behind the switch. -/
theorem collapseSwitches_run (cfg : Synth) (var : DataType) (c1 c2 : EqIf) (cs : List EqIf)
    (post : List Node) (hpost : scanChain (c1.lhs var) post = []) :
    collapseSwitches cfg ((c1 :: c2 :: cs).map (EqIf.plainIf var) ++ post) =
      (buildSwitch cfg (c1.plainIf var) (c1.lhs var) ((c1 :: c2 :: cs).map (EqIf.plainIf var))
        post).1 ::
      collapseSwitches cfg
        (buildSwitch cfg (c1.plainIf var) (c1.lhs var) ((c1 :: c2 :: cs).map (EqIf.plainIf var))
          post).2 := by
  have hchain : scanChain (c1.lhs var) ((c1 :: c2 :: cs).map (EqIf.plainIf var) ++ post) =
      (c1 :: c2 :: cs).map (EqIf.plainIf var) := by
    rw [scanChain_plainIf, hpost, append_nil]
  have hcons : (c1 :: c2 :: cs).map (EqIf.plainIf var) ++ post =
      c1.plainIf var :: ((c2 :: cs).map (EqIf.plainIf var) ++ post) := rfl
  rw [hcons, collapseSwitches_cons, ← hcons]
  have hb : baseExprOf (c1.plainIf var) = some (c1.lhs var) := baseExprOf_toNode _ _ _
  rw [hb]
  simp only [hchain]
  rw [if_neg (by simp), drop_left]

/-! ## Runs of conditionals: claims C7 and C8 -/

theorem collapseSwitches_keep (cfg : Synth) (x : Node) (rest : List Node)
    (h : ∀ b, baseExprOf x = some b → (scanChain b (x :: rest)).length < 2) :
    collapseSwitches cfg (x :: rest) = x :: collapseSwitches cfg rest := by
  rw [collapseSwitches_cons]
  cases hb : baseExprOf x with
  | none => rfl
  | some b => simp only; rw [if_pos (h b hb)]

theorem map_mkCase_plainIf (cfg : Synth) (var : DataType) (cs : List EqIf) :
    map (mkCase cfg.caseOpcode cfg.caseRtype) (map (EqIf.plainIf var) cs) =
      map (EqIf.toCase cfg) cs := by
  rw [map_map]
  apply map_congr_left
  intro c _
  exact mkCase_toNode cfg _ var c

/-- C7: a body of `n ≥ 2` plain-if conditionals that compare one variable for
equality, followed by an else, collapses to exactly one switch on the shared
left-hand operand with `n + 1` cases: the `i`-th case has the right-hand operand
of the `i`-th conditional as match value and the body of that conditional, in
the same order, and the last case is the default (no match value) with the body
of the else. -/
theorem collapse_run_with_else (cfg : Synth) (var : DataType) (c1 c2 : EqIf) (cs : List EqIf)
    (eoff : Nat) (ert : TypeTag) (econd : Option Node) (ebody : List Node) :
    collapseSwitches cfg
        ((c1 :: c2 :: cs).map (EqIf.plainIf var) ++ [.ifNode 0x51 eoff ert .I_ELSE econd ebody]) =
      [.switchNode cfg.switchOpcode c1.offset cfg.switchRtype (c1.lhs var)
        ((c1 :: c2 :: cs).map (EqIf.toCase cfg) ++
          [.caseNode cfg.caseOpcode eoff cfg.caseRtype none ebody])
        ((c1 :: c2 :: cs).map (EqIf.plainIf var) ++
          [.ifNode 0x51 eoff ert .I_ELSE econd ebody])] ∧
    ((c1 :: c2 :: cs).map (EqIf.toCase cfg) ++
        [Node.caseNode cfg.caseOpcode eoff cfg.caseRtype none ebody]).length
      = (c1 :: c2 :: cs).length + 1 := by
  refine ⟨?_, by simp⟩
  have hpost : scanChain (c1.lhs var) [.ifNode 0x51 eoff ert .I_ELSE econd ebody] = [] := by
    cases econd with
    | none => simp [scanChain, chainAccepts]
    | some e =>
      unfold scanChain
      apply takeWhile_cons_of_neg
      unfold chainAccepts
      split <;> simp_all [EqIf.lhs]
  rw [collapseSwitches_run cfg var c1 c2 cs _ hpost]
  have hmap := map_mkCase_plainIf cfg var (c1 :: c2 :: cs)
  simp only [buildSwitch_eq, mkDefault, hmap, and_self, if_true, collapseSwitches_nil]
  rfl

/-- Instance of C7 (`n = 3`, literals 1, 2, 3, then an else): one switch with 4
cases. -/
theorem collapse_run_with_else_witness :
    collapseSwitches exCfg
        [(exCond 0x30 1).plainIf exSlot1, (exCond 0x34 2).plainIf exSlot1,
         (exCond 0x38 3).plainIf exSlot1, exElse] =
      [.switchNode 0x100 0x30 .T_VOID (.pushVar 0x3F 0x30 .T_WORD exSlot1)
        [.caseNode 0x101 0x30 .T_VOID (some (exLit 1)) [.other 0x0F 0x31 .T_VOID],
         .caseNode 0x101 0x34 .T_VOID (some (exLit 2)) [.other 0x0F 0x35 .T_VOID],
         .caseNode 0x101 0x38 .T_VOID (some (exLit 3)) [.other 0x0F 0x39 .T_VOID],
         .caseNode 0x101 0x60 .T_VOID none [exB]]
        [(exCond 0x30 1).plainIf exSlot1, (exCond 0x34 2).plainIf exSlot1,
         (exCond 0x38 3).plainIf exSlot1, exElse]] :=
  (collapse_run_with_else exCfg exSlot1 (exCond 0x30 1) (exCond 0x34 2) [exCond 0x38 3]
    0x60 .T_INVALID none [exB]).1

/-- C8: a body of `n ≥ 2` plain-if conditionals that compare one variable for
equality, with nothing after them, is replaced by exactly one switch whose
discriminant is the shared left-hand operand, with exactly `n` cases, each with
a match value: there is no default case. -/
theorem collapse_run_without_else (cfg : Synth) (var : DataType) (c1 c2 : EqIf)
    (cs : List EqIf) :
    collapseSwitches cfg ((c1 :: c2 :: cs).map (EqIf.plainIf var)) =
      [.switchNode cfg.switchOpcode c1.offset cfg.switchRtype (c1.lhs var)
        ((c1 :: c2 :: cs).map (EqIf.toCase cfg))
        ((c1 :: c2 :: cs).map (EqIf.plainIf var))] ∧
    ((c1 :: c2 :: cs).map (EqIf.toCase cfg)).length = (c1 :: c2 :: cs).length ∧
    (∀ k ∈ (c1 :: c2 :: cs).map (EqIf.toCase cfg),
      ∃ op off rt v body, k = Node.caseNode op off rt (some v) body) := by
  refine ⟨?_, by simp, ?_⟩
  · have h := collapseSwitches_run cfg var c1 c2 cs [] (by simp [scanChain])
    rw [append_nil] at h
    rw [h]
    have hmap := map_mkCase_plainIf cfg var (c1 :: c2 :: cs)
    simp only [buildSwitch_eq, hmap, collapseSwitches_nil]
    rfl
  · intro k hk
    obtain ⟨c, -, rfl⟩ := mem_map.mp hk
    exact ⟨_, _, _, c.rhs, _, rfl⟩

/-- Instance of C8: the chain slot 1 == 1, slot 1 == 2 gives one switch with 2
cases. -/
theorem collapse_run_without_else_witness :
    collapseSwitches exCfg [(exCond 0x30 1).plainIf exSlot1, (exCond 0x34 2).plainIf exSlot1] =
      [.switchNode 0x100 0x30 .T_VOID (.pushVar 0x3F 0x30 .T_WORD exSlot1)
        [.caseNode 0x101 0x30 .T_VOID (some (exLit 1)) [.other 0x0F 0x31 .T_VOID],
         .caseNode 0x101 0x34 .T_VOID (some (exLit 2)) [.other 0x0F 0x35 .T_VOID]]
        [(exCond 0x30 1).plainIf exSlot1, (exCond 0x34 2).plainIf exSlot1]] :=
  (collapse_run_without_else exCfg exSlot1 (exCond 0x30 1) (exCond 0x34 2) []).1

/-! ## What the pass leaves in the body: claims C4 and C10 -/

theorem baseExprOf_opcode {x b : Node} (h : baseExprOf x = some b) : x.opcode = 0x51 := by
  unfold baseExprOf at h
  split at h
  · split_ifs at h with hc
    exact hc.1
  · exact absurd h (by simp)

theorem chainAccepts_opcode {b c : Node} (h : chainAccepts b c = true) : c.opcode = 0x51 := by
  unfold chainAccepts at h
  split at h
  · split at h
    · simp only [Bool.and_eq_true, beq_iff_eq] at h
      exact h.1.1.1.1
    · exact absurd h (by simp)
  · exact absurd h (by simp)

theorem collapseSwitches_skip (cfg : Synth) (pre rest : List Node)
    (hpre : ∀ p ∈ pre, p.opcode ≠ 0x51) :
    collapseSwitches cfg (pre ++ rest) = pre ++ collapseSwitches cfg rest := by
  induction pre with
  | nil => rfl
  | cons p pre ih =>
    have hp : ∀ b, baseExprOf p = some b → (scanChain b (p :: (pre ++ rest))).length < 2 :=
      fun b hb => absurd (baseExprOf_opcode hb) (hpre p (by simp))
    rw [cons_append, collapseSwitches_keep cfg p _ hp, ih (fun q hq => hpre q (by simp [hq]))]
    rfl

theorem buildSwitch_snd_suffix (cfg : Synth) (ifnode baseExpr : Node) (chain atJt : List Node) :
    (buildSwitch cfg ifnode baseExpr chain atJt).2 <:+ atJt := by
  rw [buildSwitch_eq]
  cases atJt with
  | nil => exact suffix_refl _
  | cons e rest =>
    cases h : mkDefault cfg.caseOpcode cfg.caseRtype e with
    | none => simp [h]
    | some d => simp [h]

theorem buildSwitch_fst (cfg : Synth) (ifnode baseExpr : Node) (chain atJt : List Node) :
    ∃ dflt absorbed, (buildSwitch cfg ifnode baseExpr chain atJt).1 =
      .switchNode cfg.switchOpcode ifnode.offset cfg.switchRtype baseExpr
        (chain.map (mkCase cfg.caseOpcode cfg.caseRtype) ++ dflt) (chain ++ absorbed) := by
  rw [buildSwitch_eq]
  cases atJt with
  | nil => exact ⟨[], [], by simp⟩
  | cons e rest =>
    cases h : mkDefault cfg.caseOpcode cfg.caseRtype e with
    | none => exact ⟨[], [], by simp [h]⟩
    | some d => exact ⟨[d], [e], by simp [h]⟩

/-- Every node the pass leaves in the body is a node of the body it was given
or the switch built from a chain of at least two accepted conditionals of that
body. -/
theorem collapseSwitches_mem (cfg : Synth) :
    ∀ (n : Nat) (body : List Node), body.length ≤ n → ∀ x ∈ collapseSwitches cfg body,
      x ∈ body ∨ ∃ ifnode b chain atJt, ifnode ∈ body ∧ baseExprOf ifnode = some b ∧
        2 ≤ chain.length ∧ (∀ c ∈ chain, c ∈ body ∧ chainAccepts b c = true) ∧
        x = (buildSwitch cfg ifnode b chain atJt).1 := by
  intro n
  induction n with
  | zero =>
    intro body h x hx
    have : body = [] := length_eq_zero.mp (Nat.le_zero.mp h)
    subst this
    simp [collapseSwitches_nil] at hx
  | succ n ih =>
    intro body h x hx
    cases body with
    | nil => simp [collapseSwitches_nil] at hx
    | cons a rest =>
      have hrest : rest.length ≤ n := by simpa using h
      have keep : x ∈ a :: collapseSwitches cfg rest →
          x ∈ a :: rest ∨ ∃ ifnode b chain atJt, ifnode ∈ a :: rest ∧ baseExprOf ifnode = some b ∧
            2 ≤ chain.length ∧ (∀ c ∈ chain, c ∈ a :: rest ∧ chainAccepts b c = true) ∧
            x = (buildSwitch cfg ifnode b chain atJt).1 := by
        intro hx'
        rcases mem_cons.mp hx' with rfl | hx''
        · exact Or.inl (mem_cons_self _ _)
        · rcases ih rest hrest x hx'' with hm | ⟨i, b, ch, at', hi, hb, hlen, hch, hxe⟩
          · exact Or.inl (mem_cons_of_mem _ hm)
          · exact Or.inr ⟨i, b, ch, at', mem_cons_of_mem _ hi, hb, hlen,
              fun c hc => ⟨mem_cons_of_mem _ (hch c hc).1, (hch c hc).2⟩, hxe⟩
      rw [collapseSwitches_cons] at hx
      cases hb : baseExprOf a with
      | none =>
        rw [hb] at hx
        exact keep hx
      | some b =>
        rw [hb] at hx
        simp only at hx
        split_ifs at hx with hlen
        · exact keep hx
        · have hsuf := (buildSwitch_snd_suffix cfg a b (scanChain b (a :: rest))
            ((a :: rest).drop (scanChain b (a :: rest)).length)).trans (drop_suffix _ _)
          have hk : 1 ≤ (scanChain b (a :: rest)).length := by omega
          have hd : ((a :: rest).drop (scanChain b (a :: rest)).length).length ≤ rest.length := by
            rw [length_drop]; simp; omega
          have hs := buildSwitch_snd_length cfg a b (scanChain b (a :: rest))
            ((a :: rest).drop (scanChain b (a :: rest)).length)
          rcases mem_cons.mp hx with rfl | hx''
          · refine Or.inr ⟨a, b, scanChain b (a :: rest), _, mem_cons_self _ _, hb, by omega,
              ?_, rfl⟩
            intro c hc
            exact ⟨(takeWhile_sublist _).subset hc, mem_takeWhile_imp hc⟩
          · rcases ih _ (by omega) x hx'' with hm | ⟨i, b', ch, at', hi, hb', hlen', hch, hxe⟩
            · exact Or.inl (hsuf.subset hm)
            · exact Or.inr ⟨i, b', ch, at', hsuf.subset hi, hb', hlen',
                fun c hc => ⟨hsuf.subset (hch c hc).1, (hch c hc).2⟩, hxe⟩

theorem caseValue_mkCase (caseOpcode : Nat) (caseRtype : TypeTag) (c : Node) :
    caseValue (mkCase caseOpcode caseRtype c) = condRhs c := by
  unfold mkCase condRhs
  split <;> simp_all [caseValue]

theorem hasMatchValue_mkCase (caseOpcode : Nat) (caseRtype : TypeTag) {b c : Node}
    (hacc : chainAccepts b c = true) (hrhs : cmpHasRhs c = true) :
    hasMatchValue (mkCase caseOpcode caseRtype c) = true := by
  unfold hasMatchValue
  rw [caseValue_mkCase]
  unfold chainAccepts at hacc
  split at hacc
  · rename_i op off rt itype cop coff crt lop loff lrt lhs rnode body
    cases rnode with
    | none => simp [cmpHasRhs] at hrhs
    | some r => simp [condRhs]
  · exact absurd hacc (by simp)

theorem chainAccepts_else (b : Node) (op off : Nat) (rt : TypeTag) (cond : Option Node)
    (body : List Node) : chainAccepts b (.ifNode op off rt .I_ELSE cond body) = false := by
  unfold chainAccepts
  split
  · split
    · rename_i h _ _ _ _ _
      simp only [Node.ifNode.injEq] at h
      obtain ⟨-, -, -, rfl, -⟩ := h
      simp
    · rfl
  · rfl

theorem scanChain_length_lt_two (b x : Node) (post : List Node)
    (h : ∀ y, post.head? = some y → chainAccepts b y = false) :
    (scanChain b (x :: post)).length < 2 := by
  unfold scanChain
  rw [takeWhile_cons]
  split
  · cases post with
    | nil => simp
    | cons y post' =>
      have hy := h y rfl
      rw [takeWhile_cons_of_neg (by simp [hy])]
      simp
  · simp

theorem collapseSwitches_opcode (cfg : Synth) (body : List Node) :
    ∀ x ∈ collapseSwitches cfg body, x ∈ body ∨ x.opcode = cfg.switchOpcode := by
  intro x hx
  rcases collapseSwitches_mem cfg body.length body (le_refl _) x hx with
    hm | ⟨i, b, ch, at', -, -, -, -, hxe⟩
  · exact Or.inl hm
  · obtain ⟨d, a, hd⟩ := buildSwitch_fst cfg i b ch at'
    rw [hxe, hd]
    exact Or.inr rfl

/-- C4 as stated fails: the fold of init, set-info, process-exclude, return,
return succeeds, and its body holds a return marker (0x50). -/
theorem body_marker_counterexample :
    ∃ fn', DCFuncNode.fold exCfg exFunc [exInit, exSetinfo, exProcExclude, exRet, exRet]
        = some (fn', []) ∧
      fn'.funcnodes = [exRet] ∧ exRet.opcode = 0x50 :=
  ⟨_, rfl, rfl, rfl⟩

/-- C4, amended: a deque on which `DCFuncNode::fold` succeeds is exactly the
init marker, the set-info marker, the process-exclude marker, the body nodes and
the return marker, so exactly one marker of each kind is popped as a marker;
no body node taken from the deque is a process-exclude marker (0x78); and an
opcode that none of the body nodes carries and that is not the opcode of the
synthesized switch is carried by no node of the final body. -/
theorem fold_absorbs_markers (cfg : Synth) (fn fn' : DCFuncNode) (nodes nodes' : List Node)
    (h : DCFuncNode.fold cfg fn nodes = some (fn', nodes')) :
    ∃ init si pe ret mid, nodes = init :: si :: pe :: (mid ++ [ret]) ∧
      init.opcode = 0x5A ∧ si.opcode = 0x77 ∧ pe.opcode = 0x78 ∧ ret.opcode = 0x50 ∧
      nodes.length = mid.length + 4 ∧
      (∀ m ∈ mid, m.opcode ≠ 0x78) ∧
      fn'.funcnodes = collapseSwitches cfg (mid ++ fn.funcnodes) ∧
      (∀ op, op ≠ cfg.switchOpcode → (∀ m ∈ mid ++ fn.funcnodes, m.opcode ≠ op) →
        ∀ n ∈ fn'.funcnodes, n.opcode ≠ op) := by
  obtain ⟨-, init, si, pe, ret, mid, sz, pt, hn, hret, hmid, hpe, hsi, -, hinit, -, hfn⟩ :=
    fold_some h
  have hbody : fn'.funcnodes = collapseSwitches cfg (mid ++ fn.funcnodes) := by rw [hfn]
  refine ⟨init, si, pe, ret, mid, hn, hinit, hsi, hpe, hret, by simp [hn], hmid, hbody, ?_⟩
  intro op hop hnone n hn'
  rw [hbody] at hn'
  rcases collapseSwitches_opcode cfg _ n hn' with hm | hsw
  · exact hnone n hm
  · rw [hsw]; exact fun e => hop e.symm

/-- Instance of amended C4: the sample deque of six nodes has two body nodes and
four markers, and no node of the folded body is a return marker. -/
theorem fold_absorbs_markers_witness :
    ∃ init si pe ret mid,
      [exInit, exSetinfo, exProcExclude, exA, exB, exRet] = init :: si :: pe :: (mid ++ [ret]) ∧
      init.opcode = 0x5A ∧ si.opcode = 0x77 ∧ pe.opcode = 0x78 ∧ ret.opcode = 0x50 ∧
      [exInit, exSetinfo, exProcExclude, exA, exB, exRet].length = mid.length + 4 ∧
      (∀ m ∈ mid, m.opcode ≠ 0x78) ∧
      exFolded.funcnodes = collapseSwitches exCfg (mid ++ exFunc.funcnodes) ∧
      (∀ op, op ≠ exCfg.switchOpcode → (∀ m ∈ mid ++ exFunc.funcnodes, m.opcode ≠ op) →
        ∀ n ∈ exFolded.funcnodes, n.opcode ≠ op) :=
  fold_absorbs_markers exCfg exFunc exFolded [exInit, exSetinfo, exProcExclude, exA, exB, exRet]
    [] rfl

theorem chainAccepts_other_var (var var' : DataType) (c d : EqIf) (itype : IfType)
    (hvar : var'.dtype ≠ var.dtype ∨ var'.value ≠ var.value) :
    chainAccepts (c.lhs var) (d.toNode itype var') = false := by
  rw [chainAccepts_toNode]
  rcases hvar with h | h <;> simp [h]

/-- C10: in a run of plain-if conditionals on the variable `var`, a conditional
whose left-hand operand pushes a variable that differs from `var` in declared
type or in slot ends the chain: it is not a member of the chain, the switch
built from a chain of two or more has no case for it and the scan goes on at
that conditional (unless it is an else).  A body of two plain-if conditionals
on different variables is left as it is. -/
theorem chain_ends_at_other_operand (cfg : Synth) (var var' : DataType) (c1 d : EqIf)
    (cs : List EqIf) (itype : IfType) (post : List Node)
    (hvar : var'.dtype ≠ var.dtype ∨ var'.value ≠ var.value) :
    scanChain (c1.lhs var) ((c1 :: cs).map (EqIf.plainIf var) ++ d.toNode itype var' :: post) =
      (c1 :: cs).map (EqIf.plainIf var) ∧
    (itype ≠ IfType.I_ELSE → ∀ c2 cs', cs = c2 :: cs' →
      collapseSwitches cfg ((c1 :: cs).map (EqIf.plainIf var) ++ d.toNode itype var' :: post) =
        .switchNode cfg.switchOpcode c1.offset cfg.switchRtype (c1.lhs var)
          ((c1 :: cs).map (EqIf.toCase cfg)) ((c1 :: cs).map (EqIf.plainIf var)) ::
        collapseSwitches cfg (d.toNode itype var' :: post)) ∧
    collapseSwitches cfg [c1.plainIf var, d.plainIf var'] = [c1.plainIf var, d.plainIf var'] := by
  have hstop : scanChain (c1.lhs var) (d.toNode itype var' :: post) = [] := by
    unfold scanChain
    exact takeWhile_cons_of_neg (by simp [chainAccepts_other_var var var' c1 d itype hvar])
  refine ⟨?_, ?_, ?_⟩
  · rw [scanChain_plainIf, hstop, append_nil]
  · intro hit c2 cs' hcs
    subst hcs
    rw [collapseSwitches_run cfg var c1 c2 cs' _ hstop]
    have hmap := map_mkCase_plainIf cfg var (c1 :: c2 :: cs')
    have hd : mkDefault cfg.caseOpcode cfg.caseRtype (d.toNode itype var') = none := by
      simp [mkDefault, EqIf.toNode, hit]
    simp only [buildSwitch_eq, hmap, hd]
    rfl
  · have h1 : ∀ b, baseExprOf (c1.plainIf var) = some b →
        (scanChain b (c1.plainIf var :: [d.plainIf var'])).length < 2 := by
      intro b hb
      refine scanChain_length_lt_two b _ _ (fun y hy => ?_)
      have hb' : b = c1.lhs var := by
        have := baseExprOf_toNode .I_IF var c1
        rw [EqIf.plainIf] at hb
        rw [this] at hb
        exact (Option.some.inj hb).symm
      simp only [head?_cons, Option.some.injEq] at hy
      rw [← hy, hb']
      exact chainAccepts_other_var var var' c1 d .I_IF hvar
    have h2 : ∀ b, baseExprOf (d.plainIf var') = some b →
        (scanChain b (d.plainIf var' :: [])).length < 2 :=
      fun b _ => scanChain_length_lt_two b _ _ (fun y hy => by simp at hy)
    rw [collapseSwitches_keep cfg _ _ h1, collapseSwitches_keep cfg _ _ h2, collapseSwitches_nil]

/-- Instances of C10: slot 1 == 1 followed by slot 2 == 2 is left unrewritten;
slot 1 == 1, slot 1 == 2, slot 2 == 3 gives a switch with two cases followed by
the third conditional. -/
theorem chain_ends_at_other_operand_witness :
    collapseSwitches exCfg [(exCond 0x30 1).plainIf exSlot1, (exCond 0x34 2).plainIf exSlot2] =
      [(exCond 0x30 1).plainIf exSlot1, (exCond 0x34 2).plainIf exSlot2] ∧
    collapseSwitches exCfg
        [(exCond 0x30 1).plainIf exSlot1, (exCond 0x34 2).plainIf exSlot1,
         (exCond 0x38 3).plainIf exSlot2] =
      [.switchNode 0x100 0x30 .T_VOID (.pushVar 0x3F 0x30 .T_WORD exSlot1)
        [.caseNode 0x101 0x30 .T_VOID (some (exLit 1)) [.other 0x0F 0x31 .T_VOID],
         .caseNode 0x101 0x34 .T_VOID (some (exLit 2)) [.other 0x0F 0x35 .T_VOID]]
        [(exCond 0x30 1).plainIf exSlot1, (exCond 0x34 2).plainIf exSlot1],
       (exCond 0x38 3).plainIf exSlot2] :=
  ⟨(chain_ends_at_other_operand exCfg exSlot1 exSlot2 (exCond 0x30 1) (exCond 0x34 2) [] .I_IF []
      (Or.inr (by decide))).2.2,
   (chain_ends_at_other_operand exCfg exSlot1 exSlot2 (exCond 0x30 1) (exCond 0x38 3)
      [exCond 0x34 2] .I_IF [] (Or.inr (by decide))).2.1 (by decide) (exCond 0x34 2) [] rfl⟩

/-! ## The pass step by step: claims C11 to C14 and C19 -/

/-- Induction along the iterations of the loop: a property of the body and of
what the pass makes of it holds when it holds for the empty body, is kept by an
iteration that leaves the node at `it` in place, and is kept by an iteration
that replaces a chain by a switch. -/
theorem collapseSwitches_induction (cfg : Synth) {motive : List Node → List Node → Prop}
    (hnil : motive [] [])
    (hkeep : ∀ x rest, (∀ b, baseExprOf x = some b → (scanChain b (x :: rest)).length < 2) →
      motive rest (collapseSwitches cfg rest) →
      motive (x :: rest) (x :: collapseSwitches cfg rest))
    (hswitch : ∀ x rest b, baseExprOf x = some b → 2 ≤ (scanChain b (x :: rest)).length →
      motive
        (buildSwitch cfg x b (scanChain b (x :: rest))
          ((x :: rest).drop (scanChain b (x :: rest)).length)).2
        (collapseSwitches cfg
          (buildSwitch cfg x b (scanChain b (x :: rest))
            ((x :: rest).drop (scanChain b (x :: rest)).length)).2) →
      motive (x :: rest)
        ((buildSwitch cfg x b (scanChain b (x :: rest))
            ((x :: rest).drop (scanChain b (x :: rest)).length)).1 ::
          collapseSwitches cfg
            (buildSwitch cfg x b (scanChain b (x :: rest))
              ((x :: rest).drop (scanChain b (x :: rest)).length)).2)) :
    ∀ body, motive body (collapseSwitches cfg body) := by
  have main : ∀ (n : Nat) (body : List Node), body.length ≤ n →
      motive body (collapseSwitches cfg body) := by
    intro n
    induction n with
    | zero =>
      intro body h
      have : body = [] := length_eq_zero.mp (Nat.le_zero.mp h)
      subst this
      exact hnil
    | succ n ih =>
      intro body h
      cases body with
      | nil => exact hnil
      | cons x rest =>
        have hrest : rest.length ≤ n := by simpa using h
        rw [collapseSwitches_cons]
        cases hb : baseExprOf x with
        | none =>
          exact hkeep x rest (fun b hb' => by rw [hb] at hb'; exact absurd hb' (by simp))
            (ih rest hrest)
        | some b =>
          simp only
          split_ifs with hlen
          · refine hkeep x rest (fun b' hb' => ?_) (ih rest hrest)
            rw [hb] at hb'
            rw [← Option.some.inj hb']
            exact hlen
          · have hk : 1 ≤ (scanChain b (x :: rest)).length := by omega
            have hd : ((x :: rest).drop (scanChain b (x :: rest)).length).length
                ≤ rest.length := by
              rw [length_drop]; simp; omega
            have hs := buildSwitch_snd_length cfg x b (scanChain b (x :: rest))
              ((x :: rest).drop (scanChain b (x :: rest)).length)
            exact hswitch x rest b hb (by omega) (ih _ (by omega))
  exact fun body => main body.length body (le_refl _)

/-- The shape of a node that joins a chain. -/
theorem chainAccepts_shape {b c : Node} (h : chainAccepts b c = true) :
    ∃ off rt itype coff crt lop loff lrt lhs rnode nodes,
      c = .ifNode 0x51 off rt itype
        (some (.binOperator 0x24 coff crt (some (.pushVar lop loff lrt lhs)) rnode)) nodes ∧
      itype ≠ IfType.I_ELSE := by
  unfold chainAccepts at h
  split at h
  · rename_i op off rt itype cop coff crt lop loff lrt lhs rnode nodes
    split at h
    · simp only [Bool.and_eq_true, beq_iff_eq, bne_iff_ne, acceptOp] at h
      obtain ⟨⟨⟨⟨rfl, hit⟩, rfl⟩, -⟩, -⟩ := h
      exact ⟨off, rt, itype, coff, crt, lop, loff, lrt, lhs, rnode, nodes, rfl, hit⟩
    · exact absurd h (by simp)
  · exact absurd h (by simp)

/-- The shape of a node that is absorbed as the default case. -/
theorem mkDefault_shape {caseOpcode : Nat} {caseRtype : TypeTag} {e d : Node}
    (h : mkDefault caseOpcode caseRtype e = some d) :
    ∃ off rt cond nodes, e = .ifNode 0x51 off rt .I_ELSE cond nodes ∧
      d = .caseNode caseOpcode off caseRtype none nodes := by
  unfold mkDefault at h
  split at h
  · rename_i op off rt itype cond nodes
    split_ifs at h with hc
    obtain ⟨rfl, rfl⟩ := hc
    exact ⟨off, rt, cond, nodes, rfl, (Option.some.inj h).symm⟩
  · exact absurd h (by simp)

/-- The switch of an iteration, part by part: its cases are one case for each
member of the chain followed by the default cases, its originals the chain
followed by the absorbed nodes; at most one node, an else, is absorbed. -/
theorem buildSwitch_parts (cfg : Synth) (ifnode baseExpr : Node) (chain atJt : List Node) :
    ∃ dflt absorbed,
      (buildSwitch cfg ifnode baseExpr chain atJt).1 =
        .switchNode cfg.switchOpcode ifnode.offset cfg.switchRtype baseExpr
          (chain.map (mkCase cfg.caseOpcode cfg.caseRtype) ++ dflt) (chain ++ absorbed) ∧
      absorbed ++ (buildSwitch cfg ifnode baseExpr chain atJt).2 = atJt ∧
      (∀ e ∈ absorbed, ∃ off rt cond nodes, e = Node.ifNode 0x51 off rt .I_ELSE cond nodes) ∧
      (∀ d ∈ dflt, caseValue d = none) ∧
      dflt.map Node.offset = absorbed.map Node.offset ∧
      (absorbed = [] → ∀ y, atJt.head? = some y → mkDefault cfg.caseOpcode cfg.caseRtype y = none) := by
  rw [buildSwitch_eq]
  cases atJt with
  | nil => exact ⟨[], [], by simp⟩
  | cons e rest =>
    cases h : mkDefault cfg.caseOpcode cfg.caseRtype e with
    | none =>
      refine ⟨[], [], by simp [h], by simp [h], by simp, by simp, by simp, ?_⟩
      intro _ y hy
      simp only [head?_cons, Option.some.injEq] at hy
      rw [← hy]; exact h
    | some d =>
      obtain ⟨off, rt, cond, nodes, rfl, rfl⟩ := mkDefault_shape h
      exact ⟨[.caseNode cfg.caseOpcode off cfg.caseRtype none nodes],
        [.ifNode 0x51 off rt .I_ELSE cond nodes], by simp [h], by simp [h], by simp,
        by simp [caseValue], by simp [Node.offset], by simp⟩

/-- The chain of an iteration is a prefix of what is left to scan, and the node
behind it does not join it. -/
theorem scanChain_split (b : Node) (l : List Node) :
    scanChain b l ++ l.drop (scanChain b l).length = l ∧
    (∀ c ∈ scanChain b l, chainAccepts b c = true) ∧
    (∀ y, (l.drop (scanChain b l).length).head? = some y → chainAccepts b y = false) := by
  refine ⟨prefix_iff_eq_append.mp ( takeWhile_prefix _), fun c hc => mem_takeWhile_imp hc, ?_⟩
  intro y hy
  induction l with
  | nil => simp at hy
  | cons a l ih =>
    unfold scanChain at hy ih
    by_cases ha : chainAccepts b a = true
    · rw [takeWhile_cons_of_pos ha] at hy
      simp only [length_cons, drop_succ_cons] at hy
      exact ih hy
    · rw [takeWhile_cons_of_neg ha] at hy
      simp only [length_nil, drop_zero, head?_cons, Option.some.injEq] at hy
      rw [← hy]
      simpa using ha

theorem SynthesizedFrom.mono {cfg : Synth} {small big : List Node} {n : Node}
    (hsub : ∀ m ∈ small, m ∈ big) (h : SynthesizedFrom cfg small n) :
    SynthesizedFrom cfg big n := by
  obtain ⟨first, b, chain, dflt, absorbed, hn, hhead, hlen, hch, habs, hd, hoff⟩ := h
  exact ⟨first, b, chain, dflt, absorbed, hn, hhead, hlen,
    fun c hc => ⟨hsub c (hch c hc).1, (hch c hc).2⟩,
    fun e he => ⟨hsub e (habs e he).1, (habs e he).2⟩, hd, hoff⟩

/-- Every node of the body the pass returns is a node of the body it was given
or a switch synthesized from that body. -/
theorem collapseSwitches_produced (cfg : Synth) (body : List Node) :
    ∀ n ∈ collapseSwitches cfg body, n ∈ body ∨ SynthesizedFrom cfg body n := by
  refine collapseSwitches_induction cfg
    (motive := fun body out => ∀ n ∈ out, n ∈ body ∨ SynthesizedFrom cfg body n) ?_ ?_ ?_ body
  · intro n hn
    simp at hn
  · intro x rest _ ih n hn
    rcases mem_cons.mp hn with rfl | hn'
    · exact Or.inl (mem_cons_self _ _)
    · rcases ih n hn' with h | h
      · exact Or.inl (mem_cons_of_mem _ h)
      · exact Or.inr (h.mono (fun m hm => mem_cons_of_mem _ hm))
  · intro x rest b hb hlen ih n hn
    obtain ⟨hsplit, hacc, -⟩ := scanChain_split b (x :: rest)
    obtain ⟨dflt, absorbed, hfst, hsnd, habs, hd, hoff, -⟩ :=
      buildSwitch_parts cfg x b (scanChain b (x :: rest))
        ((x :: rest).drop (scanChain b (x :: rest)).length)
    have hchain_sub : ∀ c ∈ scanChain b (x :: rest), c ∈ x :: rest :=
      fun c hc => (takeWhile_sublist _).subset hc
    have hdrop_sub : ∀ c ∈ (x :: rest).drop (scanChain b (x :: rest)).length, c ∈ x :: rest :=
      fun c hc => (drop_sublist _ _).subset hc
    have hbuilt_sub : ∀ m ∈ (buildSwitch cfg x b (scanChain b (x :: rest))
        ((x :: rest).drop (scanChain b (x :: rest)).length)).2, m ∈ x :: rest := by
      intro m hm
      refine hdrop_sub m ?_
      rw [← hsnd]
      exact mem_append_right _ hm
    rcases mem_cons.mp hn with rfl | hn'
    · refine Or.inr ⟨x, b, scanChain b (x :: rest), dflt, absorbed, hfst, ?_, hlen,
        fun c hc => ⟨hchain_sub c hc, hacc c hc⟩, ?_, hd, hoff⟩
      · have hx : chainAccepts b x = true := by
          by_contra hx
          have : scanChain b (x :: rest) = [] := by
            unfold scanChain
            exact takeWhile_cons_of_neg hx
          rw [this] at hlen
          simp at hlen
        unfold scanChain
        rw [takeWhile_cons_of_pos hx]
        rfl
      · intro e he
        refine ⟨hdrop_sub e ?_, habs e he⟩
        rw [← hsnd]
        exact mem_append_left _ he
    · rcases ih n hn' with h | h
      · exact Or.inl (hbuilt_sub n h)
      · exact Or.inr (h.mono hbuilt_sub)

theorem takeWhile_append_stop {p : Node → Bool} (l : List Node) (x : Node) (post : List Node)
    (hx : p x = false) : takeWhile p (l ++ x :: post) = takeWhile p l := by
  induction l with
  | nil => simp [takeWhile_cons, hx]
  | cons a l ih =>
    by_cases ha : p a = true
    · simp [takeWhile_cons, ha, ih]
    · simp [takeWhile_cons, ha]

theorem chainAccepts_kind {b c : Node} (h : chainAccepts b c = true) :
    c.opcode = 0x51 ∧ ∃ k, ifKind c = some k ∧ k ≠ IfType.I_ELSE := by
  obtain ⟨off, rt, itype, coff, crt, lop, loff, lrt, lhs, rnode, nodes, rfl, hit⟩ :=
    chainAccepts_shape h
  exact ⟨rfl, itype, rfl, hit⟩

/-- C11 as stated fails: in the body plain-if, else-if-continuation, else (all
on slot 1) the else-if-continuation is absorbed into the chain and becomes the
second case, with match value 2. -/
theorem else_if_absorbed_counterexample :
    ifKind exElseIf = some IfType.I_ELSE_IF ∧
    collapseSwitches exCfg [(exCond 0x30 1).plainIf exSlot1, exElseIf, exElse] =
      [.switchNode 0x100 0x30 .T_VOID (.pushVar 0x3F 0x30 .T_WORD exSlot1)
        [.caseNode 0x101 0x30 .T_VOID (some (exLit 1)) [.other 0x0F 0x31 .T_VOID],
         .caseNode 0x101 0x34 .T_VOID (some (exLit 2)) [.other 0x0F 0x35 .T_VOID],
         .caseNode 0x101 0x60 .T_VOID none [exB]]
        [(exCond 0x30 1).plainIf exSlot1, exElseIf, exElse]] :=
  ⟨rfl, rfl⟩

/-- C11, amended: every conditional that the pass turns into a case with a match
value is a conditional (0x51) of a kind other than else; the cases behind those
of the chain are default cases and the nodes absorbed for them are of kind
else.  A conditional of kind else never joins a chain and ends it; an
else-if-continuation that compares the variable of the chain joins it like a
plain-if. -/
theorem chain_members_are_not_else (cfg : Synth) (body : List Node) :
    (∀ n ∈ collapseSwitches cfg body, n ∈ body ∨
      ∃ off expr chain dflt absorbed,
        n = .switchNode cfg.switchOpcode off cfg.switchRtype expr
          (chain.map (mkCase cfg.caseOpcode cfg.caseRtype) ++ dflt) (chain ++ absorbed) ∧
        (∀ c ∈ chain, c ∈ body ∧ c.opcode = 0x51 ∧ ∃ k, ifKind c = some k ∧ k ≠ IfType.I_ELSE) ∧
        (∀ d ∈ dflt, caseValue d = none) ∧
        (∀ e ∈ absorbed, e ∈ body ∧ ifKind e = some IfType.I_ELSE)) ∧
    (∀ b pre off rt cond nodes post,
      body = pre ++ Node.ifNode 0x51 off rt .I_ELSE cond nodes :: post →
      scanChain b body = scanChain b pre) ∧
    (∀ var c d, chainAccepts (EqIf.lhs var c) (EqIf.toNode .I_ELSE_IF var d) = true) := by
  refine ⟨?_, ?_, ?_⟩
  · intro n hn
    rcases collapseSwitches_produced cfg body n hn with h | h
    · exact Or.inl h
    · obtain ⟨first, b, chain, dflt, absorbed, hn', -, -, hch, habs, hd, -⟩ := h
      refine Or.inr ⟨first.offset, b, chain, dflt, absorbed, hn', ?_, hd, ?_⟩
      · intro c hc
        exact ⟨(hch c hc).1, chainAccepts_kind (hch c hc).2⟩
      · intro e he
        obtain ⟨hmem, off, rt, cond, nodes, rfl⟩ := habs e he
        exact ⟨hmem, rfl⟩
  · intro b pre off rt cond nodes post hbody
    rw [hbody]
    unfold scanChain
    exact takeWhile_append_stop pre _ post (chainAccepts_else b _ _ _ _ _)
  · intro var c d
    rw [chainAccepts_toNode]
    simp

/-- Instances of amended C11: the chain of the sample body plain-if, else stops
at the else, and the sample else-if-continuation joins the chain of the
plain-if. -/
theorem chain_members_are_not_else_witness :
    scanChain ((exCond 0x30 1).lhs exSlot1) [(exCond 0x30 1).plainIf exSlot1, exElse] =
      scanChain ((exCond 0x30 1).lhs exSlot1) [(exCond 0x30 1).plainIf exSlot1] ∧
    chainAccepts ((exCond 0x30 1).lhs exSlot1) exElseIf = true :=
  ⟨(chain_members_are_not_else exCfg [(exCond 0x30 1).plainIf exSlot1, exElse]).2.1
      ((exCond 0x30 1).lhs exSlot1) [(exCond 0x30 1).plainIf exSlot1] 0x60 .T_INVALID none [exB]
      [] rfl,
   (chain_members_are_not_else exCfg []).2.2 exSlot1 (exCond 0x30 1) (exCond 0x34 2)⟩

theorem offset_mkCase (caseOpcode : Nat) (caseRtype : TypeTag) (c : Node) :
    (mkCase caseOpcode caseRtype c).offset = c.offset := by
  unfold mkCase
  split <;> rfl

/-- C19: every switch the pass synthesizes carries the offset of the first
conditional of its chain (the first of its retained originals), and each of its
cases, the default included, carries the offset of the conditional it was built
from; the start offset of a folded function is the offset of its init marker,
the first node of the deque. -/
theorem offsets_from_first_instruction (cfg : Synth) :
    (∀ body, ∀ n ∈ collapseSwitches cfg body, n ∈ body ∨
      ∃ off expr cases originals,
        n = .switchNode cfg.switchOpcode off cfg.switchRtype expr cases originals ∧
        originals.head?.map Node.offset = some off ∧
        cases.map Node.offset = originals.map Node.offset ∧
        (∀ o ∈ originals, o ∈ body)) ∧
    (∀ fn fn' nodes nodes', DCFuncNode.fold cfg fn nodes = some (fn', nodes') →
      ∃ init above, nodes = init :: above ∧ init.opcode = 0x5A ∧
        fn'.func_start_offset = init.offset) := by
  refine ⟨?_, ?_⟩
  · intro body n hn
    rcases collapseSwitches_produced cfg body n hn with h | h
    · exact Or.inl h
    · obtain ⟨first, b, chain, dflt, absorbed, hn', hhead, -, hch, habs, -, hoff⟩ := h
      refine Or.inr ⟨first.offset, b, _, _, hn', ?_, ?_, ?_⟩
      · cases chain with
        | nil => simp at hhead
        | cons c chain' =>
          simp only [head?_cons, Option.some.injEq] at hhead
          simp [hhead]
      · rw [map_append, map_append, map_map, hoff]
        congr 1
        apply map_congr_left
        intro c _
        exact offset_mkCase _ _ c
      · intro o ho
        rcases mem_append.mp ho with h1 | h2
        · exact (hch o h1).1
        · exact (habs o h2).1
  · intro fn fn' nodes nodes' h
    obtain ⟨-, init, si, pe, ret, mid, sz, pt, hn, -, -, -, -, -, hinit, -, hfn⟩ := fold_some h
    exact ⟨init, _, hn, hinit, by rw [hfn]; rfl⟩

/-- Instance of C19: the folded sample function starts at the offset of its init
marker. -/
theorem offsets_from_first_instruction_witness :
    ∃ init above, [exInit, exSetinfo, exProcExclude, exA, exB, exRet] = init :: above ∧
      init.opcode = 0x5A ∧ exFolded.func_start_offset = init.offset :=
  (offsets_from_first_instruction exCfg).2 exFunc exFolded
    [exInit, exSetinfo, exProcExclude, exA, exB, exRet] [] rfl

theorem expandSwitches_append (l r : List Node) :
    expandSwitches (l ++ r) = expandSwitches l ++ expandSwitches r := by
  induction l with
  | nil => rfl
  | cons a l ih => simp [expandSwitches, ih]

theorem expandSwitches_eq_self {l : List Node} (h : ∀ n ∈ l, isSwitchNode n = false) :
    expandSwitches l = l := by
  induction l with
  | nil => rfl
  | cons a l ih =>
    have ha : expandNode a = [a] := by
      have := h a (mem_cons_self _ _)
      cases a <;> first | rfl | simp [isSwitchNode] at this
    simp [expandSwitches, ha, ih (fun n hn => h n (mem_cons_of_mem _ hn))]

theorem isSwitchNode_of_chainAccepts {b c : Node} (h : chainAccepts b c = true) :
    isSwitchNode c = false := by
  obtain ⟨off, rt, itype, coff, crt, lop, loff, lrt, lhs, rnode, nodes, rfl, -⟩ :=
    chainAccepts_shape h
  rfl

/-- C12: the folded body splits, node by node, into parts that put together give
exactly the body that entered the pass: the part of a node the pass left alone
is that node, the part of a switch the pass synthesized is the sequence of its
retained originals (as many as it has cases), in retained order.  In terms of
the re-encoder walk: replacing every switch by its retained originals gives the
same sequence before and after the pass, which is the body itself when it held
no switch, as every body that comes from the decoder. -/
theorem originals_restore_body (cfg : Synth) (body : List Node) :
    (∃ parts : List (List Node), parts.flatten = body ∧
      Forall₂ (fun n part => part = [n] ∨
        ∃ off expr cases, n = Node.switchNode cfg.switchOpcode off cfg.switchRtype expr cases part ∧
          cases.length = part.length)
        (collapseSwitches cfg body) parts) ∧
    expandSwitches (collapseSwitches cfg body) = expandSwitches body ∧
    ((∀ n ∈ body, isSwitchNode n = false) →
      expandSwitches (collapseSwitches cfg body) = body) := by
  have hparts : ∃ parts : List (List Node), parts.flatten = body ∧
      Forall₂ (fun n part => part = [n] ∨
        ∃ off expr cases, n = Node.switchNode cfg.switchOpcode off cfg.switchRtype expr cases part ∧
          cases.length = part.length)
        (collapseSwitches cfg body) parts := by
    refine collapseSwitches_induction cfg
      (motive := fun body out => ∃ parts : List (List Node), parts.flatten = body ∧
        Forall₂ (fun n part => part = [n] ∨
          ∃ off expr cases,
            n = Node.switchNode cfg.switchOpcode off cfg.switchRtype expr cases part ∧
            cases.length = part.length) out parts) ⟨[], rfl, Forall₂.nil⟩ ?_ ?_ body
    · rintro x rest - ⟨parts, hflat, hall⟩
      exact ⟨[x] :: parts, by simp [hflat], Forall₂.cons (Or.inl rfl) hall⟩
    · rintro x rest b hb hlen ⟨parts, hflat, hall⟩
      obtain ⟨hsplit, -, -⟩ := scanChain_split b (x :: rest)
      obtain ⟨dflt, absorbed, hfst, hsnd, -, -, hoff, -⟩ :=
        buildSwitch_parts cfg x b (scanChain b (x :: rest))
          ((x :: rest).drop (scanChain b (x :: rest)).length)
      refine ⟨(scanChain b (x :: rest) ++ absorbed) :: parts, ?_, Forall₂.cons (Or.inr ?_) hall⟩
      · rw [flatten_cons, hflat, append_assoc, hsnd, hsplit]
      · refine ⟨x.offset, b, _, hfst, ?_⟩
        have := congrArg length hoff
        simp only [length_map] at this
        simp [this]
  have hmain : expandSwitches (collapseSwitches cfg body) = expandSwitches body := by
    refine collapseSwitches_induction cfg
      (motive := fun body out => expandSwitches out = expandSwitches body) rfl ?_ ?_ body
    · intro x rest _ ih
      simp only [expandSwitches, ih]
    · intro x rest b hb hlen ih
      obtain ⟨hsplit, hacc, -⟩ := scanChain_split b (x :: rest)
      obtain ⟨dflt, absorbed, hfst, hsnd, habs, -, -, -⟩ :=
        buildSwitch_parts cfg x b (scanChain b (x :: rest))
          ((x :: rest).drop (scanChain b (x :: rest)).length)
      have horig : expandSwitches (scanChain b (x :: rest) ++ absorbed) =
          scanChain b (x :: rest) ++ absorbed := by
        apply expandSwitches_eq_self
        intro n hn
        rcases mem_append.mp hn with h1 | h2
        · exact isSwitchNode_of_chainAccepts (hacc n h1)
        · obtain ⟨off, rt, cond, nodes, rfl⟩ := habs n h2
          rfl
      have hbody : x :: rest = (scanChain b (x :: rest) ++ absorbed) ++
          (buildSwitch cfg x b (scanChain b (x :: rest))
            ((x :: rest).drop (scanChain b (x :: rest)).length)).2 := by
        rw [append_assoc, hsnd, hsplit]
      have e1 := congrArg expandSwitches hbody
      rw [expandSwitches_append, horig] at e1
      show expandNode _ ++ expandSwitches _ = _
      rw [e1, ih, hfst]
      rfl
  exact ⟨hparts, hmain, fun hno => by rw [hmain, expandSwitches_eq_self hno]⟩

/-- Instance of C12: the sample run with an else is restored from the switch. -/
theorem originals_restore_body_witness :
    expandSwitches (collapseSwitches exCfg
        [exA, (exCond 0x30 1).plainIf exSlot1, (exCond 0x34 2).plainIf exSlot1, exElse, exB]) =
      [exA, (exCond 0x30 1).plainIf exSlot1, (exCond 0x34 2).plainIf exSlot1, exElse, exB] :=
  (originals_restore_body exCfg
    [exA, (exCond 0x30 1).plainIf exSlot1, (exCond 0x34 2).plainIf exSlot1, exElse, exB]).2.2
    (by
      intro n hn
      simp only [mem_cons, mem_singleton, not_mem_nil, or_false] at hn
      rcases hn with rfl | rfl | rfl | rfl | rfl <;> rfl)

theorem comparisonVar_of_chainAccepts {b c : Node} (h : chainAccepts b c = true) :
    ∃ v, comparisonVar c = some v := by
  obtain ⟨off, rt, itype, coff, crt, lop, loff, lrt, lhs, rnode, nodes, rfl, -⟩ :=
    chainAccepts_shape h
  exact ⟨lhs, by simp [comparisonVar]⟩

theorem chainAccepts_of_comparisonVar_none {c : Node} (h : comparisonVar c = none) (b : Node) :
    chainAccepts b c = false := by
  cases hacc : chainAccepts b c with
  | false => rfl
  | true =>
    obtain ⟨v, hv⟩ := comparisonVar_of_chainAccepts hacc
    rw [h] at hv
    exact absurd hv (by simp)

/-- A pair of conditionals on the same variable is a chain of two. -/
theorem scanChain_of_sameVarPair {x y : Node} (rest : List Node) (h : SameVarPair x y) :
    ∃ b, baseExprOf x = some b ∧ 2 ≤ (scanChain b (x :: y :: rest)).length := by
  obtain ⟨hx, hy, ⟨kx, hkx, hkx'⟩, ⟨ky, hky, hky'⟩, v, w, hv, hw, hd, hval⟩ := h
  unfold comparisonVar at hv hw
  split at hv
  · rename_i op off rt itype cop coff crt lop loff lrt lhs rnode nodes
    split at hw
    · rename_i op' off' rt' itype' cop' coff' crt' lop' loff' lrt' lhs' rnode' nodes'
      split_ifs at hv with hcop
      split_ifs at hw with hcop'
      simp only [Option.some.injEq] at hv hw
      simp only [Node.opcode] at hx hy
      simp only [ifKind, Option.some.injEq] at hkx hky
      subst hx hy hcop hcop' hv hw hkx hky
      refine ⟨.pushVar lop loff lrt lhs, by simp [baseExprOf, acceptOp], ?_⟩
      have h1 : chainAccepts (.pushVar lop loff lrt lhs)
          (.ifNode 0x51 off rt itype
            (some (.binOperator 0x24 coff crt (some (.pushVar lop loff lrt lhs)) rnode)) nodes)
          = true := by
        simp [chainAccepts, acceptOp, hkx']
      have h2 : chainAccepts (.pushVar lop loff lrt lhs)
          (.ifNode 0x51 off' rt' itype'
            (some (.binOperator 0x24 coff' crt' (some (.pushVar lop' loff' lrt' lhs')) rnode'))
            nodes') = true := by
        simp [chainAccepts, acceptOp, hky', hd, hval]
      unfold scanChain
      rw [takeWhile_cons_of_pos h1, takeWhile_cons_of_pos h2]
      simp
    · exact absurd hw (by simp)
  · exact absurd hv (by simp)

theorem not_sameVarPair_of_switch_left (op off : Nat) (rt : TypeTag) (expr : Node)
    (cases originals : List Node) (y : Node) :
    ¬ SameVarPair (.switchNode op off rt expr cases originals) y := by
  rintro ⟨-, -, ⟨k, hk, -⟩, -⟩
  simp [ifKind] at hk

theorem not_sameVarPair_of_switch_right (x : Node) (op off : Nat) (rt : TypeTag) (expr : Node)
    (cases originals : List Node) :
    ¬ SameVarPair x (.switchNode op off rt expr cases originals) := by
  rintro ⟨-, -, -, ⟨k, hk, -⟩, -⟩
  simp [ifKind] at hk

/-- C13: after the pass no two adjacent nodes of the body are both conditionals
(0x51) of a kind other than else whose conditions are equality comparisons with
the same variable push (same declared type and value) as left-hand operand:
every run of two or more has been rewritten. -/
theorem no_adjacent_same_var (cfg : Synth) (body : List Node) :
    Chain' (fun x y => ¬ SameVarPair x y) (collapseSwitches cfg body) := by
  have h : Chain' (fun x y => ¬ SameVarPair x y) (collapseSwitches cfg body) ∧
      ∀ y, (collapseSwitches cfg body).head? = some y →
        body.head? = some y ∨ isSwitchNode y = true := by
    refine collapseSwitches_induction cfg
      (motive := fun body out => Chain' (fun x y => ¬ SameVarPair x y) out ∧
        ∀ y, out.head? = some y → body.head? = some y ∨ isSwitchNode y = true)
      ⟨chain'_nil, by simp⟩ ?_ ?_ body
    · rintro x rest hkeep ⟨hchain, hhead⟩
      refine ⟨chain'_cons'.mpr ⟨?_, hchain⟩, fun y hy => Or.inl (by simpa using hy)⟩
      intro y hy hpair
      rcases hhead y hy with hrest | hsw
      · cases rest with
        | nil => simp at hrest
        | cons r rest' =>
          simp only [head?_cons, Option.some.injEq] at hrest
          subst hrest
          obtain ⟨b, hb, hlen⟩ := scanChain_of_sameVarPair rest' hpair
          have := hkeep b hb
          omega
      · cases y <;> simp [isSwitchNode] at hsw
        exact not_sameVarPair_of_switch_right x _ _ _ _ _ _ hpair
    · rintro x rest b hb hlen ⟨hchain, -⟩
      obtain ⟨dflt, absorbed, hfst, -⟩ :=
        buildSwitch_parts cfg x b (scanChain b (x :: rest))
          ((x :: rest).drop (scanChain b (x :: rest)).length)
      rw [hfst]
      refine ⟨chain'_cons'.mpr ⟨fun y _ => not_sameVarPair_of_switch_left _ _ _ _ _ _ y, hchain⟩,
        fun y hy => Or.inr ?_⟩
      simp only [head?_cons, Option.some.injEq] at hy
      rw [← hy]
      rfl
  exact h.1

theorem collapseSwitches_skip_head (cfg : Synth) (x : Node) (post : List Node)
    (hx : comparisonVar x = none) :
    collapseSwitches cfg (x :: post) = x :: collapseSwitches cfg post := by
  refine collapseSwitches_keep cfg x post (fun b _ => ?_)
  unfold scanChain
  rw [takeWhile_cons_of_neg (by simp [chainAccepts_of_comparisonVar_none hx b])]
  simp

theorem buildSwitch_append_barrier (cfg : Synth) (ifnode b x : Node) (chain atJt post : List Node)
    (hx : mkDefault cfg.caseOpcode cfg.caseRtype x = none) :
    buildSwitch cfg ifnode b chain (atJt ++ x :: post) =
      ((buildSwitch cfg ifnode b chain atJt).1,
       (buildSwitch cfg ifnode b chain atJt).2 ++ x :: post) := by
  rw [buildSwitch_eq, buildSwitch_eq]
  cases atJt with
  | nil => simp [hx]
  | cons e rest =>
    cases h : mkDefault cfg.caseOpcode cfg.caseRtype e <;> simp [h]

/-- A node that no chain accepts and that is not absorbed as a default case
splits the body: the pass works on both sides of it independently. -/
theorem collapseSwitches_barrier (cfg : Synth) (x : Node) (post : List Node)
    (hvar : comparisonVar x = none) (hdef : mkDefault cfg.caseOpcode cfg.caseRtype x = none) :
    ∀ pre, collapseSwitches cfg (pre ++ x :: post) =
      collapseSwitches cfg pre ++ x :: collapseSwitches cfg post := by
  refine collapseSwitches_induction cfg
    (motive := fun pre out => collapseSwitches cfg (pre ++ x :: post) =
      out ++ x :: collapseSwitches cfg post) ?_ ?_ ?_
  · exact collapseSwitches_skip_head cfg x post hvar
  · intro a rest hkeep ih
    rw [cons_append, collapseSwitches_keep cfg a _ (fun b hb => ?_), ih]
    · rfl
    · have := hkeep b hb
      unfold scanChain at this ⊢
      rw [← cons_append, takeWhile_append_stop _ x post
        (chainAccepts_of_comparisonVar_none hvar b)]
      exact this
  · intro a rest b hb hlen ih
    have hchain : scanChain b (a :: rest ++ x :: post) = scanChain b (a :: rest) := by
      unfold scanChain
      exact takeWhile_append_stop _ x post (chainAccepts_of_comparisonVar_none hvar b)
    have hle : (scanChain b (a :: rest)).length ≤ (a :: rest).length :=
      (takeWhile_sublist _).length_le
    rw [cons_append, collapseSwitches_cons, hb]
    simp only
    rw [← cons_append, hchain, if_neg (by omega), drop_append_of_le_length hle,
      buildSwitch_append_barrier cfg a b x _ _ post hdef]
    simp only
    rw [ih]
    rfl

/-- C14 as stated fails: the sample else is a conditional with no condition, and
behind a chain it is not left in place but absorbed into the switch. -/
theorem else_not_left_in_place_counterexample :
    exElse = .ifNode 0x51 0x60 .T_INVALID .I_ELSE none [exB] ∧
    exElse ∉ collapseSwitches exCfg
      [(exCond 0x30 1).plainIf exSlot1, (exCond 0x34 2).plainIf exSlot1, exElse] := by
  refine ⟨rfl, ?_⟩
  have h : collapseSwitches exCfg
      [(exCond 0x30 1).plainIf exSlot1, (exCond 0x34 2).plainIf exSlot1, exElse] =
      [.switchNode 0x100 0x30 .T_VOID (.pushVar 0x3F 0x30 .T_WORD exSlot1)
        [.caseNode 0x101 0x30 .T_VOID (some (exLit 1)) [.other 0x0F 0x31 .T_VOID],
         .caseNode 0x101 0x34 .T_VOID (some (exLit 2)) [.other 0x0F 0x35 .T_VOID],
         .caseNode 0x101 0x60 .T_VOID none [exB]]
        [(exCond 0x30 1).plainIf exSlot1, (exCond 0x34 2).plainIf exSlot1, exElse]] := rfl
  rw [h]
  simp [exElse]

/-- C14, amended: the pass is total; its loop ends within one iteration for each
node of the body, whatever the body, and there is no error it could raise.  A
node at which the scan stands and that is a conditional with no condition, with
a condition that is no equality comparison (0x24), or with a left-hand operand
that is absent or no variable push, is skipped and left in place; when it is not
an else it is left in place wherever it stands in the body, and the pass works
on the nodes before it and behind it independently. -/
theorem pass_total_and_skips (cfg : Synth) (body : List Node) :
    (∀ fuel, body.length ≤ fuel → collapseFrom cfg fuel body = collapseSwitches cfg body) ∧
    (∀ x post, body = x :: post → comparisonVar x = none →
      collapseSwitches cfg body = x :: collapseSwitches cfg post) ∧
    (∀ pre x post, body = pre ++ x :: post → comparisonVar x = none →
      ifKind x ≠ some IfType.I_ELSE →
      collapseSwitches cfg body = collapseSwitches cfg pre ++ x :: collapseSwitches cfg post) := by
  refine ⟨?_, ?_, ?_⟩
  · intro fuel hfuel
    exact collapseFrom_fuel cfg fuel body.length body hfuel (le_refl _)
  · intro x post hbody hvar
    rw [hbody]
    exact collapseSwitches_skip_head cfg x post hvar
  · intro pre x post hbody hvar hkind
    rw [hbody]
    refine collapseSwitches_barrier cfg x post hvar ?_ pre
    cases hd : mkDefault cfg.caseOpcode cfg.caseRtype x with
    | none => rfl
    | some d =>
      obtain ⟨off, rt, cond, nodes, rfl, -⟩ := mkDefault_shape hd
      exact absurd rfl hkind

/-- Instances of amended C14: with twice the fuel the loop gives the same body;
a plain-if with no condition between two runs is left in place, and so is one
whose condition is not an equality comparison at the head of the body. -/
theorem pass_total_and_skips_witness :
    collapseFrom exCfg 6 [exNoCond, exElse, exA] = collapseSwitches exCfg [exNoCond, exElse, exA] ∧
    collapseSwitches exCfg [exNotEq, exA] = exNotEq :: collapseSwitches exCfg [exA] ∧
    collapseSwitches exCfg
        ([(exCond 0x30 1).plainIf exSlot1, (exCond 0x34 2).plainIf exSlot1] ++ exNoCond ::
          [(exCond 0x38 3).plainIf exSlot1]) =
      collapseSwitches exCfg [(exCond 0x30 1).plainIf exSlot1, (exCond 0x34 2).plainIf exSlot1]
        ++ exNoCond :: collapseSwitches exCfg [(exCond 0x38 3).plainIf exSlot1] :=
  ⟨(pass_total_and_skips exCfg [exNoCond, exElse, exA]).1 6 (by decide),
   (pass_total_and_skips exCfg [exNotEq, exA]).2.1 exNotEq [exA] rfl rfl,
   (pass_total_and_skips exCfg _).2.2
      [(exCond 0x30 1).plainIf exSlot1, (exCond 0x34 2).plainIf exSlot1] exNoCond
      [(exCond 0x38 3).plainIf exSlot1] rfl rfl (by simp [exNoCond, ifKind])⟩

/-! ## The renderers and the markers: claims C15 to C18 -/

/-- After the loop of `DCFuncNode::print_bin` over a body that is not empty, the
buffer holds the bytes of the last node of the body and nothing else. -/
theorem printBinBody_last (enc : Node → Option (List Nat)) (body : List Node) (last : Node)
    (bytes : List Nat) (hbody : ∀ n ∈ body, ∃ b, enc n = some b) (hlast : enc last = some bytes)
    (o : List Nat) : printBinBody enc (body ++ [last]) o = some bytes := by
  induction body generalizing o with
  | nil => simp [printBinBody, hlast, clear]
  | cons n body ih =>
    obtain ⟨b, hb⟩ := hbody n (mem_cons_self _ _)
    simp only [cons_append, printBinBody, hb]
    exact ih (fun m hm => hbody m (mem_cons_of_mem _ hm)) _

/-- What `DCFuncNode::print_bin` leaves in the buffer for a function with a body
that is not empty: the bytes of the last body node, 0x50, 0x7A. -/
theorem print_bin_nonempty (enc : Node → Option (List Nat)) (fn : DCFuncNode) (si : Node)
    (sibytes : List Nat) (body : List Node) (last : Node) (bytes o : List Nat)
    (hsi : fn.setinfonode = some si) (hsib : enc si = some sibytes)
    (hfn : fn.funcnodes = body ++ [last]) (hbody : ∀ n ∈ body, ∃ b, enc n = some b)
    (hlast : enc last = some bytes) :
    DCFuncNode.print_bin enc fn o = some (bytes ++ [0x50, 0x7A]) := by
  unfold DCFuncNode.print_bin
  simp only [hsi, hsib, hfn, printBinBody_last enc body last bytes hbody hlast]
  simp [write1]

/-- C15, the code at the failing input: for the folded sample function, whose
body is `exA`, `exB`, `DCFuncNode::print_bin` leaves only the byte of `exB`, 0x50
and 0x7A in the buffer, not the eight bytes 0x5A, locals size, set-info, 0x78,
`exA`, `exB`, 0x50, 0x7A of the claim. -/
theorem print_bin_drops_all_but_last :
    exFolded.funcnodes = [exA, exB] ∧
    DCFuncNode.print_bin exEnc exFolded [] = some [0x10, 0x50, 0x7A] ∧
    some ([0x5A, exFolded.locals_datasize % 256] ++ [0x77] ++ [0x78] ++ [0x0F, 0x10] ++
      [0x50, 0x7A]) ≠ DCFuncNode.print_bin exEnc exFolded [] :=
  ⟨rfl, by decide, by decide⟩

/-- C16, the code at the failing input: the sample function after the fold of
init, set-info, process-exclude and return, with no end marker attached
(`debug_end_offset` is 0).  `print_unk` fails on it, but `print_asm` and
`print_bin` return a rendering. -/
theorem renderers_without_end_marker :
    DCFuncNode.fold exCfg exFunc [exInit, exSetinfo, exProcExclude, exA, exB, exRet]
      = some (exFolded, []) ∧
    exFolded.debug_end_offset = 0 ∧
    DCFuncNode.print_unk exUnk exFolded 0 = none ∧
    DCFuncNode.print_asm exAsm exFolded =
      some [.asmHeader 0x20 0x5A, .printf "init\t\t%02X\n" [4], .printf "%02X" [0x77],
        .putchar '\n', .asmHeader 0x29 0x78, .printf "process exclude\n" [],
        .printf "%02X" [0x0F], .putchar '\n', .printf "%02X" [0x10], .putchar '\n',
        .asmHeader 0x40 0x50, .printf "ret\n" [], .asmHeader 0 0x7A, .printf "end\n" []] ∧
    DCFuncNode.print_bin exEnc exFolded [] = some [0x10, 0x50, 0x7A] :=
  ⟨rfl, rfl, by decide, by decide, by decide⟩

/-- The assertions that the renderers do make: `print_unk` is fatal unless the
this-pointer is confirmed and the offsets of the return and end markers are set;
`print_asm` and `print_bin` are fatal without a set-info node. -/
theorem renderers_assertions (fn : DCFuncNode) :
    (∀ nodeUnk isize, (fn.debug_thisp = false ∨ fn.debug_ret_offset = 0 ∨
        fn.debug_end_offset = 0) → DCFuncNode.print_unk nodeUnk fn isize = none) ∧
    (∀ nodeAsm, fn.setinfonode = none → DCFuncNode.print_asm nodeAsm fn = none) ∧
    (∀ enc o, fn.setinfonode = none → DCFuncNode.print_bin enc fn o = none) := by
  refine ⟨?_, ?_, ?_⟩
  · intro nodeUnk isize h
    unfold DCFuncNode.print_unk
    rcases h with h | h | h
    · simp [h]
    · cases printUnkBody nodeUnk isize fn.funcnodes <;> simp [h]
    · cases printUnkBody nodeUnk isize fn.funcnodes <;> simp [h]
  · intro nodeAsm h
    simp [DCFuncNode.print_asm, h]
  · intro enc o h
    simp [DCFuncNode.print_bin, h]

/-- C17: `FuncMutatorNode::fold` returns false exactly when the marker is an end
marker and true for every other kind.  For an end marker the function node at
the back of the deque (as `fold_linenum` leaves it) is replaced by that node
with the marker attached, nothing being pushed or popped; the fold is fatal when
that deque is empty or its back is not a function node (0xFFFF). -/
theorem mutator_fold_end (fold_linenum : List Node → List Node) (addEnd : Node → Node → Node)
    (op off : Nat) (rt : TypeTag) (mtype : MutatorType) (initsize linenum symoff : Nat)
    (classname : String) (unit : DCUnit) (nodes : List Node) :
    (∀ r, FuncMutatorNode.fold fold_linenum addEnd
        (.funcMutator op off rt mtype initsize linenum symoff classname) unit nodes = some r →
      (r.1 = false ↔ mtype = MutatorType.END)) ∧
    (mtype ≠ MutatorType.END → ∃ u, FuncMutatorNode.fold fold_linenum addEnd
        (.funcMutator op off rt mtype initsize linenum symoff classname) unit nodes
        = some (true, u, fold_linenum nodes)) ∧
    (mtype = MutatorType.END → ∀ below funcnode, fold_linenum nodes = below ++ [funcnode] →
      funcnode.opcode = 0xFFFF →
      FuncMutatorNode.fold fold_linenum addEnd
        (.funcMutator op off rt mtype initsize linenum symoff classname) unit nodes
        = some (false, unit, below ++
            [addEnd funcnode (.funcMutator op off rt mtype initsize linenum symoff classname)])) ∧
    (mtype = MutatorType.END → fold_linenum nodes = [] →
      FuncMutatorNode.fold fold_linenum addEnd
        (.funcMutator op off rt mtype initsize linenum symoff classname) unit nodes = none) ∧
    (mtype = MutatorType.END → ∀ below back, fold_linenum nodes = below ++ [back] →
      back.opcode ≠ 0xFFFF →
      FuncMutatorNode.fold fold_linenum addEnd
        (.funcMutator op off rt mtype initsize linenum symoff classname) unit nodes = none) := by
  refine ⟨?_, ?_, ?_, ?_, ?_⟩
  · intro r hr
    unfold FuncMutatorNode.fold at hr
    simp only at hr
    split_ifs at hr with h1 h2
    · simp only [Option.some.injEq] at hr
      rw [← hr, h1]
      simp
    · cases hl : (fold_linenum nodes).getLast? with
      | none => simp [hl] at hr
      | some f =>
        simp only [hl] at hr
        split_ifs at hr
        simp only [Option.some.injEq] at hr
        rw [← hr]
        simp [h2]
    · simp only [Option.some.injEq] at hr
      rw [← hr]
      simp [h2]
  · intro hne
    unfold FuncMutatorNode.fold
    simp only [hne, if_false]
    split_ifs
    · exact ⟨_, rfl⟩
    · exact ⟨_, rfl⟩
  · intro he below funcnode hstack hop
    subst he
    unfold FuncMutatorNode.fold
    simp [hstack, hop]
  · intro he hstack
    subst he
    unfold FuncMutatorNode.fold
    simp [hstack]
  · intro he below back hstack hop
    subst he
    unfold FuncMutatorNode.fold
    simp [hstack, hop]

/-- Instances of C17: with a function node (0xFFFF) at the back of the deque the
fold of an end marker returns false and leaves a deque of the same two nodes,
the marker attached to the second; on an empty deque it is fatal. -/
theorem mutator_fold_end_witness :
    FuncMutatorNode.fold id exAddEnd exEnd ⟨0, ""⟩ [exA, exFuncOnStack]
      = some (false, ⟨0, ""⟩, [exA] ++ [exAddEnd exFuncOnStack exEnd]) ∧
    FuncMutatorNode.fold id exAddEnd exEnd ⟨0, ""⟩ [] = none :=
  ⟨(mutator_fold_end id exAddEnd 0x7A 0x41 .T_INVALID .END 0 0 0 "" ⟨0, ""⟩
      [exA, exFuncOnStack]).2.2.1 rfl [exA] exFuncOnStack rfl rfl,
   (mutator_fold_end id exAddEnd 0x7A 0x41 .T_INVALID .END 0 0 0 "" ⟨0, ""⟩ []).2.2.2.1
      rfl rfl⟩

theorem length_writePadded (o b : List Nat) (pad : Nat) :
    (writePadded o b pad).length = o.length + pad := by
  simp [writePadded]

/-- C18: for a marker (of result type invalid, as line 90 asserts) with no line
number attached, `FuncMutatorNode::print_bin` puts at the end of the buffer, for a line-number marker, the byte 0x5B and the
2 bytes of the line number (3 bytes); for a symbol-info marker, the byte 0x5C,
2 bytes of value and a name field of 9 bytes (12 bytes); for a suspend marker
the byte 0x53 alone; for a return, init or end marker it is fatal. -/
theorem mutator_print_bin (op off initsize linenum symoff : Nat) (classname : String)
    (o : List Nat) :
    (FuncMutatorNode.print_bin []
        (.funcMutator op off .T_INVALID .LINE_NUMBER initsize linenum symoff classname) o
      = some (o ++ 0x5B :: write2 [] linenum) ∧
      (0x5B :: write2 [] linenum).length = 3) ∧
    (∃ value name,
      FuncMutatorNode.print_bin []
        (.funcMutator op off .T_INVALID .SYMBOL_INFO initsize linenum symoff classname) o
      = some (o ++ 0x5C :: (value ++ name)) ∧
      value = write2 [] (u32sub (u32sub symoff off) 3) ∧ value.length = 2 ∧
      name = writePadded [] (stringBytes classname) 9 ∧ name.length = 9 ∧
      (0x5C :: (value ++ name)).length = 12) ∧
    FuncMutatorNode.print_bin []
        (.funcMutator op off .T_INVALID .SUSPEND initsize linenum symoff classname) o
      = some (o ++ [0x53]) ∧
    FuncMutatorNode.print_bin []
        (.funcMutator op off .T_INVALID .RET initsize linenum symoff classname) o = none ∧
    FuncMutatorNode.print_bin []
        (.funcMutator op off .T_INVALID .INIT initsize linenum symoff classname) o = none ∧
    FuncMutatorNode.print_bin []
        (.funcMutator op off .T_INVALID .END initsize linenum symoff classname) o = none := by
  refine ⟨⟨?_, rfl⟩, ⟨write2 [] (u32sub (u32sub symoff off) 3),
    writePadded [] (stringBytes classname) 9, ?_, rfl, rfl, rfl, ?_, ?_⟩, ?_, rfl, rfl, rfl⟩
  · simp [FuncMutatorNode.print_bin, write1, write2]
  · simp [FuncMutatorNode.print_bin, write1, write2, writePadded]
  · simp [length_writePadded]
  · simp [length_writePadded, write2]
  · simp [FuncMutatorNode.print_bin, write1]

/-- Instance of C18: the symbol-info marker at offset 0x10 for the symbol `Foo`
at offset 0x20 is written as 12 bytes. -/
theorem mutator_print_bin_witness :
    FuncMutatorNode.print_bin [] (.funcMutator 0x5C 0x10 .T_INVALID .SYMBOL_INFO 0 0 0x20 "Foo") []
      = some [0x5C, 13, 0, 70, 111, 111, 0, 0, 0, 0, 0, 0] ∧
    FuncMutatorNode.print_bin [] (.funcMutator 0x5B 0x10 .T_INVALID .LINE_NUMBER 0 0x1234 0 "") []
      = some ([] ++ 0x5B :: write2 [] 0x1234) :=
  ⟨by decide, (mutator_print_bin 0x5B 0x10 0 0x1234 0 "" []).1.1⟩

/-! ## The header of a usecode file: claim C20 -/

theorem u32sub_of_le {v k : Nat} (hv : v < 2 ^ 32) (hk : k ≤ v) : u32sub v k = v - k := by
  unfold u32sub
  have hk' : k < 2 ^ 32 := lt_of_le_of_lt hk hv
  rw [Nat.mod_eq_of_lt hv, Nat.mod_eq_of_lt hk']
  have : v + 2 ^ 32 - k = (v - k) + 2 ^ 32 := by omega
  rw [this, Nat.add_mod_right, Nat.mod_eq_of_lt (by omega)]

theorem u32sub_of_lt {v k : Nat} (hk : k < 2 ^ 32) (hv : v < k) :
    u32sub v k = v + 2 ^ 32 - k := by
  unfold u32sub
  have hv' : v < 2 ^ 32 := lt_trans hv hk
  rw [Nat.mod_eq_of_lt hv', Nat.mod_eq_of_lt hk, Nat.mod_eq_of_lt (by omega)]

/-- C20: `readheader` reads exactly three 4-byte fields, one after the other;
it sets `maxOffset` to the second field minus 12 in `uint32` arithmetic (a field
below 12 wraps around modulo 2^32) and `curOffset` to 0; the first and the third
field have no part in the result.  On a source of bytes it takes exactly the
first 12 bytes. -/
theorem readheader_second_field {Src : Type} (read4 : Src → Nat × Src) (ucfile : Src)
    (uch : UsecodeHeader) (curOffset : Nat) :
    (readheader read4 ucfile uch curOffset).1 = (read4 (read4 (read4 ucfile).2).2).2 ∧
    (readheader read4 ucfile uch curOffset).2.1.maxOffset = u32sub (read4 (read4 ucfile).2).1 12 ∧
    (readheader read4 ucfile uch curOffset).2.2 = 0 ∧
    (∀ v, v < 2 ^ 32 → 12 ≤ v → u32sub v 12 = v - 12) ∧
    (∀ v, v < 12 → u32sub v 12 = v + 2 ^ 32 - 12) ∧
    (∀ a0 a1 a2 a3 b0 b1 b2 b3 c0 c1 c2 c3 rest,
      b0 < 256 → b1 < 256 → b2 < 256 → b3 < 256 →
      readheader read4Bytes
          (a0 :: a1 :: a2 :: a3 :: b0 :: b1 :: b2 :: b3 :: c0 :: c1 :: c2 :: c3 :: rest)
          uch curOffset
        = (rest, { maxOffset := u32sub (b0 + b1 * 2 ^ 8 + b2 * 2 ^ 16 + b3 * 2 ^ 24) 12 }, 0)) := by
  refine ⟨rfl, rfl, rfl, fun v hv hle => u32sub_of_le hv hle,
    fun v hv => u32sub_of_lt (by norm_num) hv, ?_⟩
  intro a0 a1 a2 a3 b0 b1 b2 b3 c0 c1 c2 c3 rest h0 h1 h2 h3
  simp [readheader, read4Bytes, Nat.mod_eq_of_lt h0, Nat.mod_eq_of_lt h1, Nat.mod_eq_of_lt h2,
    Nat.mod_eq_of_lt h3]

/-- Instances of C20: with second field 0x110 the maximal offset is 0x104, with
second field 3 it wraps to 2^32 - 9; one byte is left of the 13 given. -/
theorem readheader_second_field_witness :
    readheader read4Bytes (1 :: 0 :: 0 :: 0 :: 0x10 :: 1 :: 0 :: 0 :: 9 :: 9 :: 9 :: 9 :: [7])
        ⟨0⟩ 5
      = ([7], { maxOffset := u32sub (0x10 + 1 * 2 ^ 8 + 0 * 2 ^ 16 + 0 * 2 ^ 24) 12 }, 0) ∧
    u32sub (0x10 + 1 * 2 ^ 8 + 0 * 2 ^ 16 + 0 * 2 ^ 24) 12 = 0x104 ∧
    u32sub 3 12 = 3 + 2 ^ 32 - 12 :=
  ⟨(readheader_second_field read4Bytes [] ⟨0⟩ 5).2.2.2.2.2 1 0 0 0 0x10 1 0 0 9 9 9 9 [7]
      (by decide) (by decide) (by decide) (by decide),
   by decide,
   (readheader_second_field read4Bytes [] ⟨0⟩ 5).2.2.2.2.1 3 (by decide)⟩

/-! ## The event table: claim C21 -/

theorem readeventsLoop_fst {Src : Type} (read4 : Src → Nat × Src) (count i : Nat) (ucfile : Src)
    (m : EventMap) :
    (readeventsLoop read4 count i ucfile m).1 = (readFields read4 count ucfile).2 := by
  induction count generalizing i ucfile m with
  | zero => rfl
  | succ n ih => simp only [readeventsLoop, readFields]; exact ih _ _ _

/-- An offset that is not among those read keeps the entry it had. -/
theorem readeventsLoop_not_mem {Src : Type} (read4 : Src → Nat × Src) (count i : Nat)
    (ucfile : Src) (m : EventMap) (key : Nat)
    (h : key ∉ (readFields read4 count ucfile).1) :
    (readeventsLoop read4 count i ucfile m).2 key = m key := by
  induction count generalizing i ucfile m with
  | zero => rfl
  | succ n ih =>
    simp only [readFields, mem_cons, not_or] at h
    simp only [readeventsLoop]
    rw [ih _ _ _ h.2]
    simp [EventMap.set, h.1]

/-- The offset read at position `k` has the entry `i + k` when no later offset
equals it. -/
theorem readeventsLoop_last {Src : Type} (read4 : Src → Nat × Src) (count i : Nat)
    (ucfile : Src) (m : EventMap) (k offset : Nat)
    (hk : (readFields read4 count ucfile).1.get? k = some offset)
    (hlast : ∀ j, k < j → (readFields read4 count ucfile).1.get? j ≠ some offset) :
    (readeventsLoop read4 count i ucfile m).2 offset = some (i + k) := by
  induction count generalizing i ucfile m k with
  | zero => simp [readFields] at hk
  | succ n ih =>
    simp only [readeventsLoop]
    cases k with
    | zero =>
      simp only [readFields, get?_cons_zero, Option.some.injEq] at hk
      have hnot : offset ∉ (readFields read4 n (read4 ucfile).2).1 := by
        intro hmem
        obtain ⟨j, hj⟩ := get?_of_mem hmem
        exact hlast (j + 1) (Nat.succ_pos _) (by simpa [readFields] using hj)
      rw [readeventsLoop_not_mem read4 n _ _ _ offset hnot]
      simp [EventMap.set, hk]
    | succ k' =>
      simp only [readFields, get?_cons_succ] at hk
      have := ih (i + 1) (read4 ucfile).2 (m.set (read4 ucfile).1 i) k' hk
        (fun j hj => by
          have := hlast (j + 1) (by omega)
          simpa [readFields] using this)
      rw [this]
      congr 1
      omega

theorem readFields_length {Src : Type} (read4 : Src → Nat × Src) (count : Nat) (ucfile : Src) :
    (readFields read4 count ucfile).1.length = count := by
  induction count generalizing ucfile with
  | zero => rfl
  | succ n ih => simp [readFields, ih]

/-- C21 as stated fails: when the 32 offsets read are all 0, looking up the
offset read first (index 0) yields 31, the index of the last event. -/
theorem readevents_counterexample :
    (readFields read4Fields 32 (replicate 32 0)).1.get? 0 = some 0 ∧
    (readevents read4Fields (replicate 32 0) (fun _ => none)).2 0 = some 31 := by
  decide

/-- C21, amended: `readevents` discards the previous map and reads exactly 32
four-byte offsets; afterwards an offset that was not read has no entry, and an
offset that was read has as entry the index of its last occurrence among the 32:
looking up the `i`-th offset yields `i` when no later offset equals it, for
every `i` when the 32 offsets are pairwise different. -/
theorem readevents_last_index {Src : Type} (read4 : Src → Nat × Src) (ucfile : Src)
    (old : EventMap) :
    readevents read4 ucfile old = readevents read4 ucfile (fun _ => none) ∧
    (readevents read4 ucfile old).1 = (readFields read4 32 ucfile).2 ∧
    (readFields read4 32 ucfile).1.length = 32 ∧
    (∀ key, key ∉ (readFields read4 32 ucfile).1 → (readevents read4 ucfile old).2 key = none) ∧
    (∀ i offset, (readFields read4 32 ucfile).1.get? i = some offset →
      (∀ j, i < j → (readFields read4 32 ucfile).1.get? j ≠ some offset) →
      (readevents read4 ucfile old).2 offset = some i) ∧
    ((readFields read4 32 ucfile).1.Nodup →
      ∀ i offset, (readFields read4 32 ucfile).1.get? i = some offset →
        (readevents read4 ucfile old).2 offset = some i) := by
  have hlast : ∀ i offset, (readFields read4 32 ucfile).1.get? i = some offset →
      (∀ j, i < j → (readFields read4 32 ucfile).1.get? j ≠ some offset) →
      (readevents read4 ucfile old).2 offset = some i := by
    intro i offset hi hj
    have := readeventsLoop_last read4 32 0 ucfile (fun _ => none) i offset hi hj
    simpa [readevents] using this
  refine ⟨rfl, readeventsLoop_fst read4 32 0 ucfile _, readFields_length read4 32 ucfile,
    fun key hkey => readeventsLoop_not_mem read4 32 0 ucfile _ key hkey, hlast, ?_⟩
  intro hnodup i offset hi
  refine hlast i offset hi (fun j hij hj => ?_)
  have hjlt : j < (readFields read4 32 ucfile).1.length := by
    obtain ⟨h, -⟩ := get?_eq_some.mp hj
    exact h
  exact nodup_iff_get?_ne_get?.mp hnodup i j hij hjlt (hi.trans hj.symm)

/-- Instance of amended C21: for the offsets 100, 101, ..., 131, all different,
the offset read at index 5 is looked up as 5. -/
theorem readevents_last_index_witness :
    (readevents read4Fields (range' 100 32) (fun _ => none)).2 105 = some 5 :=
  (readevents_last_index read4Fields (range' 100 32) (fun _ => none)).2.2.2.2.2
    (by decide) 5 105 (by decide)

/-! ## The loop nodes: claim C22 -/

/-- C22 as stated fails: a collection-scan loop is also built by the default
constructor `LoopNode()`, which is given no opcode and asserts nothing.  With 0
left in the opcode field by `ColNode()` it returns a loop whose opcode is not
0x70, where the constructor that takes the opcode refuses the same value. -/
theorem default_loop_counterexample :
    (∃ n, LoopNode.LoopNodeDefault 0 0 .T_VOID 0 0 0 = some n ∧ n.opcode ≠ 0x70) ∧
    LoopNode.LoopNode 0 0 0 0 0 = none :=
  ⟨⟨_, rfl, by decide⟩, rfl⟩

/-- C22, amended: each constructor of a loop node that takes an opcode returns a
node only for its own opcode: a script-token loop only for 0x74, a
collection-scan loop only for 0x70, a loop-continuation marker only for 0x73 and
a foreach only for 0x75 or 0x76; any other opcode fails the assertion of the
constructor.  The node built carries the opcode it was given; a foreach built
from 0x75 is the list variant, one built from 0x76 the sparse-list variant.  The
default constructor of the collection-scan loop takes no opcode and never fails:
the loop it builds carries whatever opcode the base class was left with. -/
theorem loop_constructors_accept_own_opcode (opcode offset a b c : Nat) :
    ((∃ n, LoopScriptNode.LoopScriptNode opcode offset a = some n) ↔ opcode = 0x74) ∧
    (opcode ≠ 0x74 → LoopScriptNode.LoopScriptNode opcode offset a = none) ∧
    ((∃ n, LoopNode.LoopNode opcode offset a b c = some n) ↔ opcode = 0x70) ∧
    (opcode ≠ 0x70 → LoopNode.LoopNode opcode offset a b c = none) ∧
    ((∃ n, LoopNextNode.LoopNextNode opcode offset = some n) ↔ opcode = 0x73) ∧
    (opcode ≠ 0x73 → LoopNextNode.LoopNextNode opcode offset = none) ∧
    ((∃ n, ForeachNode.ForeachNode opcode offset a b c = some n) ↔
      (opcode = 0x75 ∨ opcode = 0x76)) ∧
    (opcode ≠ 0x75 → opcode ≠ 0x76 → ForeachNode.ForeachNode opcode offset a b c = none) ∧
    (∀ n, ForeachNode.ForeachNode opcode offset a b c = some n →
      n.opcode = opcode ∧ (opcode = 0x75 → n.ftype = foreachtype.FOREACH_LIST) ∧
      (opcode = 0x76 → n.ftype = foreachtype.FOREACH_SLIST)) ∧
    (∀ n, LoopScriptNode.LoopScriptNode opcode offset a = some n → n.opcode = opcode) ∧
    (∀ n, LoopNode.LoopNode opcode offset a b c = some n → n.opcode = opcode) ∧
    (∀ n, LoopNextNode.LoopNextNode opcode offset = some n → n.opcode = opcode) ∧
    (∀ colRtype, ∃ n, LoopNode.LoopNodeDefault opcode offset colRtype a b c = some n ∧
      n.opcode = opcode) := by
  refine ⟨?_, ?_, ?_, ?_, ?_, ?_, ?_, ?_, ?_, ?_, ?_, ?_, fun _ => ⟨_, rfl, rfl⟩⟩
  · by_cases h : opcode = 0x74 <;> simp [LoopScriptNode.LoopScriptNode, acceptOp, h]
  · intro h; simp [LoopScriptNode.LoopScriptNode, acceptOp, h]
  · by_cases h : opcode = 0x70 <;> simp [LoopNode.LoopNode, acceptOp, h]
  · intro h; simp [LoopNode.LoopNode, acceptOp, h]
  · by_cases h : opcode = 0x73 <;> simp [LoopNextNode.LoopNextNode, acceptOp, h]
  · intro h; simp [LoopNextNode.LoopNextNode, acceptOp, h]
  · by_cases h : opcode = 0x75
    · simp [ForeachNode.ForeachNode, acceptOp2, h]
    · by_cases h' : opcode = 0x76 <;> simp [ForeachNode.ForeachNode, acceptOp2, h, h']
  · intro h h'; simp [ForeachNode.ForeachNode, acceptOp2, h, h']
  · intro n hn
    unfold ForeachNode.ForeachNode at hn
    split_ifs at hn with h1 h2 h3
    · simp only [Option.some.injEq] at hn
      subst hn
      exact ⟨rfl, fun _ => rfl, fun h => by omega⟩
    · simp only [Option.some.injEq] at hn
      subst hn
      exact ⟨rfl, fun h => absurd h h2, fun _ => rfl⟩
  · intro n hn
    unfold LoopScriptNode.LoopScriptNode at hn
    split_ifs at hn
    simp only [Option.some.injEq] at hn
    subst hn
    rfl
  · intro n hn
    unfold LoopNode.LoopNode at hn
    split_ifs at hn
    simp only [Option.some.injEq] at hn
    subst hn
    rfl
  · intro n hn
    unfold LoopNextNode.LoopNextNode at hn
    split_ifs at hn
    simp only [Option.some.injEq] at hn
    subst hn
    rfl

/-- Instances of amended C22: a foreach from 0x76 is the sparse-list variant, and
the opcode 0x75 is refused by the constructor of the collection-scan loop that
takes an opcode. -/
theorem loop_constructors_accept_own_opcode_witness :
    (∃ n, ForeachNode.ForeachNode 0x76 0x30 1 2 0x50 = some n ∧
      n.ftype = foreachtype.FOREACH_SLIST) ∧
    LoopNode.LoopNode 0x75 0x30 1 2 3 = none :=
  ⟨⟨_, rfl, ((loop_constructors_accept_own_opcode 0x76 0x30 1 2 0x50).2.2.2.2.2.2.2.2.1 _ rfl).2.2
      rfl⟩,
   (loop_constructors_accept_own_opcode 0x75 0x30 1 2 3).2.2.2.1 (by decide)⟩

/-! ## The operand of a symbol-info marker: claim C23 -/

theorem u32sub_int (a b : Nat) : ((u32sub a b : Nat) : Int) = ((a : Int) - b) % 4294967296 := by
  unfold u32sub
  norm_num
  omega

/-- C23: the two bytes that `FuncMutatorNode::print_bin` writes behind the opcode
0x5C of a symbol-info marker hold, low byte first, the value
(symbol offset - node offset - 3) modulo 2^16; when the symbol offset lies in
[offset + 3, offset + 3 + 65535], adding the node offset and 3 to the written
value gives the symbol offset back. -/
theorem symbol_info_written_value (op off initsize linenum symoff : Nat) (classname : String)
    (linenumBytes o : List Nat) :
    ∃ b0 b1 name,
      FuncMutatorNode.print_bin linenumBytes
        (.funcMutator op off .T_INVALID .SYMBOL_INFO initsize linenum symoff classname) o
      = some (o ++ linenumBytes ++ 0x5C :: b0 :: b1 :: name) ∧
      b0 < 256 ∧ b1 < 256 ∧ name.length = 9 ∧
      ((b0 + 256 * b1 : Nat) : Int) = ((symoff : Int) - off - 3) % 65536 ∧
      (off + 3 ≤ symoff → symoff ≤ off + 3 + 65535 → b0 + 256 * b1 + off + 3 = symoff) := by
  have h1 := u32sub_int symoff off
  have h2 := u32sub_int (u32sub symoff off) 3
  refine ⟨u32sub (u32sub symoff off) 3 % 256, u32sub (u32sub symoff off) 3 / 256 % 256,
    writePadded [] (stringBytes classname) 9, ?_, ?_, ?_, ?_, ?_, ?_⟩
  · simp [FuncMutatorNode.print_bin, write1, write2, writePadded]
  · omega
  · omega
  · simp [length_writePadded]
  · generalize u32sub (u32sub symoff off) 3 = v at h2
    generalize u32sub symoff off = w at h1 h2
    omega
  · intro hlo hhi
    generalize u32sub (u32sub symoff off) 3 = v at h2
    generalize u32sub symoff off = w at h1 h2
    omega

/-- Instance of C23: the marker at offset 0x10 for a symbol at offset 0x20 is
written with the value 0x0D, and 0x0D + 0x10 + 3 is 0x20. -/
theorem symbol_info_written_value_witness :
    ∃ b0 b1 name,
      FuncMutatorNode.print_bin []
        (.funcMutator 0x5C 0x10 .T_INVALID .SYMBOL_INFO 0 0 0x20 "Foo") [0x53]
      = some ([0x53] ++ [] ++ 0x5C :: b0 :: b1 :: name) ∧
      b0 + 256 * b1 + 0x10 + 3 = 0x20 := by
  obtain ⟨b0, b1, name, h, _, _, _, _, hback⟩ :=
    symbol_info_written_value 0x5C 0x10 0 0 0x20 "Foo" [] [0x53]
  exact ⟨b0, b1, name, h, hback (by decide) (by decide)⟩

/-! ## The pseudocode of a marker: claim C24 -/

/-- Counterexample to C24: without `comment` a line-number marker and a
symbol-info marker emit nothing, not even the line-number prefix. -/
theorem print_unk_silent_counterexample :
    FuncMutatorNode.print_unk (fun isize => [ConOut.indent isize])
      (.funcMutator 0x5B 0x10 .T_INVALID .LINE_NUMBER 0 7 0 "") 1 false = some [] ∧
    FuncMutatorNode.print_unk (fun isize => [ConOut.indent isize])
      (.funcMutator 0x5C 0x10 .T_INVALID .SYMBOL_INFO 0 0 0x20 "Foo") 1 false = some [] := by
  decide

/-- C24 (amended): without `comment`, `FuncMutatorNode::print_unk` emits nothing
and fails no assertion for every marker but a suspend marker (return, init, end,
line-number and symbol-info alike, whatever the result type); a suspend marker
emits "suspend" in both modes; with `comment` a line-number marker and a
symbol-info marker emit their forms behind the line-number prefix, and rendering
a return, init or end marker is a fatal error. -/
theorem print_unk_by_mode (linenumUnk : Nat → List ConOut) (op off initsize linenum symoff : Nat)
    (classname : String) (isize : Nat) :
    (∀ rt mtype, mtype ≠ MutatorType.SUSPEND →
      FuncMutatorNode.print_unk linenumUnk
        (.funcMutator op off rt mtype initsize linenum symoff classname) isize false = some []) ∧
    (∀ comment, FuncMutatorNode.print_unk linenumUnk
        (.funcMutator op off .T_INVALID .SUSPEND initsize linenum symoff classname) isize comment
      = some [.printf "suspend" []]) ∧
    FuncMutatorNode.print_unk linenumUnk
        (.funcMutator op off .T_INVALID .LINE_NUMBER initsize linenum symoff classname) isize true
      = some (linenumUnk isize ++ [.printf "/*%d*/" [linenum]]) ∧
    FuncMutatorNode.print_unk linenumUnk
        (.funcMutator op off .T_INVALID .SYMBOL_INFO initsize linenum symoff classname) isize true
      = some (linenumUnk isize
          ++ [.printfStr "symbol_info_NOPRINT(0x%04X, \"%s\")" [symoff] classname]) ∧
    (∀ rt mtype, mtype = MutatorType.RET ∨ mtype = MutatorType.INIT ∨ mtype = MutatorType.END →
      FuncMutatorNode.print_unk linenumUnk
        (.funcMutator op off rt mtype initsize linenum symoff classname) isize true = none) := by
  refine ⟨?_, ?_, ?_, ?_, ?_⟩
  · intro rt mtype h
    simp [FuncMutatorNode.print_unk, h]
  · intro comment
    simp [FuncMutatorNode.print_unk]
  · simp [FuncMutatorNode.print_unk]
  · simp [FuncMutatorNode.print_unk]
  · intro rt mtype h
    rcases h with h | h | h <;> subst h <;> simp [FuncMutatorNode.print_unk]

/-- Instance of C24: an end marker is silent without `comment` and fatal with
it. -/
theorem print_unk_by_mode_witness :
    FuncMutatorNode.print_unk (fun isize => [ConOut.indent isize])
      (.funcMutator 0x7A 0x41 .T_INVALID .END 0 0 0 "") 1 false = some [] ∧
    FuncMutatorNode.print_unk (fun isize => [ConOut.indent isize])
      (.funcMutator 0x7A 0x41 .T_INVALID .END 0 0 0 "") 1 true = none :=
  ⟨(print_unk_by_mode (fun isize => [ConOut.indent isize]) 0x7A 0x41 0 0 0 "" 1).1
      .T_INVALID .END (by decide),
   (print_unk_by_mode (fun isize => [ConOut.indent isize]) 0x7A 0x41 0 0 0 "" 1).2.2.2.2
      .T_INVALID .END (Or.inr (Or.inr rfl))⟩

/-! ## The name of a function in the pseudocode: claim C25 -/

theorem length_fmt04X_ge (val : Nat) : 4 ≤ (fmt04X val).length := by
  simp only [fmt04X, String.length, length_append, length_replicate, length_map]
  omega

theorem length_fmt04X_le (val : Nat) : (fmt04X val).length ≤ 8 := by
  have h : (Nat.toDigits 16 (val % 2 ^ 32)).length ≤ 8 :=
    Nat.toDigitsCore_length 16 (by decide) _ _ 8 (by omega) (by decide)
  simp only [fmt04X, String.length, length_append, length_replicate, length_map]
  omega

/-- C25, the divergence: with an empty class name the buffer of 16 characters
cuts the name after 15 characters, in the middle of the word "function", so the
offset is never part of it and any two offsets of a class give the same name;
with a class name the result is the class name, "::" and the offset as `%04X`
(at least 4 digits). -/
theorem format_function_name_truncated (classId offset1 offset2 : Nat) (c : Char)
    (cs : List Char) :
    format_function_name "" classId offset1 = format_function_name "" classId offset2 ∧
    (format_function_name "" classId offset1).length = 15 ∧
    format_function_name "" 1 0x20 = "class_0001_func" ∧
    format_function_name "" 1 0x30 = "class_0001_func" ∧
    format_function_name (String.mk (c :: cs)) classId offset1
      = String.mk (c :: cs) ++ "::" ++ fmt04X offset1 ∧
    4 ≤ (fmt04X offset1).length ∧
    format_function_name "Foo" 1 0x20 = "Foo::0020" := by
  have hlen : ∀ o, (snprintf 16 ("class_" ++ fmt04X classId ++ "_function_" ++ fmt04X o)).data
      = (("class_" ++ fmt04X classId ++ "_function_").data).take 15 := by
    intro o
    have h4 := length_fmt04X_ge classId
    simp only [snprintf, String.data_append]
    apply take_append_of_le_length
    simp only [length_append, String.length, length_cons, length_nil] at h4 ⊢
    omega
  have hempty : ∀ o, format_function_name "" classId o
      = snprintf 16 ("class_" ++ fmt04X classId ++ "_function_" ++ fmt04X o) := by
    intro o
    simp [format_function_name]
  refine ⟨?_, ?_, by decide, by decide, ?_, length_fmt04X_ge offset1, by decide⟩
  · rw [hempty, hempty]
    exact String.ext ((hlen offset1).trans (hlen offset2).symm)
  · rw [hempty, String.length, hlen]
    have h4 := length_fmt04X_ge classId
    simp only [length_take, String.data_append, length_append, String.length, length_cons,
      length_nil] at h4 ⊢
    omega
  · have h8 := length_fmt04X_le offset1
    have hne : String.mk (c :: cs) ≠ "" := by
      intro h
      have := congrArg String.data h
      simp at this
    simp only [format_function_name, hne, ne_eq, not_false_eq_true, if_true, snprintf]
    congr 1
    apply String.ext
    simp only [String.length] at h8
    exact take_of_length_le (by omega)

/-! ## Running the pass twice: claim C26 -/

theorem chainAccepts_of_isSwitchNode {y : Node} (h : isSwitchNode y = true) (b : Node) :
    chainAccepts b y = false := by
  cases y <;> simp [isSwitchNode] at h
  rfl

/-- C26: the switch-collapse pass is idempotent.  When the opcode of a
synthesized switch is not 0x51, the opcode by which line 370 tells a
conditional, the pass run over a body that it has already processed gives that
body back: no further switch is synthesized and no node moves. -/
theorem collapse_idempotent (cfg : Synth) (_hsw : cfg.switchOpcode ≠ 0x51) (body : List Node) :
    collapseSwitches cfg (collapseSwitches cfg body) = collapseSwitches cfg body := by
  have h : collapseSwitches cfg (collapseSwitches cfg body) = collapseSwitches cfg body ∧
      ∀ y, (collapseSwitches cfg body).head? = some y →
        body.head? = some y ∨ isSwitchNode y = true := by
    refine collapseSwitches_induction cfg
      (motive := fun body out => collapseSwitches cfg out = out ∧
        ∀ y, out.head? = some y → body.head? = some y ∨ isSwitchNode y = true)
      ⟨collapseSwitches_nil cfg, by simp⟩ ?_ ?_ body
    · rintro x rest hkeep ⟨hidem, hhead⟩
      refine ⟨?_, fun y hy => Or.inl (by simpa using hy)⟩
      rw [collapseSwitches_keep cfg x _ ?_, hidem]
      intro b hb
      by_cases hx : chainAccepts b x = true
      · refine scanChain_length_lt_two b x _ (fun y hy => ?_)
        rcases hhead y hy with hrest | hsw
        · cases rest with
          | nil => simp at hrest
          | cons r rest' =>
            simp only [head?_cons, Option.some.injEq] at hrest
            subst hrest
            by_contra hacc
            have hacc' : chainAccepts b r = true := by simpa using hacc
            have := hkeep b hb
            unfold scanChain at this
            rw [takeWhile_cons_of_pos hx, takeWhile_cons_of_pos hacc'] at this
            simp only [length_cons] at this
            omega
        · exact chainAccepts_of_isSwitchNode hsw b
      · unfold scanChain
        rw [takeWhile_cons_of_neg hx]
        simp
    · rintro x rest b hb hlen ⟨hidem, -⟩
      obtain ⟨dflt, absorbed, hfst, -⟩ :=
        buildSwitch_parts cfg x b (scanChain b (x :: rest))
          ((x :: rest).drop (scanChain b (x :: rest)).length)
      rw [hfst]
      refine ⟨?_, fun y hy => Or.inr ?_⟩
      · rw [collapseSwitches_keep cfg _ _ (fun b' hb' => by simp [baseExprOf] at hb'), hidem]
      · simp only [head?_cons, Option.some.injEq] at hy
        rw [← hy]
        rfl
  exact h.1

/-- Instance of C26: the body of slot 1 == 1, slot 1 == 2, an else and a further
node collapses to a switch and that node, and the pass leaves this result as it
is. -/
theorem collapse_idempotent_witness :
    collapseSwitches exCfg
        (collapseSwitches exCfg
          [(exCond 0x30 1).plainIf exSlot1, (exCond 0x34 2).plainIf exSlot1, exElse, exA])
      = collapseSwitches exCfg
          [(exCond 0x30 1).plainIf exSlot1, (exCond 0x34 2).plainIf exSlot1, exElse, exA] ∧
    (collapseSwitches exCfg
        [(exCond 0x30 1).plainIf exSlot1, (exCond 0x34 2).plainIf exSlot1, exElse, exA]).length
      = 2 :=
  ⟨collapse_idempotent exCfg (by decide) _, by decide⟩

/-! ## Short chains and lone conditionals: claim C9 -/

/-- A node that joins the chain of `b` compares a variable of the kind and value
of the variable push `b`. -/
theorem chainAccepts_var {b c : Node} (h : chainAccepts b c = true) :
    ∃ bop boff brt bv v, b = .pushVar bop boff brt bv ∧ comparisonVar c = some v ∧
      v.dtype = bv.dtype ∧ v.value = bv.value := by
  unfold chainAccepts at h
  split at h
  · rename_i op off rt itype cop coff crt lop loff lrt lhs rnode nodes
    split at h
    · rename_i bop boff brt bv
      simp only [Bool.and_eq_true, beq_iff_eq, bne_iff_ne, acceptOp] at h
      obtain ⟨⟨⟨⟨-, -⟩, hcop⟩, hd⟩, hv⟩ := h
      exact ⟨bop, boff, brt, bv, lhs, rfl, by simp [comparisonVar, hcop], hd, hv⟩
    · exact absurd h (by simp)
  · exact absurd h (by simp)

/-- Two nodes that join the same chain are a pair of conditionals on the same
variable. -/
theorem sameVarPair_of_chainAccepts {b x y : Node} (hx : chainAccepts b x = true)
    (hy : chainAccepts b y = true) : SameVarPair x y := by
  obtain ⟨hxo, hxk⟩ := chainAccepts_kind hx
  obtain ⟨hyo, hyk⟩ := chainAccepts_kind hy
  obtain ⟨bop, boff, brt, bv, v, hb, hv, hvd, hvv⟩ := chainAccepts_var hx
  obtain ⟨bop', boff', brt', bv', w, hb', hw, hwd, hwv⟩ := chainAccepts_var hy
  rw [hb] at hb'
  simp only [Node.pushVar.injEq] at hb'
  obtain ⟨-, -, -, rfl⟩ := hb'
  exact ⟨hxo, hyo, hxk, hyk, v, w, hv, hw, hvd.trans hwd.symm, hvv.trans hwv.symm⟩

/-- A node whose successor is no partner of it heads a chain shorter than 2. -/
theorem scanChain_length_lt_two_of_not_pair (x : Node) (l : List Node)
    (h : ∀ y, l.head? = some y → ¬ SameVarPair x y) (b : Node) :
    (scanChain b (x :: l)).length < 2 := by
  by_cases hx : chainAccepts b x = true
  · refine scanChain_length_lt_two b x l (fun y hy => ?_)
    cases hacc : chainAccepts b y with
    | false => rfl
    | true => exact absurd (sameVarPair_of_chainAccepts hx hacc) (h y hy)
  · unfold scanChain
    rw [takeWhile_cons_of_neg hx]
    simp

theorem takeWhile_append_of_exists_neg {p : Node → Bool} (l m : List Node)
    (h : ∃ e ∈ l, p e = false) : takeWhile p (l ++ m) = takeWhile p l := by
  induction l with
  | nil => obtain ⟨e, he, -⟩ := h; simp at he
  | cons a l ih =>
    by_cases ha : p a = true
    · obtain ⟨e, he, hpe⟩ := h
      rcases mem_cons.mp he with rfl | he'
      · rw [ha] at hpe; exact absurd hpe (by simp)
      · simp [takeWhile_cons, ha, ih ⟨e, he', hpe⟩]
    · simp [takeWhile_cons, ha]

theorem getLast?_of_suffix {l1 l2 : List Node} {p : Node} (hs : l1 <:+ l2)
    (h : l1.getLast? = some p) : l2.getLast? = some p := by
  obtain ⟨t, rfl⟩ := hs
  rw [getLast?_append, h]
  rfl

/-- A node other than an else that is no partner of the node before it and has
no partner behind it splits the body: it is left in place and the pass works on
both sides of it independently. -/
theorem collapseSwitches_lone (cfg : Synth) (x : Node) (post : List Node)
    (hdef : mkDefault cfg.caseOpcode cfg.caseRtype x = none)
    (hsucc : ∀ y, post.head? = some y → ¬ SameVarPair x y) :
    ∀ pre, (∀ p, pre.getLast? = some p → ¬ SameVarPair p x) →
      collapseSwitches cfg (pre ++ x :: post) =
        collapseSwitches cfg pre ++ x :: collapseSwitches cfg post := by
  refine collapseSwitches_induction cfg
    (motive := fun pre out => (∀ p, pre.getLast? = some p → ¬ SameVarPair p x) →
      collapseSwitches cfg (pre ++ x :: post) = out ++ x :: collapseSwitches cfg post) ?_ ?_ ?_
  · intro _
    exact collapseSwitches_keep cfg x post
      (fun b _ => scanChain_length_lt_two_of_not_pair x post hsucc b)
  · intro a rest hkeep ih hlast
    have hrest : ∀ p, rest.getLast? = some p → ¬ SameVarPair p x := by
      intro p hp
      exact hlast p (getLast?_of_suffix (suffix_cons a rest) hp)
    rw [cons_append, collapseSwitches_keep cfg a _ (fun b hb => ?_), ih hrest]
    · rfl
    · by_cases ha : chainAccepts b a = true
      · refine scanChain_length_lt_two b a _ (fun y hy => ?_)
        cases hacc : chainAccepts b y with
        | false => rfl
        | true =>
          exfalso
          cases rest with
          | nil =>
            simp only [nil_append, head?_cons, Option.some.injEq] at hy
            subst hy
            exact hlast a rfl (sameVarPair_of_chainAccepts ha hacc)
          | cons r rest' =>
            simp only [cons_append, head?_cons, Option.some.injEq] at hy
            subst hy
            have := hkeep b hb
            unfold scanChain at this
            rw [takeWhile_cons_of_pos ha, takeWhile_cons_of_pos hacc] at this
            simp only [length_cons] at this
            omega
      · unfold scanChain
        rw [takeWhile_cons_of_neg ha]
        simp
  · intro a rest b hb hlen ih hlast
    have hchain : scanChain b (a :: rest ++ x :: post) = scanChain b (a :: rest) := by
      unfold scanChain
      cases hxa : chainAccepts b x with
      | false => exact takeWhile_append_stop _ x post hxa
      | true =>
        refine takeWhile_append_of_exists_neg _ _
          ⟨(a :: rest).getLast (cons_ne_nil _ _), getLast_mem _, ?_⟩
        cases hl : chainAccepts b ((a :: rest).getLast (cons_ne_nil _ _)) with
        | false => rfl
        | true =>
          exact absurd (sameVarPair_of_chainAccepts hl hxa)
            (hlast _ (getLast?_eq_getLast _ (cons_ne_nil _ _)))
    have hle : (scanChain b (a :: rest)).length ≤ (a :: rest).length :=
      (takeWhile_sublist _).length_le
    have hsuf : (buildSwitch cfg a b (scanChain b (a :: rest))
        ((a :: rest).drop (scanChain b (a :: rest)).length)).2 <:+ a :: rest :=
      (buildSwitch_snd_suffix cfg a b _ _).trans (drop_suffix _ _)
    rw [cons_append, collapseSwitches_cons, hb]
    simp only
    rw [← cons_append, hchain, if_neg (by omega), drop_append_of_le_length hle,
      buildSwitch_append_barrier cfg a b x _ _ post hdef]
    simp only
    rw [ih (fun p hp => hlast p (getLast?_of_suffix hsuf hp))]
    rfl

theorem mkDefault_eq_none_of_kind (caseOpcode : Nat) (caseRtype : TypeTag) {x : Node}
    (hkind : ifKind x ≠ some IfType.I_ELSE) : mkDefault caseOpcode caseRtype x = none := by
  cases hd : mkDefault caseOpcode caseRtype x with
  | none => rfl
  | some d =>
    obtain ⟨off, rt, cond, nodes, rfl, -⟩ := mkDefault_shape hd
    exact absurd rfl hkind
/-- C9 as stated fails, in two ways.  The plain-if at 0x30 is followed by an
else-if-continuation on the same variable, not by a plain-if, and the pass
rewrites it into the first case of a switch.  And the plain-if at 0x34 that ends
a run of two is followed by a node that is no conditional, yet it is not left in
the body: it becomes the second case of the switch. -/
theorem lone_plain_if_counterexample :
    collapseSwitches exCfg
        [(exCond 0x30 1).plainIf exSlot1, (exCond 0x34 2).toNode .I_ELSE_IF exSlot1] =
      [.switchNode 0x100 0x30 .T_VOID (.pushVar 0x3F 0x30 .T_WORD exSlot1)
        [.caseNode 0x101 0x30 .T_VOID (some (exLit 1)) [.other 0x0F 0x31 .T_VOID],
         .caseNode 0x101 0x34 .T_VOID (some (exLit 2)) [.other 0x0F 0x35 .T_VOID]]
        [(exCond 0x30 1).plainIf exSlot1, (exCond 0x34 2).toNode .I_ELSE_IF exSlot1]] ∧
    collapseSwitches exCfg
        [(exCond 0x30 1).plainIf exSlot1, (exCond 0x34 2).plainIf exSlot1, exB] =
      [.switchNode 0x100 0x30 .T_VOID (.pushVar 0x3F 0x30 .T_WORD exSlot1)
        [.caseNode 0x101 0x30 .T_VOID (some (exLit 1)) [.other 0x0F 0x31 .T_VOID],
         .caseNode 0x101 0x34 .T_VOID (some (exLit 2)) [.other 0x0F 0x35 .T_VOID]]
        [(exCond 0x30 1).plainIf exSlot1, (exCond 0x34 2).plainIf exSlot1],
       exB] :=
  ⟨rfl, rfl⟩

/-- C9, amended: every switch the pass produces is built from a chain of at
least 2 accepted conditionals of the body: it retains them as its first
originals and its first cases carry their right-hand operands as match values
(so at least 2 cases have a match value when the comparisons of the body have
their right-hand operand).  A node other than an else, wherever it stands in the
body, is left in the body unchanged when neither the node right before it nor
the node right behind it is paired with it (both conditionals other than an else
that compare the same variable); the pass then works on the nodes before it and
behind it independently.  This is so also when the node behind it is an else,
which is left unchanged too.  And any node with no conditional before it whose
successor does not join its chain is left unchanged with all the nodes before
it. -/
theorem no_switch_from_short_chain (cfg : Synth) (body : List Node) :
    (∀ n ∈ collapseSwitches cfg body, n ∈ body ∨
      ∃ off expr cases originals chain,
        n = .switchNode cfg.switchOpcode off cfg.switchRtype expr cases originals ∧
        2 ≤ chain.length ∧ (∀ c ∈ chain, c ∈ body ∧ chainAccepts expr c = true) ∧
        chain <+: originals ∧ chain.map condRhs <+: cases.map caseValue ∧
        ((∀ m ∈ body, cmpHasRhs m = true) → 2 ≤ (cases.filter hasMatchValue).length)) ∧
    (∀ pre x post, body = pre ++ x :: post → ifKind x ≠ some IfType.I_ELSE →
      (∀ p, pre.getLast? = some p → ¬ SameVarPair p x) →
      (∀ y, post.head? = some y → ¬ SameVarPair x y) →
      collapseSwitches cfg body =
        collapseSwitches cfg pre ++ x :: collapseSwitches cfg post) ∧
    (∀ pre x eoff ert econd ebody post,
      body = pre ++ x :: .ifNode 0x51 eoff ert .I_ELSE econd ebody :: post →
      ifKind x ≠ some IfType.I_ELSE →
      (∀ p, pre.getLast? = some p → ¬ SameVarPair p x) →
      collapseSwitches cfg body =
        collapseSwitches cfg pre ++
          x :: .ifNode 0x51 eoff ert .I_ELSE econd ebody :: collapseSwitches cfg post) ∧
    (∀ pre x post, body = pre ++ x :: post → (∀ p ∈ pre, p.opcode ≠ 0x51) →
      (∀ b y, baseExprOf x = some b → post.head? = some y → chainAccepts b y = false) →
      collapseSwitches cfg body = pre ++ x :: collapseSwitches cfg post) := by
  refine ⟨?_, ?_, ?_, ?_⟩
  · intro n hn
    rcases collapseSwitches_mem cfg body.length body (le_refl _) n hn with
      hm | ⟨i, b, ch, at', -, -, hlen, hch, hxe⟩
    · exact Or.inl hm
    · obtain ⟨d, a, hd⟩ := buildSwitch_fst cfg i b ch at'
      refine Or.inr ⟨i.offset, b, _, _, ch, hxe.trans hd, hlen, hch, prefix_append _ _, ?_, ?_⟩
      · rw [map_append, map_map]
        have : (caseValue ∘ mkCase cfg.caseOpcode cfg.caseRtype) = condRhs := by
          funext c
          exact caseValue_mkCase _ _ c
        rw [this]
        exact prefix_append _ _
      · intro hrhs
        rw [filter_append, length_append]
        have hall : ∀ k ∈ ch.map (mkCase cfg.caseOpcode cfg.caseRtype), hasMatchValue k = true := by
          intro k hk
          obtain ⟨c, hc, rfl⟩ := mem_map.mp hk
          exact hasMatchValue_mkCase _ _ (hch c hc).2 (hrhs c (hch c hc).1)
        rw [filter_eq_self.mpr hall, length_map]
        omega
  · intro pre x post hb hkind hpred hsucc
    rw [hb]
    exact collapseSwitches_lone cfg x post (mkDefault_eq_none_of_kind _ _ hkind) hsucc pre hpred
  · intro pre x eoff ert econd ebody post hb hkind hpred
    have helse : ∀ z, ¬ SameVarPair z (.ifNode 0x51 eoff ert .I_ELSE econd ebody) := by
      rintro z ⟨-, -, -, ⟨k, hk, hk'⟩, -⟩
      simp only [ifKind, Option.some.injEq] at hk
      exact hk' hk.symm
    rw [hb, collapseSwitches_lone cfg x _ (mkDefault_eq_none_of_kind _ _ hkind)
        (fun y hy => by
          simp only [head?_cons, Option.some.injEq] at hy
          rw [← hy]
          exact helse x) pre hpred,
      collapseSwitches_keep cfg _ post (fun b _ => by
        unfold scanChain
        rw [takeWhile_cons_of_neg (by simp [chainAccepts_else])]
        simp)]
  · intro pre x post hb hpre hx
    rw [hb, collapseSwitches_skip cfg pre _ hpre,
      collapseSwitches_keep cfg x post
        (fun b hbx => scanChain_length_lt_two b x post (fun y hy => hx b y hbx hy))]

/-- Instances of amended C9: a plain-if on slot 1 that stands behind a plain-if
on slot 2 and before an else is left as it is, and so is the else; a plain-if on
slot 1 between a run of two on slot 2 and a node that is no conditional is left
as it is, while the run before it is collapsed. -/
theorem no_switch_from_short_chain_witness :
    collapseSwitches exCfg
        ([(exCond 0x2C 5).plainIf exSlot2] ++ (exCond 0x30 1).plainIf exSlot1 :: exElse :: []) =
      collapseSwitches exCfg [(exCond 0x2C 5).plainIf exSlot2] ++
        (exCond 0x30 1).plainIf exSlot1 :: exElse :: collapseSwitches exCfg [] ∧
    collapseSwitches exCfg
        ([(exCond 0x28 4).plainIf exSlot2, (exCond 0x2C 5).plainIf exSlot2] ++
          (exCond 0x30 1).plainIf exSlot1 :: [exB]) =
      collapseSwitches exCfg [(exCond 0x28 4).plainIf exSlot2, (exCond 0x2C 5).plainIf exSlot2] ++
        (exCond 0x30 1).plainIf exSlot1 :: collapseSwitches exCfg [exB] ∧
    (collapseSwitches exCfg
        [(exCond 0x28 4).plainIf exSlot2, (exCond 0x2C 5).plainIf exSlot2]).length = 1 :=
  ⟨(no_switch_from_short_chain exCfg
      ([(exCond 0x2C 5).plainIf exSlot2] ++ (exCond 0x30 1).plainIf exSlot1 :: exElse :: [])).2.2.1
      [(exCond 0x2C 5).plainIf exSlot2] ((exCond 0x30 1).plainIf exSlot1) 0x60 .T_INVALID none
      [exB] [] rfl (by simp [ifKind, EqIf.plainIf, EqIf.toNode])
      (fun p hp => by
        simp only [getLast?_singleton, Option.some.injEq] at hp
        subst hp
        rintro ⟨-, -, -, -, v, w, hv, hw, hd, hval⟩
        simp [comparisonVar, EqIf.plainIf, EqIf.toNode, EqIf.lhs, exCond] at hv hw
        subst hv hw
        simp [exSlot1, exSlot2] at hval),
   (no_switch_from_short_chain exCfg
      ([(exCond 0x28 4).plainIf exSlot2, (exCond 0x2C 5).plainIf exSlot2] ++
        (exCond 0x30 1).plainIf exSlot1 :: [exB])).2.1
      [(exCond 0x28 4).plainIf exSlot2, (exCond 0x2C 5).plainIf exSlot2]
      ((exCond 0x30 1).plainIf exSlot1) [exB] rfl (by simp [ifKind, EqIf.plainIf, EqIf.toNode])
      (fun p hp => by
        simp only [getLast?_cons_cons, getLast?_singleton, Option.some.injEq] at hp
        subst hp
        rintro ⟨-, -, -, -, v, w, hv, hw, hd, hval⟩
        simp [comparisonVar, EqIf.plainIf, EqIf.toNode, EqIf.lhs, exCond] at hv hw
        subst hv hw
        simp [exSlot1, exSlot2] at hval)
      (fun y hy => by
        simp only [head?_cons, Option.some.injEq] at hy
        subst hy
        rintro ⟨-, hop, -⟩
        simp [exB, Node.opcode] at hop),
   by decide⟩

end Fold
